import Mathlib

/-!
# Taiga: the HTTP transport layer (`base/http_request.cpp`, `taiga/http.cpp`)

A shallow embedding of `base::http::Client` (one transfer handle) and of
`taiga::HttpManager` (queue, per-host connection counters, client pool), in the
queued build (`TAIGA_HTTP_MULTITHREADED` defined).

Conventions of the embedding.

* C++ references to a client are indices into `clients_` (a `std::list`, whose
  elements never move).
* `std::map<string_t, unsigned>` is an association list read by first match;
  `operator[]` creates the entry with value 0 when it is absent.
* The `unsigned int` counters are natural numbers: a counter only grows by
  `++`, one at a time.  The `size_t` loop index of `ProcessQueue` does wrap
  (`i--` at 0), and is modelled modulo `size_t_modulus`.
* Everything the transfer engine and the collaborators decide (results of
  libcurl calls, of `CreateThread`, of the feed aggregator, ...) is read from
  an `Engine` record, so that every outcome can be quantified over.
* Virtual callbacks (`OnError`, `OnReadComplete`) are fields of an `Owner`
  record: `base::http::Client` code is written once, against any owner, and
  `taiga::HttpClient` supplies the owner that calls into the manager.
* Calls that leave the subsystem (UI, collaborators, error log, thread
  creation) are appended to a `trace`.
* A run that dereferences a null pointer, erases past the end of the queue,
  exceeds a vector's capacity or exhausts the stack yields `none`.
-/

namespace taiga

abbrev string_t := String

abbrev uid_t := String

abbrev CURLcode := Nat

def CURLE_OK : CURLcode := 0

def CURLE_COULDNT_RESOLVE_HOST : CURLcode := 6

def CURLE_COULDNT_CONNECT : CURLcode := 7

def CURLE_ABORTED_BY_CALLBACK : CURLcode := 42

/-- Global ceiling, `taiga/http.cpp` line 41. -/
def kMaxSimultaneousConnections : Nat := 10

/-- Per-host ceiling, `taiga/http.cpp` line 42. -/
def kMaxSimultaneousConnectionsPerHostname : Nat := 6

/-- Number of values of `size_t` (the Win32 build; the proofs only use that it is positive). -/
def size_t_modulus : Nat := 2 ^ 32

/-- Bound on `std::vector::max_size()`: `push_back` throws once the size reaches it. -/
def vector_max_size : Nat := size_t_modulus - 1

/-! ## The host connection counters: `std::map<string_t, unsigned int>` -/

abbrev Connections := List (string_t × Nat)

namespace Connections

/-- Value stored for `hostname`, 0 when there is no entry (what `m[hostname]` reads). -/
def at_ (m : Connections) (hostname : string_t) : Nat :=
  match m with
  | [] => 0
  | (k, v) :: rest => if k = hostname then v else at_ rest hostname

/-- Entry creation done by `operator[]`: an absent key is added with value 0. -/
def touch (m : Connections) (hostname : string_t) : Connections :=
  match m with
  | [] => [(hostname, 0)]
  | (k, v) :: rest => if k = hostname then (k, v) :: rest else (k, v) :: touch rest hostname

/-- Effect of `m[hostname]++`. -/
def increment (m : Connections) (hostname : string_t) : Connections :=
  match m with
  | [] => [(hostname, 1)]
  | (k, v) :: rest =>
    if k = hostname then (k, v + 1) :: rest else (k, v) :: increment rest hostname

/-- Effect of `m[hostname]--` (only executed behind the guard `m[hostname] > 0`). -/
def decrement (m : Connections) (hostname : string_t) : Connections :=
  match m with
  | [] => [(hostname, 0)]
  | (k, v) :: rest =>
    if k = hostname then (k, v - 1) :: rest else (k, v) :: decrement rest hostname

/-- The sum computed by `foreach_(it, connections_) connections += it->second`. -/
def total (m : Connections) : Nat :=
  match m with
  | [] => 0
  | (_, v) :: rest => v + total rest

end Connections

/-! ## Value types -/

/-- The closed enumeration `taiga::HttpClientMode` (the values named in `taiga/http.cpp` and `ui/ui.cpp`). -/
inductive HttpClientMode
  | kHttpSilent
  | kHttpServiceAuthenticateUser
  | kHttpServiceGetMetadataById
  | kHttpServiceGetMetadataByIdV2
  | kHttpServiceSearchTitle
  | kHttpServiceAddLibraryEntry
  | kHttpServiceDeleteLibraryEntry
  | kHttpServiceGetLibraryEntries
  | kHttpServiceUpdateLibraryEntry
  | kHttpGetLibraryEntryImage
  | kHttpFeedCheck
  | kHttpFeedCheckAuto
  | kHttpFeedDownload
  | kHttpFeedDownloadAll
  | kHttpTwitterRequest
  | kHttpTwitterAuth
  | kHttpTwitterPost
  | kHttpTaigaUpdateCheck
  | kHttpTaigaUpdateDownload
deriving DecidableEq, Repr

open HttpClientMode

structure Url where
  protocol : string_t
  host : string_t
  path : string_t
deriving DecidableEq, Repr

/-- The request value `base::http::Request`; `header` is the header map (its type is declared in
`base/http.h`, not under src/): the list of its fields in iteration order. -/
structure HttpRequest where
  uid : uid_t
  url : Url
  method : string_t
  header : List (string_t × string_t)
  body : string_t
  parameter : Nat
deriving DecidableEq, Repr

structure HttpResponse where
  uid : uid_t
  body : string_t
  parameter : Nat
deriving DecidableEq, Repr

/-- The options passed to `curl_easy_setopt` by `Client::SetRequestOptions`. -/
inductive CURLoption
  | CURLOPT_VERBOSE
  | CURLOPT_DEBUGFUNCTION
  | CURLOPT_DEBUGDATA
  | CURLOPT_HEADERFUNCTION
  | CURLOPT_HEADERDATA
  | CURLOPT_WRITEFUNCTION
  | CURLOPT_WRITEDATA
  | CURLOPT_NOPROGRESS
  | CURLOPT_XFERINFOFUNCTION
  | CURLOPT_XFERINFODATA
  | CURLOPT_URL
  | CURLOPT_PROTOCOLS
  | CURLOPT_REDIR_PROTOCOLS
  | CURLOPT_PROXY
  | CURLOPT_PROXYUSERNAME
  | CURLOPT_PROXYPASSWORD
  | CURLOPT_FOLLOWLOCATION
  | CURLOPT_POSTFIELDS
  | CURLOPT_POSTFIELDSIZE
  | CURLOPT_POST
  | CURLOPT_REFERER
  | CURLOPT_USERAGENT
  | CURLOPT_HTTPHEADER
  | CURLOPT_SSL_VERIFYPEER
  | CURLOPT_SSL_VERIFYHOST
deriving DecidableEq, Repr

open CURLoption

/-- The fields of `base::http::Client` together with `taiga::HttpClient::mode_`.
`curl_handle_` records whether the handle is non-null, `content_encoding_gzip`
whether `content_encoding_ == kContentEncodingGzip`. -/
structure HttpClient where
  request_ : HttpRequest
  response_ : HttpResponse
  busy_ : Bool
  allow_reuse_ : Bool
  auto_redirect_ : Bool
  cancel_ : Bool
  curl_handle_ : Bool
  content_encoding_gzip : Bool
  write_buffer_ : string_t
  optional_data_ : string_t
  header_list_ : List string_t
  proxy_host_ : string_t
  proxy_username_ : string_t
  proxy_password_ : string_t
  referer_ : string_t
  user_agent_ : string_t
  mode_ : HttpClientMode
deriving DecidableEq, Repr

/-- Everything decided outside the subsystem: libcurl, the thread library, the
settings store, the build flags and the collaborators asked by `HandleResponse`. -/
structure Engine where
  curl_global_initialized : Bool
  curl_easy_init : HttpClient → Bool
  curl_easy_setopt : HttpClient → CURLoption → CURLcode
  curl_easy_strerror : CURLcode → string_t
  CreateThread : HttpClient → Bool
  UncompressGzippedString : string_t → string_t
  kApp_Connection_ProxyHost : string_t
  kApp_Connection_ProxyUsername : string_t
  kApp_Connection_ProxyPassword : string_t
  user_agent : string_t
  build_DEBUG : Bool
  build_TAIGA_HTTP_SSL_UNSECURE : Bool
  ImageDatabase_Load : Int → Bool
  Aggregator_ValidateFeedDownload : HttpRequest → HttpResponse → Bool
  Updater_ParseData : string_t → Bool
  Updater_IsDownloadAllowed : Bool

/-- Calls that leave the subsystem, and the two terminal entry points of the manager. -/
inductive Event
  | Client_MakeRequest (client : Nat) (request : HttpRequest)
  | HandleResponse (uid : uid_t)
  | HandleError (uid : uid_t) (error : string_t)
  | LOG_LevelError_already_zero (hostname : string_t)
  | ui_OnHttpError (mode : HttpClientMode) (error : string_t)
  | ui_OnHttpReadComplete (mode : HttpClientMode)
  | ui_OnLibraryEntryImageChange (anime_id : Int)
  | ui_OnUpdateFinished
  | Stats_connections_failed
  | Stats_connections_succeeded
  | ServiceManager_HandleHttpError (response : HttpResponse) (error : string_t)
  | ServiceManager_HandleHttpResponse (response : HttpResponse)
  | SaveToFile_image (anime_id : Int) (data : string_t)
  | ImageDatabase_Load (anime_id : Int)
  | Aggregator_HandleFeedCheck (feed : Nat) (data : string_t) (automatic : Bool)
  | Aggregator_ValidateFeedDownload (request : HttpRequest) (response : HttpResponse)
  | Aggregator_HandleFeedDownload (feed : Nat) (data : string_t) (download_all : Bool)
  | Twitter_HandleHttpResponse (mode : HttpClientMode) (response : HttpResponse)
  | Updater_ParseData (body : string_t)
  | Updater_IsDownloadAllowed
  | SaveToFile_update (data : string_t)
  | Updater_RunInstaller
deriving DecidableEq, Repr

/-- The manager `taiga::HttpManager`, with the trace of outward calls. -/
structure HttpManager where
  clients_ : List HttpClient
  connections_ : Connections
  requests_ : List (HttpRequest × HttpClientMode)
  trace : List Event
deriving DecidableEq, Repr

/-! ## `base::http::Client` (`base/http_request.cpp`) -/

/-- The owner of a client: where the client lives (`self`, `update`) and the
virtual callbacks it overrides.  A callback may fail (`none`) when the owner
crashes. -/
structure Owner (σ : Type) where
  self : σ → HttpClient
  update : σ → HttpClient → σ
  OnError : CURLcode → σ → Option σ
  OnReadComplete : σ → Option σ

/-- Sequencing of the `bool`-returning steps of `SetRequestOptions`: a step
that returned `false` ends the function. -/
def andThen {σ : Type} (r : Option (σ × Bool)) (f : σ → Option (σ × Bool)) : Option (σ × Bool) :=
  match r with
  | none => none
  | some (w, false) => some (w, false)
  | some (w, true) => f w

/-- First index at which `p` holds (the `foreach_` searches of the manager). -/
def findFirst {α : Type} (p : α → Bool) : List α → Option Nat
  | [] => none
  | a :: rest => if p a then some 0 else (findFirst p rest).map (fun k => k + 1)

/-- Modelled from the spec: the header map type (`base/http.h`) is not under src/; the spec
describes the header mapping of a request as "key unique, case-insensitive, insertion order
irrelevant".  A key is compared through its letters in lower case. -/
def header_key (key : string_t) : string_t :=
  ⟨key.data.map Char.toLower⟩

/-- Number of entries of a header map under a key, `header.count(key)`: keys are compared
without regard to case (see `header_key`). -/
def header_count (header : List (string_t × string_t)) (key : string_t) : Nat :=
  match header with
  | [] => 0
  | (k, _) :: rest => if header_key k = header_key key then 1 else header_count rest key

/-- Assignment `header[key] = value` on a header map kept in key order: the value of an entry with
the same key (up to case) is replaced and its key is kept as it was written; otherwise a new
entry is inserted. -/
def header_assign (header : List (string_t × string_t)) (key value : string_t) :
    List (string_t × string_t) :=
  match header with
  | [] => [(key, value)]
  | (k, v) :: rest =>
    if header_key k = header_key key then (k, value) :: rest
    else if header_key key < header_key k then (key, value) :: (k, v) :: rest
    else (k, v) :: header_assign rest key value

/-- Lookup `header.find(key)` in a header map: the value stored under the key (up to case), if
any. -/
def header_find (header : List (string_t × string_t)) (key : string_t) : Option string_t :=
  match header with
  | [] => none
  | (k, v) :: rest => if header_key k = header_key key then some v else header_find rest key

/-- Modelled from the spec: `TrimRight` (`base/string.cpp`) is not under src/; by its name and its
call in `HttpClient::OnError` it removes from the end of the string every character that occurs
in `trim_chars`. -/
def TrimRight (str trim_chars : string_t) : string_t :=
  ⟨(str.data.reverse.dropWhile (fun ch => trim_chars.data.contains ch)).reverse⟩

/-- The conversion `static_cast<int>(response.parameter)`: the low 32 bits of the parameter, read
as a signed number. -/
def static_cast_int (parameter : Nat) : Int :=
  if parameter % 2 ^ 32 < 2 ^ 31 then ((parameter % 2 ^ 32 : Nat) : Int)
  else ((parameter % 2 ^ 32 : Nat) : Int) - 2 ^ 32

namespace Client

/-- Modelled from the spec: `Client::Cleanup` is not under src/; the spec states that every
terminal path releases the client from `busy` ("Busy → Idle on any terminal
callback", "released from busy regardless of policy"). -/
def Cleanup (c : HttpClient) (_reuse : Bool) : HttpClient :=
  { c with busy_ := false }

/-- Modelled from the spec: `Client::Cancel` is not under src/; the spec describes a
best-effort abort through the engine's callback mechanism, which only raises a
flag on the client (the engine later ends the transfer with
`CURLE_ABORTED_BY_CALLBACK`). -/
def Cancel (c : HttpClient) : HttpClient :=
  { c with cancel_ := true }

/-- The function `Client::Initialize`, lines 58-66. -/
def Initialize (E : Engine) (c : HttpClient) : HttpClient × Bool :=
  if !E.curl_global_initialized then (c, false)
  else
    let c1 := if !c.curl_handle_ then { c with curl_handle_ := E.curl_easy_init c } else c
    (c1, c1.curl_handle_)

/-- The function `Client::BuildRequestHeader`, lines 208-228. -/
def BuildRequestHeader (c : HttpClient) : HttpClient :=
  let h0 := c.request_.header
  let h1 := if header_count h0 "Accept" = 0 then header_assign h0 "Accept" "*/*" else h0
  let h2 :=
    if c.request_.method = "POST" ∨ c.request_.method = "PUT" then
      if header_count h1 "Content-Type" = 0 then
        header_assign h1 "Content-Type" "application/x-www-form-urlencoded"
      else h1
    else h1
  let lines := h2.map (fun kv => if kv.2 ≠ "" then kv.1 ++ ": " ++ kv.2 else kv.1 ++ ";")
  { c with request_ := { c.request_ with header := h2 },
           header_list_ := c.header_list_ ++ lines }

/-- The macro `TAIGA_CURL_SET_OPTION` (lines 71-75) applied to consecutive
options: the first result other than `CURLE_OK` is passed to `OnError` and the
function returns `false`. -/
def TAIGA_CURL_SET_OPTION {σ : Type} (O : Owner σ) (E : Engine) :
    List CURLoption → σ → Option (σ × Bool)
  | [], w => some (w, true)
  | option :: rest, w =>
    let code := E.curl_easy_setopt (O.self w) option
    if code ≠ CURLE_OK then (O.OnError code w).map (fun w1 => (w1, false))
    else TAIGA_CURL_SET_OPTION O E rest w

/-- Options set up to and including the auto-redirect option (lines 80-131). -/
def options_network (E : Engine) (c : HttpClient) : List CURLoption :=
  (if E.build_DEBUG then [CURLOPT_VERBOSE, CURLOPT_DEBUGFUNCTION, CURLOPT_DEBUGDATA] else [])
  ++ [CURLOPT_HEADERFUNCTION, CURLOPT_HEADERDATA, CURLOPT_WRITEFUNCTION, CURLOPT_WRITEDATA,
      CURLOPT_NOPROGRESS, CURLOPT_XFERINFOFUNCTION, CURLOPT_XFERINFODATA,
      CURLOPT_URL, CURLOPT_PROTOCOLS, CURLOPT_REDIR_PROTOCOLS]
  ++ (if c.proxy_host_ ≠ "" then
        [CURLOPT_PROXY]
        ++ (if c.proxy_username_ ≠ "" then [CURLOPT_PROXYUSERNAME] else [])
        ++ (if c.proxy_password_ ≠ "" then [CURLOPT_PROXYPASSWORD] else [])
      else [])
  ++ (if c.auto_redirect_ then [CURLOPT_FOLLOWLOCATION] else [])

/-- Options set for the referrer and the user agent (lines 141-151). -/
def options_identity (c : HttpClient) : List CURLoption :=
  (if c.referer_ ≠ "" then [CURLOPT_REFERER] else [])
  ++ (if c.user_agent_ ≠ "" then [CURLOPT_USERAGENT] else [])

/-- Options set after `BuildRequestHeader` (lines 155-163). -/
def options_header (E : Engine) : List CURLoption :=
  [CURLOPT_HTTPHEADER]
  ++ (if E.build_TAIGA_HTTP_SSL_UNSECURE then [CURLOPT_SSL_VERIFYPEER, CURLOPT_SSL_VERIFYHOST]
      else [])

/-- The function `Client::SetRequestOptions`, lines 68-168. -/
def SetRequestOptions {σ : Type} (O : Owner σ) (E : Engine) (w : σ) : Option (σ × Bool) :=
  andThen (TAIGA_CURL_SET_OPTION O E (options_network E (O.self w)) w) fun w1 =>
  andThen
    (if (O.self w1).request_.method = "POST" then
      TAIGA_CURL_SET_OPTION O E [CURLOPT_POSTFIELDS, CURLOPT_POSTFIELDSIZE, CURLOPT_POST]
        (O.update w1 { O.self w1 with optional_data_ := (O.self w1).request_.body })
    else some (w1, true)) fun w2 =>
  andThen (TAIGA_CURL_SET_OPTION O E (options_identity (O.self w2)) w2) fun w3 =>
  TAIGA_CURL_SET_OPTION O E (options_header E) (O.update w3 (BuildRequestHeader (O.self w3)))

/-- The function `Client::SendRequest`, lines 170-176, queued build: the transfer thread is
created; its body (`ThreadProc`, that is `Perform`) runs later. -/
def SendRequest {σ : Type} (O : Owner σ) (E : Engine) (w : σ) : σ × Bool :=
  (w, E.CreateThread (O.self w))

/-- The function `Client::MakeRequest`, lines 30-54. -/
def MakeRequest {σ : Type} (O : Owner σ) (E : Engine) (request : HttpRequest) (w : σ) :
    Option (σ × Bool) :=
  if (O.self w).busy_ then some (w, false)
  else
    let c := O.self w
    let c1 := { c with busy_ := true, request_ := request,
                       response_ := { c.response_ with parameter := request.parameter,
                                                       uid := request.uid } }
    let (c2, initialized) := Initialize E c1
    let w2 := O.update w c2
    let started : Option (σ × Bool) :=
      if initialized then
        andThen (SetRequestOptions O E w2) fun w3 => some (SendRequest O E w3)
      else some (w2, false)
    match started with
    | none => none
    | some (w4, true) => some (w4, true)
    | some (w4, false) => some (O.update w4 (Cleanup (O.self w4) false), false)

/-- The function `Client::Perform`, lines 178-200, for the result `code` of `curl_easy_perform`. -/
def Perform {σ : Type} (O : Owner σ) (E : Engine) (code : CURLcode) (w : σ) :
    Option (σ × Bool) :=
  let reported : Option σ :=
    if code = CURLE_OK then
      let c := O.self w
      let c1 :=
        if c.write_buffer_ ≠ "" then
          let c0 :=
            if c.content_encoding_gzip then
              { c with write_buffer_ := E.UncompressGzippedString c.write_buffer_ }
            else c
          { c0 with response_ := { c0.response_ with body := c0.write_buffer_ } }
        else c
      O.OnReadComplete (O.update w c1)
    else if code ≠ CURLE_ABORTED_BY_CALLBACK then O.OnError code w
    else some w
  reported.map fun w1 =>
    (O.update w1 (Cleanup (O.self w1) (O.self w1).allow_reuse_), code == CURLE_OK)

/-- The function `Client::ThreadProc`, lines 202-204. -/
def ThreadProc {σ : Type} (O : Owner σ) (E : Engine) (code : CURLcode) (w : σ) :
    Option (σ × Bool) :=
  Perform O E code w

end Client

/-- A terminal callback as seen by the owner of a client. -/
inductive Callback
  | OnError (code : CURLcode)
  | OnReadComplete
deriving DecidableEq, Repr

/-- An owner that only records the terminal callbacks it receives. -/
def recordingOwner : Owner (HttpClient × List Callback) where
  self := fun w => w.1
  update := fun w c => (c, w.2)
  OnError := fun code w => some (w.1, w.2 ++ [Callback.OnError code])
  OnReadComplete := fun w => some (w.1, w.2 ++ [Callback.OnReadComplete])

/-! ## `taiga::HttpClient` and `taiga::HttpManager` (`taiga/http.cpp`) -/

/-- Modelled from the spec: `base/string.h` (`IsEqual`) is not under src/; the reuse policy of the
spec reads the test as "bound to the same hostname". -/
def IsEqual (a b : string_t) : Bool :=
  decide (a = b)

namespace HttpClient

/-- Modelled from the spec: the base constructor `base::http::Client::Client(request)` is not under
src/ (an idle client holding the request); the rest is the constructor
`HttpClient::HttpClient`, lines 44-60: silent mode, reuse allowed, user agent and
proxy taken from the settings. -/
def new (E : Engine) (request : HttpRequest) : HttpClient where
  request_ := request
  response_ := { uid := "", body := "", parameter := 0 }
  busy_ := false
  allow_reuse_ := true
  auto_redirect_ := true
  cancel_ := false
  curl_handle_ := false
  content_encoding_gzip := false
  write_buffer_ := ""
  optional_data_ := ""
  header_list_ := []
  proxy_host_ := E.kApp_Connection_ProxyHost
  proxy_username_ := E.kApp_Connection_ProxyUsername
  proxy_password_ := E.kApp_Connection_ProxyPassword
  referer_ := ""
  user_agent_ := E.user_agent
  mode_ := kHttpSilent

/-- Placeholder read through a dangling reference (never reached: references come from
`FindClient` and `GetClient`). -/
def null : HttpClient where
  request_ := { uid := "", url := { protocol := "", host := "", path := "" }, method := "",
                header := [], body := "", parameter := 0 }
  response_ := { uid := "", body := "", parameter := 0 }
  busy_ := false
  allow_reuse_ := false
  auto_redirect_ := false
  cancel_ := false
  curl_handle_ := false
  content_encoding_gzip := false
  write_buffer_ := ""
  optional_data_ := ""
  header_list_ := []
  proxy_host_ := ""
  proxy_username_ := ""
  proxy_password_ := ""
  referer_ := ""
  user_agent_ := ""
  mode_ := kHttpSilent

/-- The setter `set_proxy`. -/
def set_proxy (c : HttpClient) (host username password : string_t) : HttpClient :=
  { c with proxy_host_ := host, proxy_username_ := username, proxy_password_ := password }

/-- The setter `HttpClient::set_mode`, lines 66-68. -/
def set_mode (c : HttpClient) (mode : HttpClientMode) : HttpClient :=
  { c with mode_ := mode }

end HttpClient

namespace HttpManager

/-- The manager right after construction: no client, no counter, empty queue. -/
def empty : HttpManager :=
  { clients_ := [], connections_ := [], requests_ := [], trace := [] }

/-- The client a reference (an index of `clients_`) points to. -/
def client (s : HttpManager) (k : Nat) : HttpClient :=
  s.clients_.getD k HttpClient.null

/-- Write through a client reference. -/
def setClient (s : HttpManager) (k : Nat) (c : HttpClient) : HttpManager :=
  { s with clients_ := s.clients_.set k c }

/-- Append outward calls to the trace. -/
def emit (s : HttpManager) (events : List Event) : HttpManager :=
  { s with trace := s.trace ++ events }

/-- The function `HttpManager::FindClient`, lines 253-259. -/
def FindClient (s : HttpManager) (uid : uid_t) : Option Nat :=
  findFirst (fun c => decide (c.request_.uid = uid)) s.clients_

/-- The function `HttpManager::GetClient`, lines 261-287. -/
def GetClient (E : Engine) (s : HttpManager) (request : HttpRequest) : HttpManager × Nat :=
  match findFirst (fun c => c.allow_reuse_ && !c.busy_
      && IsEqual c.request_.url.host request.url.host) s.clients_ with
  | some k =>
    (setClient s k ((client s k).set_proxy E.kApp_Connection_ProxyHost
      E.kApp_Connection_ProxyUsername E.kApp_Connection_ProxyPassword), k)
  | none =>
    ({ s with clients_ := s.clients_ ++ [HttpClient.new E request] }, s.clients_.length)

/-- The function `HttpManager::AddToQueue`, lines 289-301, queued build. -/
def AddToQueue (s : HttpManager) (request : HttpRequest) (mode : HttpClientMode) :
    Option HttpManager :=
  if s.requests_.length < vector_max_size then
    some { s with requests_ := s.requests_ ++ [(request, mode)] }
  else none

/-- The function `HttpManager::AddConnection`, lines 341-350, queued build. -/
def AddConnection (s : HttpManager) (hostname : string_t) : HttpManager :=
  { s with connections_ := s.connections_.increment hostname }

/-- The function `HttpManager::FreeConnection`, lines 352-365, queued build. -/
def FreeConnection (s : HttpManager) (hostname : string_t) : HttpManager :=
  if s.connections_.at_ hostname > 0 then
    { s with connections_ := s.connections_.decrement hostname }
  else
    emit { s with connections_ := s.connections_.touch hostname }
      [Event.LOG_LevelError_already_zero hostname]

/-- The function `HttpManager::HandleRedirect`, lines 162-166. -/
def HandleRedirect (s : HttpManager) (current_host next_host : string_t) : HttpManager :=
  AddConnection (FreeConnection s current_host) next_host

/-- The `switch` of `HttpManager::HandleError`, lines 145-156. -/
def HandleError_dispatch (c : HttpClient) (error : string_t) : List Event :=
  match c.mode_ with
  | kHttpServiceAuthenticateUser
  | kHttpServiceGetMetadataById
  | kHttpServiceGetMetadataByIdV2
  | kHttpServiceSearchTitle
  | kHttpServiceAddLibraryEntry
  | kHttpServiceDeleteLibraryEntry
  | kHttpServiceGetLibraryEntries
  | kHttpServiceUpdateLibraryEntry => [Event.ServiceManager_HandleHttpError c.response_ error]
  | _ => []

/-- The function `HttpManager::HandleError`, lines 142-160; `ProcessQueue` is passed in as `pq`. -/
def HandleError (pq : HttpManager → Option HttpManager) (s : HttpManager)
    (response : HttpResponse) (error : string_t) : Option HttpManager :=
  match FindClient s response.uid with
  | none => none
  | some k =>
    let c := client s k
    let s1 := emit s ([Event.HandleError response.uid error] ++ HandleError_dispatch c error)
    pq (FreeConnection s1 c.request_.url.host)

/-- The `switch` of `HttpManager::HandleResponse`, lines 171-229. -/
def HandleResponse_dispatch (E : Engine) (c : HttpClient) (response : HttpResponse) :
    List Event :=
  match c.mode_ with
  | kHttpServiceAuthenticateUser
  | kHttpServiceGetMetadataById
  | kHttpServiceGetMetadataByIdV2
  | kHttpServiceSearchTitle
  | kHttpServiceAddLibraryEntry
  | kHttpServiceDeleteLibraryEntry
  | kHttpServiceGetLibraryEntries
  | kHttpServiceUpdateLibraryEntry => [Event.ServiceManager_HandleHttpResponse response]
  | kHttpGetLibraryEntryImage =>
    let anime_id := static_cast_int response.parameter
    [Event.SaveToFile_image anime_id c.write_buffer_, Event.ImageDatabase_Load anime_id]
    ++ (if E.ImageDatabase_Load anime_id then
          [Event.ui_OnLibraryEntryImageChange anime_id] else [])
  | kHttpFeedCheck
  | kHttpFeedCheckAuto =>
    if response.parameter ≠ 0 then
      [Event.Aggregator_HandleFeedCheck response.parameter c.write_buffer_
        (decide (c.mode_ = kHttpFeedCheckAuto))]
    else []
  | kHttpFeedDownload
  | kHttpFeedDownloadAll =>
    [Event.Aggregator_ValidateFeedDownload c.request_ response]
    ++ (if E.Aggregator_ValidateFeedDownload c.request_ response then
          if response.parameter ≠ 0 then
            [Event.Aggregator_HandleFeedDownload response.parameter c.write_buffer_
              (decide (c.mode_ = kHttpFeedDownloadAll))]
          else []
        else [])
  | kHttpTwitterRequest
  | kHttpTwitterAuth
  | kHttpTwitterPost => [Event.Twitter_HandleHttpResponse c.mode_ response]
  | kHttpTaigaUpdateCheck =>
    [Event.Updater_ParseData response.body]
    ++ (if E.Updater_ParseData response.body then
          [Event.Updater_IsDownloadAllowed]
          ++ (if E.Updater_IsDownloadAllowed then [] else [Event.ui_OnUpdateFinished])
        else [Event.ui_OnUpdateFinished])
  | kHttpTaigaUpdateDownload =>
    [Event.SaveToFile_update c.write_buffer_, Event.Updater_RunInstaller,
     Event.ui_OnUpdateFinished]
  | kHttpSilent => []

/-- The function `HttpManager::HandleResponse`, lines 168-233; `ProcessQueue` is passed in as `pq`. -/
def HandleResponse (E : Engine) (pq : HttpManager → Option HttpManager) (s : HttpManager)
    (response : HttpResponse) : Option HttpManager :=
  match FindClient s response.uid with
  | none => none
  | some k =>
    let c := client s k
    let s1 := emit s ([Event.HandleResponse response.uid] ++ HandleResponse_dispatch E c response)
    pq (FreeConnection s1 c.request_.url.host)

/-- The override `HttpClient::OnError`, lines 72-90, for the client at reference `k`. -/
def HttpClient_OnError (E : Engine) (pq : HttpManager → Option HttpManager) (k : Nat)
    (error_code : CURLcode) (s : HttpManager) : Option HttpManager :=
  let c := client s k
  let text0 := TrimRight
    ("HTTP error #" ++ toString error_code ++ ": " ++ E.curl_easy_strerror error_code) "\r\n "
  let error_text :=
    if error_code = CURLE_COULDNT_RESOLVE_HOST ∨ error_code = CURLE_COULDNT_CONNECT then
      text0 ++ " (" ++ c.request_.url.host ++ ")"
    else text0
  HandleError pq
    (emit s [Event.ui_OnHttpError c.mode_ error_text, Event.Stats_connections_failed])
    c.response_ error_text

/-- The override `HttpClient::OnReadComplete`, lines 120-126, for the client at reference `k`. -/
def HttpClient_OnReadComplete (E : Engine) (pq : HttpManager → Option HttpManager) (k : Nat)
    (s : HttpManager) : Option HttpManager :=
  let c := client s k
  HandleResponse E pq
    (emit s [Event.ui_OnHttpReadComplete c.mode_, Event.Stats_connections_succeeded])
    c.response_

/-- The override `HttpClient::OnRedirect`, lines 97-113, for the client at reference `k`; `url` is
`Url(address)` (the updater's download path is outside the subsystem). -/
def HttpClient_OnRedirect (k : Nat) (url : Url) (s : HttpManager) : HttpManager × Bool :=
  (HandleRedirect s (client s k).request_.url.host url.host, false)

/-- The client at reference `k`, owned by the manager: its callbacks are the overrides of
`taiga::HttpClient`. -/
def owner (E : Engine) (pq : HttpManager → Option HttpManager) (k : Nat) : Owner HttpManager where
  self := fun s => client s k
  update := fun s c => setClient s k c
  OnError := HttpClient_OnError E pq k
  OnReadComplete := HttpClient_OnReadComplete E pq k

/-- Lines 324-332 of `HttpManager::ProcessQueue`: the host counter is incremented, a client is
obtained, its mode is set and `client.MakeRequest(request)` is called (its result is ignored by
the caller). -/
def ProcessQueue_admit (E : Engine) (pq : HttpManager → Option HttpManager) (s : HttpManager)
    (request : HttpRequest) (mode : HttpClientMode) : Option (HttpManager × Bool) :=
  let s2 := { s with connections_ := s.connections_.increment request.url.host }
  let (s3, k) := GetClient E s2 request
  let s4 := setClient s3 k ((client s3 k).set_mode mode)
  Client.MakeRequest (owner E pq k) E request (emit s4 [Event.Client_MakeRequest k request])

/-- The `for` loop of `HttpManager::ProcessQueue`, lines 311-337: `connections` and `i` are the
two locals; `pq` is `ProcessQueue` itself as reached from a callback raised inside
`client.MakeRequest`.  The first argument bounds the number of iterations. -/
def ProcessQueue_loop (E : Engine) (pq : HttpManager → Option HttpManager) :
    Nat → Nat → Nat → HttpManager → Option HttpManager
  | 0, _, _, _ => none
  | fuel + 1, connections, i, s =>
    if i < s.requests_.length then
      if connections = kMaxSimultaneousConnections then some s
      else
        match s.requests_[i]? with
        | none => none
        | some (request, mode) =>
          let s1 := { s with connections_ := s.connections_.touch request.url.host }
          if s1.connections_.at_ request.url.host = kMaxSimultaneousConnectionsPerHostname then
            ProcessQueue_loop E pq fuel connections ((i + 1) % size_t_modulus) s1
          else
            match ProcessQueue_admit E pq s1 request mode with
            | none => none
            | some (s5, _) =>
              if i < s5.requests_.length then
                let s6 := { s5 with requests_ := s5.requests_.eraseIdx i }
                let i1 := (i + size_t_modulus - 1) % size_t_modulus
                ProcessQueue_loop E pq fuel (connections + 1) ((i1 + 1) % size_t_modulus) s6
              else none
    else some s

/-- The function `HttpManager::ProcessQueue`, lines 303-339, queued build.  The first number is the
stack depth left for re-entrant calls (a failing `SetRequestOptions` calls `OnError`,
`HandleError` and `ProcessQueue` again from inside the loop). -/
def ProcessQueue (E : Engine) : Nat → HttpManager → Option HttpManager
  | 0, s =>
    ProcessQueue_loop E (fun _ => none) (s.requests_.length + 1) s.connections_.total 0 s
  | depth + 1, s =>
    ProcessQueue_loop E (fun s1 => ProcessQueue E depth s1) (s.requests_.length + 1)
      s.connections_.total 0 s

/-- The function `HttpManager::MakeRequest`, lines 137-140. -/
def MakeRequest (E : Engine) (depth : Nat) (s : HttpManager) (request : HttpRequest)
    (mode : HttpClientMode) : Option HttpManager :=
  (AddToQueue s request mode).bind (ProcessQueue E depth)

/-- The function `HttpManager::CancelRequest`, lines 130-135. -/
def CancelRequest (s : HttpManager) (uid : uid_t) : HttpManager :=
  match FindClient s uid with
  | some k => if (client s k).busy_ then setClient s k (Client.Cancel (client s k)) else s
  | none => s

/-- The function `HttpManager::FreeMemory`, lines 237-245. -/
def FreeMemory (s : HttpManager) : HttpManager :=
  { s with clients_ := s.clients_.filter (fun c => c.busy_) }

/-- The function `HttpManager::Shutdown`, lines 247-249. -/
def Shutdown (s : HttpManager) : HttpManager :=
  { s with clients_ := [] }

end HttpManager

/-! ## Runs of the subsystem -/

/-- What can happen to a manager: calls of its public functions, and the two things a transfer
thread does to a busy client (it follows a redirect, it ends with an engine result). -/
inductive Op
  | MakeRequest (request : HttpRequest) (mode : HttpClientMode)
  | HandleResponse (response : HttpResponse)
  | HandleError (response : HttpResponse) (error : string_t)
  | HandleRedirect (current_host next_host : string_t)
  | CancelRequest (uid : uid_t)
  | OnRedirect (client : Nat) (url : Url)
  | ThreadProc (client : Nat) (code : CURLcode) (received : string_t)
deriving DecidableEq, Repr

/-- One operation.  A transfer thread exists only for a busy client; `received` is what the
engine has written to the client's buffer. -/
def step (E : Engine) (depth : Nat) (s : HttpManager) : Op → Option HttpManager
  | Op.MakeRequest request mode => HttpManager.MakeRequest E depth s request mode
  | Op.HandleResponse response =>
    HttpManager.HandleResponse E (HttpManager.ProcessQueue E depth) s response
  | Op.HandleError response error =>
    HttpManager.HandleError (HttpManager.ProcessQueue E depth) s response error
  | Op.HandleRedirect current_host next_host =>
    some (HttpManager.HandleRedirect s current_host next_host)
  | Op.CancelRequest uid => some (HttpManager.CancelRequest s uid)
  | Op.OnRedirect k url =>
    if k < s.clients_.length ∧ (s.client k).busy_ = true then
      some (HttpManager.HttpClient_OnRedirect k url s).1
    else none
  | Op.ThreadProc k code received =>
    if k < s.clients_.length ∧ (s.client k).busy_ = true then
      (Client.ThreadProc (HttpManager.owner E (HttpManager.ProcessQueue E depth) k) E code
        (s.setClient k { s.client k with write_buffer_ := received })).map (fun r => r.1)
    else none

/-- A sequence of operations, from left to right. -/
def run (E : Engine) (depth : Nat) : List Op → HttpManager → Option HttpManager
  | [], s => some s
  | op :: rest, s => (step E depth s op).bind (run E depth rest)

/-! ## The UI's error handler (`ui/ui.cpp`) and the collaborators -/

/-- What `ui::OnHttpError` does to the user interface. -/
inductive UiCall
  | ChangeStatusText (text : string_t)
  | DlgMain_EnableInput
  | DlgTorrent_EnableInput
  | MessageBox_Update (text : string_t)
  | DlgUpdate_PostMessage_WM_CLOSE
  | TaskbarList_SetProgressState_NOPROGRESS
deriving DecidableEq, Repr

/-- The function `ui::OnHttpError`, `ui/ui.cpp` lines 92-129, as the list of UI calls it makes for a
client in `mode`. -/
def ui.OnHttpError (mode : HttpClientMode) (error : string_t) : List UiCall :=
  match mode with
  | kHttpSilent
  | kHttpServiceGetMetadataById
  | kHttpServiceGetMetadataByIdV2
  | kHttpServiceSearchTitle
  | kHttpGetLibraryEntryImage => []
  | kHttpServiceAuthenticateUser
  | kHttpServiceGetLibraryEntries
  | kHttpServiceAddLibraryEntry
  | kHttpServiceDeleteLibraryEntry
  | kHttpServiceUpdateLibraryEntry =>
    [UiCall.ChangeStatusText error, UiCall.DlgMain_EnableInput,
     UiCall.TaskbarList_SetProgressState_NOPROGRESS]
  | kHttpFeedCheck
  | kHttpFeedCheckAuto
  | kHttpFeedDownload
  | kHttpFeedDownloadAll =>
    [UiCall.ChangeStatusText error, UiCall.DlgTorrent_EnableInput,
     UiCall.TaskbarList_SetProgressState_NOPROGRESS]
  | kHttpTwitterRequest
  | kHttpTwitterAuth
  | kHttpTwitterPost =>
    [UiCall.ChangeStatusText error, UiCall.TaskbarList_SetProgressState_NOPROGRESS]
  | kHttpTaigaUpdateCheck
  | kHttpTaigaUpdateDownload =>
    [UiCall.MessageBox_Update error, UiCall.DlgUpdate_PostMessage_WM_CLOSE]

/-- The four collaborators the manager routes to: `ServiceManager`, `Aggregator`, `::Twitter`,
`Taiga.Updater`. -/
inductive Collaborator
  | ServiceManager
  | Aggregator
  | Twitter
  | Updater
deriving DecidableEq, Repr

/-- The collaborator object an outward call is made on (none for the UI, files, the image
database, the statistics, the log and the manager's own entry points). -/
def Event.collaborator : Event → Option Collaborator
  | Event.ServiceManager_HandleHttpError _ _ => some Collaborator.ServiceManager
  | Event.ServiceManager_HandleHttpResponse _ => some Collaborator.ServiceManager
  | Event.Aggregator_HandleFeedCheck _ _ _ => some Collaborator.Aggregator
  | Event.Aggregator_ValidateFeedDownload _ _ => some Collaborator.Aggregator
  | Event.Aggregator_HandleFeedDownload _ _ _ => some Collaborator.Aggregator
  | Event.Twitter_HandleHttpResponse _ _ => some Collaborator.Twitter
  | Event.Updater_ParseData _ => some Collaborator.Updater
  | Event.Updater_IsDownloadAllowed => some Collaborator.Updater
  | Event.Updater_RunInstaller => some Collaborator.Updater
  | _ => none

/-- The UI calls behind a traced event (only `ui::OnHttpError` is expanded). -/
def Event.ui_calls : Event → List UiCall
  | Event.ui_OnHttpError mode error => ui.OnHttpError mode error
  | _ => []

/-- The grouping of the modes by their names: `kHttpService*`, `kHttpFeed*`, `kHttpTwitter*`,
`kHttpTaigaUpdate*`; the silent mode and the image mode belong to no collaborator. -/
def HttpClientMode.collaborator : HttpClientMode → Option Collaborator
  | kHttpServiceAuthenticateUser
  | kHttpServiceGetMetadataById
  | kHttpServiceGetMetadataByIdV2
  | kHttpServiceSearchTitle
  | kHttpServiceAddLibraryEntry
  | kHttpServiceDeleteLibraryEntry
  | kHttpServiceGetLibraryEntries
  | kHttpServiceUpdateLibraryEntry => some Collaborator.ServiceManager
  | kHttpFeedCheck
  | kHttpFeedCheckAuto
  | kHttpFeedDownload
  | kHttpFeedDownloadAll => some Collaborator.Aggregator
  | kHttpTwitterRequest
  | kHttpTwitterAuth
  | kHttpTwitterPost => some Collaborator.Twitter
  | kHttpTaigaUpdateCheck
  | kHttpTaigaUpdateDownload => some Collaborator.Updater
  | kHttpSilent
  | kHttpGetLibraryEntryImage => none

/-- The requests for which the scheduler has called `client.MakeRequest`, in call order. -/
def started_requests (trace : List Event) : List HttpRequest :=
  trace.filterMap fun e =>
    match e with
    | Event.Client_MakeRequest _ request => some request
    | _ => none

/-! ## The scheduler with its two ceilings as parameters -/

/-- The loop of `ProcessQueue` (see `ProcessQueue_loop`) with the two constants
`kMaxSimultaneousConnections` and `kMaxSimultaneousConnectionsPerHostname` replaced by the
parameters `maxConnections` and `maxPerHostname`. -/
def ProcessQueue_loop_at (maxConnections maxPerHostname : Nat) (E : Engine)
    (pq : HttpManager → Option HttpManager) :
    Nat → Nat → Nat → HttpManager → Option HttpManager
  | 0, _, _, _ => none
  | fuel + 1, connections, i, s =>
    if i < s.requests_.length then
      if connections = maxConnections then some s
      else
        match s.requests_[i]? with
        | none => none
        | some (request, mode) =>
          let s1 := { s with connections_ := s.connections_.touch request.url.host }
          if s1.connections_.at_ request.url.host = maxPerHostname then
            ProcessQueue_loop_at maxConnections maxPerHostname E pq fuel connections
              ((i + 1) % size_t_modulus) s1
          else
            match HttpManager.ProcessQueue_admit E pq s1 request mode with
            | none => none
            | some (s5, _) =>
              if i < s5.requests_.length then
                let s6 := { s5 with requests_ := s5.requests_.eraseIdx i }
                let i1 := (i + size_t_modulus - 1) % size_t_modulus
                ProcessQueue_loop_at maxConnections maxPerHostname E pq fuel (connections + 1)
                  ((i1 + 1) % size_t_modulus) s6
              else none
    else some s

/-- The function `ProcessQueue` with the two ceilings as parameters. -/
def ProcessQueue_at (maxConnections maxPerHostname : Nat) (E : Engine) :
    Nat → HttpManager → Option HttpManager
  | 0, s =>
    ProcessQueue_loop_at maxConnections maxPerHostname E (fun _ => none)
      (s.requests_.length + 1) s.connections_.total 0 s
  | depth + 1, s =>
    ProcessQueue_loop_at maxConnections maxPerHostname E
      (fun s1 => ProcessQueue_at maxConnections maxPerHostname E depth s1)
      (s.requests_.length + 1) s.connections_.total 0 s

/-- One operation (see `step`) of a manager whose scheduler uses the given ceilings. -/
def step_at (maxConnections maxPerHostname : Nat) (E : Engine) (depth : Nat) (s : HttpManager) :
    Op → Option HttpManager
  | Op.MakeRequest request mode =>
    (HttpManager.AddToQueue s request mode).bind
      (ProcessQueue_at maxConnections maxPerHostname E depth)
  | Op.HandleResponse response =>
    HttpManager.HandleResponse E (ProcessQueue_at maxConnections maxPerHostname E depth) s response
  | Op.HandleError response error =>
    HttpManager.HandleError (ProcessQueue_at maxConnections maxPerHostname E depth) s response
      error
  | Op.HandleRedirect current_host next_host =>
    some (HttpManager.HandleRedirect s current_host next_host)
  | Op.CancelRequest uid => some (HttpManager.CancelRequest s uid)
  | Op.OnRedirect k url =>
    if k < s.clients_.length ∧ (s.client k).busy_ = true then
      some (HttpManager.HttpClient_OnRedirect k url s).1
    else none
  | Op.ThreadProc k code received =>
    if k < s.clients_.length ∧ (s.client k).busy_ = true then
      (Client.ThreadProc
        (HttpManager.owner E (ProcessQueue_at maxConnections maxPerHostname E depth) k) E code
        (s.setClient k { s.client k with write_buffer_ := received })).map (fun r => r.1)
    else none

/-- A sequence of operations (see `run`) of a manager whose scheduler uses the given ceilings. -/
def run_at (maxConnections maxPerHostname : Nat) (E : Engine) (depth : Nat) :
    List Op → HttpManager → Option HttpManager
  | [], s => some s
  | op :: rest, s =>
    (step_at maxConnections maxPerHostname E depth s op).bind
      (run_at maxConnections maxPerHostname E depth rest)

/-- The engine accepts every option: no `curl_easy_setopt` of `SetRequestOptions` fails. -/
def Engine.OptionsAccepted (E : Engine) : Prop :=
  ∀ (c : HttpClient) (option : CURLoption), E.curl_easy_setopt c option = CURLE_OK

/-- An engine on which every call succeeds. -/
def Engine.working : Engine where
  curl_global_initialized := true
  curl_easy_init := fun _ => true
  curl_easy_setopt := fun _ _ => CURLE_OK
  curl_easy_strerror := fun _ => "error"
  CreateThread := fun _ => true
  UncompressGzippedString := fun x => x
  kApp_Connection_ProxyHost := ""
  kApp_Connection_ProxyUsername := ""
  kApp_Connection_ProxyPassword := ""
  user_agent := "Taiga/1.0"
  build_DEBUG := false
  build_TAIGA_HTTP_SSL_UNSECURE := false
  ImageDatabase_Load := fun _ => true
  Aggregator_ValidateFeedDownload := fun _ _ => true
  Updater_ParseData := fun _ => true
  Updater_IsDownloadAllowed := true

/-- A `GET` request with the given identifier and target host. -/
def HttpRequest.get (uid : uid_t) (host : string_t) : HttpRequest where
  uid := uid
  url := { protocol := "http", host := host, path := "/" }
  method := "GET"
  header := []
  body := ""
  parameter := 0

/-- Both ceilings hold: the sum of the counters and every single counter. -/
def HttpManager.WithinCeilings (s : HttpManager) : Prop :=
  s.connections_.total ≤ kMaxSimultaneousConnections
    ∧ ∀ hostname : string_t, s.connections_.at_ hostname ≤ kMaxSimultaneousConnectionsPerHostname

/-- Submissions and completions: `MakeRequest`, `HandleResponse`, `HandleError`, and the end of a
transfer thread (which calls one of the latter two, or nothing). -/
def Op.isSubmissionOrCompletion : Op → Bool
  | Op.MakeRequest _ _ => true
  | Op.HandleResponse _ => true
  | Op.HandleError _ _ => true
  | Op.ThreadProc _ _ _ => true
  | _ => false

/-- Seven submissions to the host "a" (one more than the per-host ceiling). -/
def seven_to_one_host : List Op :=
  [Op.MakeRequest (HttpRequest.get "1" "a") kHttpSilent,
   Op.MakeRequest (HttpRequest.get "2" "a") kHttpSilent,
   Op.MakeRequest (HttpRequest.get "3" "a") kHttpSilent,
   Op.MakeRequest (HttpRequest.get "4" "a") kHttpSilent,
   Op.MakeRequest (HttpRequest.get "5" "a") kHttpSilent,
   Op.MakeRequest (HttpRequest.get "6" "a") kHttpSilent,
   Op.MakeRequest (HttpRequest.get "7" "a") kHttpSilent]

/-- An engine whose global libcurl state is not initialised: `Client::Initialize` returns false. -/
def Engine.uninitialized : Engine :=
  { Engine.working with curl_global_initialized := false }

/-- Ten submissions to ten different hosts (the global ceiling). -/
def ten_hosts : List Op :=
  [Op.MakeRequest (HttpRequest.get "0" "h0") kHttpSilent,
   Op.MakeRequest (HttpRequest.get "1" "h1") kHttpSilent,
   Op.MakeRequest (HttpRequest.get "2" "h2") kHttpSilent,
   Op.MakeRequest (HttpRequest.get "3" "h3") kHttpSilent,
   Op.MakeRequest (HttpRequest.get "4" "h4") kHttpSilent,
   Op.MakeRequest (HttpRequest.get "5" "h5") kHttpSilent,
   Op.MakeRequest (HttpRequest.get "6" "h6") kHttpSilent,
   Op.MakeRequest (HttpRequest.get "7" "h7") kHttpSilent,
   Op.MakeRequest (HttpRequest.get "8" "h8") kHttpSilent,
   Op.MakeRequest (HttpRequest.get "9" "h9") kHttpSilent]

/-- Ten transfers in flight on ten hosts; the first one is redirected twice (to "y", then to "z"). -/
def redirected_twice : List Op :=
  ten_hosts ++ [Op.OnRedirect 0 { protocol := "http", host := "y", path := "/" },
                Op.OnRedirect 0 { protocol := "http", host := "z", path := "/" }]

/-- Six transfers in flight on "a" and one on "b"; the one on "b" is redirected to "a"; then one
more request to "a" is submitted. -/
def redirected_into_full_host : List Op :=
  [Op.MakeRequest (HttpRequest.get "1" "a") kHttpSilent,
   Op.MakeRequest (HttpRequest.get "2" "a") kHttpSilent,
   Op.MakeRequest (HttpRequest.get "3" "a") kHttpSilent,
   Op.MakeRequest (HttpRequest.get "4" "a") kHttpSilent,
   Op.MakeRequest (HttpRequest.get "5" "a") kHttpSilent,
   Op.MakeRequest (HttpRequest.get "6" "a") kHttpSilent,
   Op.MakeRequest (HttpRequest.get "7" "b") kHttpSilent,
   Op.OnRedirect 6 { protocol := "http", host := "a", path := "/" },
   Op.MakeRequest (HttpRequest.get "8" "a") kHttpSilent]

/-- One request to "x" is admitted, redirected to "y", and then finishes successfully. -/
def redirected_then_finished : List Op :=
  [Op.MakeRequest (HttpRequest.get "1" "x") kHttpSilent,
   Op.OnRedirect 0 { protocol := "http", host := "y", path := "/" },
   Op.ThreadProc 0 CURLE_OK ""]

/-- The terminal entry points of the manager reached for the request `uid`. -/
def terminal_outcomes (uid : uid_t) (trace : List Event) : List Event :=
  trace.filter fun e =>
    match e with
    | Event.HandleResponse u => decide (u = uid)
    | Event.HandleError u _ => decide (u = uid)
    | _ => false

/-- One `Submit` on a client, seen from its owner: `Client::MakeRequest`, and, when it returned
true (the transfer thread was created), `Client::ThreadProc` ending with the engine result `code`.
The value is the list of terminal callbacks the owner received, in order. -/
def Client.submit (E : Engine) (request : HttpRequest) (code : CURLcode) (c : HttpClient) :
    List Callback :=
  match Client.MakeRequest recordingOwner E request (c, []) with
  | none => []
  | some (w, false) => w.2
  | some (w, true) =>
    match Client.ThreadProc recordingOwner E code w with
    | none => w.2
    | some (w1, _) => w1.2

/-- Shape of a `bool`-returning step of a recorded client that started with the callbacks `log`:
it returned true and reported nothing, or it returned false after reporting one failure code. -/
def ReportsAtMostOneFailure (log : List Callback)
    (r : Option ((HttpClient × List Callback) × Bool)) : Prop :=
  ∃ c1, r = some ((c1, log), true)
    ∨ ∃ e, e ≠ CURLE_OK ∧ r = some ((c1, log ++ [Callback.OnError e]), false)

/-- Host "a" at the per-host ceiling, host "b" with one transfer, and the queue
[request to "a", request to "b"]. -/
def saturated_host_then_free_host : HttpManager where
  clients_ := []
  connections_ := [("a", 6), ("b", 1)]
  requests_ := [(HttpRequest.get "1" "a", kHttpSilent), (HttpRequest.get "2" "b", kHttpSilent)]
  trace := []

/-- Six transfers in flight on "a", a seventh request queued, and the first transfer cancelled
through `CancelRequest` (its thread has not ended yet). -/
def first_transfer_cancelled : HttpManager :=
  (run Engine.working 0 (seven_to_one_host ++ [Op.CancelRequest "1"]) HttpManager.empty).getD
    HttpManager.empty

/-- One request to "x" is admitted and its transfer ends successfully: the client is idle again. -/
def one_finished_transfer : List Op :=
  [Op.MakeRequest (HttpRequest.get "1" "x") kHttpSilent, Op.ThreadProc 0 CURLE_OK ""]

/-- A feed check is admitted and its transfer fails to connect. -/
def failed_feed_check : List Op :=
  [Op.MakeRequest (HttpRequest.get "1" "x") kHttpFeedCheck,
   Op.ThreadProc 0 CURLE_COULDNT_CONNECT ""]

/-- One silent request to "x" has been admitted; its transfer is running. -/
def one_silent_transfer : HttpManager :=
  (run Engine.working 0 [Op.MakeRequest (HttpRequest.get "1" "x") kHttpSilent]
    HttpManager.empty).getD HttpManager.empty

/-- One idle, reuse-eligible client whose last request went to "x". -/
def one_idle_client : HttpManager :=
  (run Engine.working 0 one_finished_transfer HttpManager.empty).getD HttpManager.empty

/-- The diagnostic built by `HttpClient::OnError`, lines 73-81, for the client `c`. -/
def HttpManager.error_text (E : Engine) (c : HttpClient) (error_code : CURLcode) : string_t :=
  if error_code = CURLE_COULDNT_RESOLVE_HOST ∨ error_code = CURLE_COULDNT_CONNECT then
    TrimRight ("HTTP error #" ++ toString error_code ++ ": " ++ E.curl_easy_strerror error_code)
        "\r\n "
      ++ " (" ++ c.request_.url.host ++ ")"
  else
    TrimRight ("HTTP error #" ++ toString error_code ++ ": " ++ E.curl_easy_strerror error_code)
      "\r\n "

/-- A step of a recorded client returned, leaving a client that satisfies `Q`. -/
def ClientResult (Q : HttpClient → Prop)
    (r : Option ((HttpClient × List Callback) × Bool)) : Prop :=
  ∃ c1 log1 b, r = some ((c1, log1), b) ∧ Q c1

/-- The request as `Client::BuildRequestHeader` leaves it in `request_`: the same request, its
header map completed with the default `Accept` (and `Content-Type` for `POST` and `PUT`). -/
def HttpRequest.with_default_headers (request : HttpRequest) : HttpRequest :=
  (Client.BuildRequestHeader { HttpClient.null with request_ := request }).request_

/-- The state `t` is `s` with at most the client at reference `k` rewritten. -/
def UpdatedAt (k : Nat) (s t : HttpManager) : Prop :=
  t = s ∨ ∃ c, t = s.setClient k c

/-- The entries of a queue that an admission mask leaves behind (mask entry false). -/
def unadmitted {α : Type} : List α → List Bool → List α
  | x :: q, b :: mask => if b then unadmitted q mask else x :: unadmitted q mask
  | _, _ => []

/-- The entries of a queue that an admission mask takes out (mask entry true). -/
def admitted {α : Type} : List α → List Bool → List α
  | x :: q, b :: mask => if b then x :: admitted q mask else admitted q mask
  | _, _ => []

/-- No overtaking within a host: whenever an entry of the queue is admitted, every earlier entry
to the same host is admitted too. -/
def NoOvertaking (q : List (HttpRequest × HttpClientMode)) (mask : List Bool) : Prop :=
  ∀ (i j : Nat) (ri rj : HttpRequest × HttpClientMode), i < j →
    q[i]? = some ri → q[j]? = some rj → ri.1.url.host = rj.1.url.host →
    mask[j]? = some true → mask[i]? = some true

/-- Six transfers in flight on "a" and a seventh request to "a" waiting in the queue. -/
def six_running_one_waiting : HttpManager :=
  (run Engine.working 0 seven_to_one_host HttpManager.empty).getD HttpManager.empty

/-! ## Header map lookups (`base/http_request.cpp`) -/

/-- The line `BuildRequestHeader` appends to the header list for one header field (lines
220-226): "name: value", or "name;" when the value is empty. -/
def header_line (field : string_t × string_t) : string_t :=
  if field.2 ≠ "" then field.1 ++ ": " ++ field.2 else field.1 ++ ";"

/-! ## The scheduler as the spec describes it -/

/-- What a scheduler pass yields: the requests started (in order), the queue left behind, the
counter of every host and the sum of the counters. -/
structure SchedulerPass where
  started : List HttpRequest
  remaining : List (HttpRequest × HttpClientMode)
  counters : string_t → Nat
  sum : Nat

/-- The reference scheduler, written after the spec: one pass over the queue from left to right,
which stops as soon as the sum of the counters equals the global ceiling, and otherwise admits a
request exactly when the counter of its host differs from the per-host ceiling (incrementing that
counter and the sum) and skips it otherwise. -/
def reference_pass (sum : Nat) (counters : string_t → Nat) :
    List (HttpRequest × HttpClientMode) → SchedulerPass
  | [] => { started := [], remaining := [], counters := counters, sum := sum }
  | (request, mode) :: queue =>
    if sum = kMaxSimultaneousConnections then
      { started := [], remaining := (request, mode) :: queue, counters := counters, sum := sum }
    else if counters request.url.host = kMaxSimultaneousConnectionsPerHostname then
      let later := reference_pass sum counters queue
      { later with remaining := (request, mode) :: later.remaining }
    else
      let later := reference_pass (sum + 1)
        (fun hostname => if hostname = request.url.host then counters hostname + 1
          else counters hostname) queue
      { later with started := request :: later.started }

/-- The reference scheduler on a manager state: the pass starts from the sum of all counters. -/
def reference_scheduler (s : HttpManager) : SchedulerPass :=
  reference_pass s.connections_.total (fun hostname => s.connections_.at_ hostname) s.requests_

/-- One transfer is running on "a" and one request to "b" waits at the head of the queue, followed
by a request to "a". -/
def two_waiting : HttpManager where
  clients_ := []
  connections_ := [("a", 1)]
  requests_ := [(HttpRequest.get "2" "b", kHttpSilent), (HttpRequest.get "3" "a", kHttpSilent)]
  trace := []

/-! ## `library/anime_util.cpp` -/

namespace anime

/-- The index computed by `PlayRandomAnime`, line 249: `rand() % max_value + 1`, where `max_value`
is `valid_ids.size()`. -/
def PlayRandomAnime_index (rand_value max_value : Nat) : Nat :=
  rand_value % max_value + 1

/-- The selection loop of `PlayRandomAnime`, lines 246-253, run over the candidate list
`valid_ids` collected by lines 230-244.  `rand n` is the value of `rand()` in iteration `n`,
`PlayNextEpisode` is the answer of the player; `none` is the exception `std::out_of_range` thrown
by `valid_ids.at(index)`. -/
def PlayRandomAnime_loop (rand : Nat → Nat) (PlayNextEpisode : Int → Bool)
    (valid_ids : List Int) : Nat → Nat → Option Bool
  | 0, _ => some false
  | todo + 1, n =>
    match valid_ids[PlayRandomAnime_index (rand n) valid_ids.length]? with
    | none => none
    | some anime_id =>
      if PlayNextEpisode anime_id then some true
      else PlayRandomAnime_loop rand PlayNextEpisode valid_ids todo (n + 1)

/-- The function `PlayRandomAnime`, lines 223-259, from the candidate list on: one iteration per
candidate, then `ui::OnAnimeEpisodeNotFound()` and `false`. -/
def PlayRandomAnime (rand : Nat → Nat) (PlayNextEpisode : Int → Bool) (valid_ids : List Int) :
    Option Bool :=
  PlayRandomAnime_loop rand PlayNextEpisode valid_ids valid_ids.length 0

/-- The overload `IsValidEpisode(int episode, int total)`, lines 591-597. -/
def IsValidEpisode2 (episode total : Int) : Bool :=
  if episode < 0 ∨ (episode > total ∧ total ≠ 0) then false else true

/-- The overload `IsValidEpisode(int episode, int total, int watched)`, lines 599-606. -/
def IsValidEpisode (episode total watched : Int) : Bool :=
  if ¬ (IsValidEpisode2 episode total = true) ∨ episode < watched
      ∨ (episode = watched ∧ total ≠ 1) then false
  else true

/-- What `EstimateEpisodeCount` reads from an `anime::Item` and from the date helpers (their
declarations are not under src/): the getters by name, `GetType() == kTv`, the two `IsValidDate`
answers, and the two date differences `GetDateEnd() - GetDateStart()` and
`GetDateJapan() - GetDateStart()`. -/
structure Item where
  GetEpisodeCount : Int
  IsInList : Bool
  GetMyLastWatchedEpisode : Int
  GetAvailableEpisodeCount : Int
  GetLastAiredEpisodeNumber : Int
  GetType_is_kTv : Bool
  IsValidDate_date_start : Bool
  IsValidDate_date_end : Bool
  date_end_minus_date_start : Int
  date_japan_minus_date_start : Int
deriving DecidableEq, Repr

/-- The macro `max(a, b)` of the Windows headers: `(a > b) ? a : b`. -/
def max (a b : Int) : Int :=
  if a > b then a else b

/-- The lower bound `number` of `EstimateEpisodeCount` before it is normalized, lines 636-654;
the division of two `int`s rounds towards zero. -/
def EstimateEpisodeCount_number (item : Item) : Int :=
  let number0 : Int :=
    if item.IsInList then max item.GetMyLastWatchedEpisode item.GetAvailableEpisodeCount else 0
  let number1 := max number0 item.GetLastAiredEpisodeNumber
  if item.GetType_is_kTv then
    if item.IsValidDate_date_start then
      let days :=
        if !item.IsValidDate_date_end then item.date_japan_minus_date_start
        else item.date_end_minus_date_start
      max number1 (Int.tdiv days 7)
    else number1
  else number1

/-- The function `EstimateEpisodeCount`, lines 631-684. -/
def EstimateEpisodeCount (item : Item) : Int :=
  if item.GetEpisodeCount > 0 then item.GetEpisodeCount
  else
    let number := EstimateEpisodeCount_number item
    if number < 12 then 13
    else if number < 24 then 26
    else if number < 50 then 52
    else 0

end anime

/-! ## `base/file.cpp` -/

/-- A `std::wstring`, as the list of its characters. -/
abbrev wstring := List Char

/-- Modelled from the spec: `StartsWith` (`base/string.cpp`) is not under src/; by its name and by
the comments at its call sites it tells whether the first string begins with the second. -/
def StartsWith (str1 str2 : wstring) : Bool :=
  str2.isPrefixOf str1

/-- The constant `\\?\` of `GetExtendedLengthPath`, line 177. -/
def kExtendedLengthPath : wstring := ['\\', '\\', '?', '\\']

/-- The function `GetExtendedLengthPath`, lines 176-188. -/
def GetExtendedLengthPath (path : wstring) : wstring :=
  if StartsWith path kExtendedLengthPath then path
  else if StartsWith path ['\\', '\\'] then
    kExtendedLengthPath ++ ['U', 'N', 'C', '\\'] ++ path.drop 2
  else kExtendedLengthPath ++ path

/-- The state and the client reference on which `ProcessQueue` calls
`client.MakeRequest(request)`: lines 324-331 of `ProcessQueue_admit`, up to the call. -/
def HttpManager.ProcessQueue_admit_call (E : Engine) (s : HttpManager) (request : HttpRequest)
    (mode : HttpClientMode) : HttpManager × Nat :=
  let s2 := { s with connections_ := s.connections_.increment request.url.host }
  let (s3, k) := HttpManager.GetClient E s2 request
  let s4 := HttpManager.setClient s3 k ((HttpManager.client s3 k).set_mode mode)
  (HttpManager.emit s4 [Event.Client_MakeRequest k request], k)

/-- The client references on which the scheduler has called `client.MakeRequest`, in call
order. -/
def started_clients (trace : List Event) : List Nat :=
  trace.filterMap fun e =>
    match e with
    | Event.Client_MakeRequest k _ => some k
    | _ => none

/-- Six transfers run on "a", a seventh request to "a" waits, and the first transfer ends
successfully. -/
def seventh_after_first_completes : List Op :=
  seven_to_one_host ++ [Op.ThreadProc 0 CURLE_OK ""]

/-- A TV series in the user's list with an unknown episode count: 5 episodes watched, 7 available,
9 aired, started 100 days ago and not yet ended. -/
def anime.airing_series : anime.Item where
  GetEpisodeCount := 0
  IsInList := true
  GetMyLastWatchedEpisode := 5
  GetAvailableEpisodeCount := 7
  GetLastAiredEpisodeNumber := 9
  GetType_is_kTv := true
  IsValidDate_date_start := true
  IsValidDate_date_end := false
  date_end_minus_date_start := 0
  date_japan_minus_date_start := 100

/-! ## What the scheduler maintains on any engine -/

/-- An engine on which every `curl_easy_setopt` fails with `CURLE_OUT_OF_MEMORY` (27); every
other call succeeds. -/
def Engine.refusing : Engine :=
  { Engine.working with curl_easy_setopt := fun _ _ => 27 }

/-- An engine on which `curl_easy_setopt` fails with `CURLE_OUT_OF_MEMORY` (27) for the request
`uid` on a client that has completed a transfer before (its response still holds the body that
`Perform` stored, line 188; `MakeRequest` overwrites only `parameter` and `uid`, lines 44-45), and
succeeds on every other client: the first attempt to start the request on a reused client fails,
an attempt on a new client succeeds. -/
def Engine.refusing_once (uid : uid_t) : Engine :=
  { Engine.working with
    curl_easy_setopt := fun c _ =>
      if c.request_.uid = uid ∧ c.response_.body ≠ "" then 27 else CURLE_OK }

/-- Nine requests to "a" (six admitted, "7" admitted when the first transfer ends with a body,
"8" and "9" waiting): afterwards client 0 is idle and can be reused for "a", six transfers run,
and "8" and "9" wait. -/
def stale_client_then_two_waiting : List Op :=
  [Op.MakeRequest (HttpRequest.get "1" "a") kHttpSilent,
   Op.MakeRequest (HttpRequest.get "2" "a") kHttpSilent,
   Op.MakeRequest (HttpRequest.get "3" "a") kHttpSilent,
   Op.MakeRequest (HttpRequest.get "4" "a") kHttpSilent,
   Op.MakeRequest (HttpRequest.get "5" "a") kHttpSilent,
   Op.MakeRequest (HttpRequest.get "6" "a") kHttpSilent,
   Op.MakeRequest (HttpRequest.get "7" "a") kHttpSilent,
   Op.MakeRequest (HttpRequest.get "8" "a") kHttpSilent,
   Op.MakeRequest (HttpRequest.get "9" "a") kHttpSilent,
   Op.ThreadProc 0 CURLE_OK "data"]

/-- The state after `stale_client_then_two_waiting` on the engine that refuses request "8" once. -/
def two_waiting_behind_stale_client : HttpManager :=
  (run (Engine.refusing_once "8") 1 stale_client_then_two_waiting HttpManager.empty).getD
    HttpManager.empty

/-- The state `HandleResponse` and `HandleError` pass to the scheduler when one of the six
transfers to "a" ends: `two_waiting_behind_stale_client` with one connection of "a" released. -/
def one_slot_released : HttpManager :=
  two_waiting_behind_stale_client.FreeConnection "a"

/-- The state in which `Client::MakeRequest` calls `OnError` when the scheduler, run on
`one_slot_released`, starts request "8" on the idle client 0 and the engine refuses the first
option: the counter of "a" is raised (line 324), the client is busy with request "8" (lines
32-45), and the request is still in the queue (the `erase` of line 334 comes after
`client.MakeRequest` returns). -/
def refused_inside_the_loop : HttpManager :=
  let s1 := { one_slot_released with
    connections_ := one_slot_released.connections_.touch "a" }
  let w := (HttpManager.ProcessQueue_admit_call (Engine.refusing_once "8") s1
    (HttpRequest.get "8" "a") kHttpSilent).1
  let c := w.client 0
  w.setClient 0 { c with busy_ := true, request_ := HttpRequest.get "8" "a",
                         response_ := { c.response_ with parameter := 0, uid := "8" } }

/-- The state `saturated_host_then_free_host` with one idle client that has completed a transfer
to "b" and can be reused. -/
def saturated_host_then_free_host_with_idle_client : HttpManager :=
  { saturated_host_then_free_host with
    clients_ := [{ HttpClient.new Engine.working (HttpRequest.get "0" "b") with
                   response_ := { uid := "0", body := "data", parameter := 0 } }] }

/-- Two transfers to "w" and six to "q" run, six requests to "q" wait; the first transfer to "q"
ends with a body (the first waiting request is admitted, client 2 becomes idle), and four of the
running transfers to "q" are redirected to "y". -/
def redirected_away_from_full_host : List Op :=
  [Op.MakeRequest (HttpRequest.get "w1" "w") kHttpSilent,
   Op.MakeRequest (HttpRequest.get "w2" "w") kHttpSilent,
   Op.MakeRequest (HttpRequest.get "q1" "q") kHttpSilent,
   Op.MakeRequest (HttpRequest.get "q2" "q") kHttpSilent,
   Op.MakeRequest (HttpRequest.get "q3" "q") kHttpSilent,
   Op.MakeRequest (HttpRequest.get "q4" "q") kHttpSilent,
   Op.MakeRequest (HttpRequest.get "q5" "q") kHttpSilent,
   Op.MakeRequest (HttpRequest.get "q6" "q") kHttpSilent,
   Op.MakeRequest (HttpRequest.get "e0" "q") kHttpSilent,
   Op.MakeRequest (HttpRequest.get "e1" "q") kHttpSilent,
   Op.MakeRequest (HttpRequest.get "e2" "q") kHttpSilent,
   Op.MakeRequest (HttpRequest.get "e3" "q") kHttpSilent,
   Op.MakeRequest (HttpRequest.get "e4" "q") kHttpSilent,
   Op.MakeRequest (HttpRequest.get "e5" "q") kHttpSilent,
   Op.ThreadProc 2 CURLE_OK "data",
   Op.OnRedirect 3 { protocol := "http", host := "y", path := "/" },
   Op.OnRedirect 4 { protocol := "http", host := "y", path := "/" },
   Op.OnRedirect 5 { protocol := "http", host := "y", path := "/" },
   Op.OnRedirect 6 { protocol := "http", host := "y", path := "/" }]

/-- The state after `redirected_away_from_full_host` on the engine that refuses request "e1"
once. -/
def five_waiting_within_ceilings : HttpManager :=
  (run (Engine.refusing_once "e1") 1 redirected_away_from_full_host HttpManager.empty).getD
    HttpManager.empty

/-- A silent request to "x" is admitted, its transfer is redirected to "y" and then fails to
connect. -/
def redirected_then_failed : List Op :=
  [Op.MakeRequest (HttpRequest.get "1" "x") kHttpSilent,
   Op.OnRedirect 0 { protocol := "http", host := "y", path := "/" },
   Op.ThreadProc 0 CURLE_COULDNT_CONNECT ""]

/-- Two manager states with the same counters, queue and trace, and as many clients. -/
def SameBooks (s t : HttpManager) : Prop :=
  t.connections_ = s.connections_ ∧ t.requests_ = s.requests_ ∧ t.trace = s.trace
    ∧ t.clients_.length = s.clients_.length

/-! ## Lemmas on the counters -/

namespace Connections

theorem at_touch (m : Connections) (h k : string_t) : (m.touch h).at_ k = m.at_ k := by
  induction m with
  | nil =>
    by_cases hk : h = k
    · simp [touch, at_, hk]
    · simp [touch, at_, hk]
  | cons e rest ih =>
    obtain ⟨key, v⟩ := e
    by_cases h1 : key = h
    · simp [touch, h1]
    · by_cases h2 : key = k
      · subst h2
        simp [touch, at_, h1]
      · simp [touch, at_, h1, h2, ih]

theorem total_touch (m : Connections) (h : string_t) : (m.touch h).total = m.total := by
  induction m with
  | nil => simp [touch, total]
  | cons e rest ih =>
    obtain ⟨key, v⟩ := e
    by_cases h1 : key = h
    · simp [touch, h1]
    · simp [touch, total, h1, ih]

theorem at_increment_self (m : Connections) (h : string_t) :
    (m.increment h).at_ h = m.at_ h + 1 := by
  induction m with
  | nil => simp [increment, at_]
  | cons e rest ih =>
    obtain ⟨key, v⟩ := e
    by_cases h1 : key = h
    · simp [increment, at_, h1]
    · simp [increment, at_, h1, ih]

theorem at_increment_other (m : Connections) (h k : string_t) (hk : k ≠ h) :
    (m.increment h).at_ k = m.at_ k := by
  induction m with
  | nil => simp [increment, at_, Ne.symm hk]
  | cons e rest ih =>
    obtain ⟨key, v⟩ := e
    by_cases h1 : key = h
    · have h2 : ¬ h = k := fun e => hk e.symm
      simp [increment, at_, h1, h2]
    · by_cases h2 : key = k
      · subst h2
        simp [increment, at_, h1]
      · simp [increment, at_, h1, h2, ih]

theorem total_increment (m : Connections) (h : string_t) :
    (m.increment h).total = m.total + 1 := by
  induction m with
  | nil => simp [increment, total]
  | cons e rest ih =>
    obtain ⟨key, v⟩ := e
    by_cases h1 : key = h
    · simp [increment, total, h1]; omega
    · simp [increment, total, h1, ih]; omega

theorem at_decrement_self (m : Connections) (h : string_t) :
    (m.decrement h).at_ h = m.at_ h - 1 := by
  induction m with
  | nil => simp [decrement, at_]
  | cons e rest ih =>
    obtain ⟨key, v⟩ := e
    by_cases h1 : key = h
    · simp [decrement, at_, h1]
    · simp [decrement, at_, h1, ih]

theorem at_decrement_other (m : Connections) (h k : string_t) (hk : k ≠ h) :
    (m.decrement h).at_ k = m.at_ k := by
  induction m with
  | nil => simp [decrement, at_, Ne.symm hk]
  | cons e rest ih =>
    obtain ⟨key, v⟩ := e
    by_cases h1 : key = h
    · have h2 : ¬ h = k := fun e => hk e.symm
      simp [decrement, at_, h1, h2]
    · by_cases h2 : key = k
      · subst h2
        simp [decrement, at_, h1]
      · simp [decrement, at_, h1, h2, ih]

theorem total_decrement (m : Connections) (h : string_t) (hpos : 0 < m.at_ h) :
    (m.decrement h).total + 1 = m.total := by
  induction m with
  | nil => simp [at_] at hpos
  | cons e rest ih =>
    obtain ⟨key, v⟩ := e
    by_cases h1 : key = h
    · simp [at_, h1] at hpos
      simp [decrement, total, h1]; omega
    · simp [at_, h1] at hpos
      have := ih hpos
      simp [decrement, total, h1]; omega

theorem at_le_total (m : Connections) (h : string_t) : m.at_ h ≤ m.total := by
  induction m with
  | nil => simp [at_]
  | cons e rest ih =>
    obtain ⟨key, v⟩ := e
    by_cases h1 : key = h
    · simp [at_, total, h1]
    · simp [at_, total, h1]; omega

end Connections

/-! ## An engine that accepts every option never calls back into the manager -/

open HttpManager

theorem TAIGA_CURL_SET_OPTION_accepted {σ : Type} (O : Owner σ) (E : Engine)
    (hE : E.OptionsAccepted) (options : List CURLoption) (w : σ) :
    Client.TAIGA_CURL_SET_OPTION O E options w = some (w, true) := by
  induction options with
  | nil => rfl
  | cons o rest ih => simp [Client.TAIGA_CURL_SET_OPTION, hE (O.self w) o, ih]

theorem SetRequestOptions_accepted {σ : Type} (O : Owner σ) (E : Engine)
    (hE : E.OptionsAccepted) (R : σ → σ → Prop)
    (htrans : ∀ a b c, R a b → R b c → R a c) (hupd : ∀ w c, R w (O.update w c)) (w : σ) :
    ∃ w1, Client.SetRequestOptions O E w = some (w1, true) ∧ R w w1 := by
  unfold Client.SetRequestOptions
  by_cases hm : (O.self w).request_.method = "POST"
  · simp only [TAIGA_CURL_SET_OPTION_accepted O E hE, andThen, hm, if_true]
    exact ⟨_, rfl, htrans _ _ _ (hupd _ _) (hupd _ _)⟩
  · simp only [TAIGA_CURL_SET_OPTION_accepted O E hE, andThen, hm, if_false]
    exact ⟨_, rfl, hupd _ _⟩

theorem MakeRequest_accepted {σ : Type} (O : Owner σ) (E : Engine)
    (hE : E.OptionsAccepted) (R : σ → σ → Prop) (hrefl : ∀ w, R w w)
    (htrans : ∀ a b c, R a b → R b c → R a c) (hupd : ∀ w c, R w (O.update w c))
    (request : HttpRequest) (w : σ) :
    ∃ w1 b, Client.MakeRequest O E request w = some (w1, b) ∧ R w w1 := by
  unfold Client.MakeRequest
  split
  · exact ⟨w, false, rfl, hrefl w⟩
  · dsimp only
    generalize Client.Initialize E _ = ini
    obtain ⟨c2, initialized⟩ := ini
    cases initialized
    · exact ⟨_, false, rfl, htrans _ _ _ (hupd _ _) (hupd _ _)⟩
    · obtain ⟨w3, h3, hR⟩ := SetRequestOptions_accepted O E hE R htrans hupd (O.update w c2)
      simp only [h3, andThen, Client.SendRequest, if_true]
      cases hT : E.CreateThread (O.self w3)
      · exact ⟨_, false, rfl, htrans _ _ _ (hupd _ _) (htrans _ _ _ hR (hupd _ _))⟩
      · exact ⟨_, true, rfl, htrans _ _ _ (hupd _ _) hR⟩


theorem SameBooks_refl (s : HttpManager) : SameBooks s s := ⟨rfl, rfl, rfl, rfl⟩

theorem SameBooks_trans (a b c : HttpManager) (h1 : SameBooks a b) (h2 : SameBooks b c) :
    SameBooks a c :=
  ⟨h2.1.trans h1.1, h2.2.1.trans h1.2.1, h2.2.2.1.trans h1.2.2.1, h2.2.2.2.trans h1.2.2.2⟩

theorem SameBooks_setClient (s : HttpManager) (k : Nat) (c : HttpClient) :
    SameBooks s (s.setClient k c) :=
  ⟨rfl, rfl, rfl, by simp [HttpManager.setClient]⟩

theorem MakeRequest_owner_accepted (E : Engine) (hE : E.OptionsAccepted)
    (pq : HttpManager → Option HttpManager) (k : Nat) (request : HttpRequest) (s : HttpManager) :
    ∃ t b, Client.MakeRequest (owner E pq k) E request s = some (t, b) ∧ SameBooks s t :=
  MakeRequest_accepted (owner E pq k) E hE SameBooks SameBooks_refl SameBooks_trans
    (fun w c => SameBooks_setClient w k c) request s

theorem GetClient_connections (E : Engine) (s : HttpManager) (request : HttpRequest) :
    (GetClient E s request).1.connections_ = s.connections_ := by
  unfold GetClient
  split <;> rfl

theorem GetClient_requests (E : Engine) (s : HttpManager) (request : HttpRequest) :
    (GetClient E s request).1.requests_ = s.requests_ := by
  unfold GetClient
  split <;> rfl

theorem GetClient_trace (E : Engine) (s : HttpManager) (request : HttpRequest) :
    (GetClient E s request).1.trace = s.trace := by
  unfold GetClient
  split <;> rfl

/-- Under an accepting engine the admission step returns, with the host counter raised by one,
the queue untouched and one call recorded. -/
theorem ProcessQueue_admit_accepted (E : Engine) (hE : E.OptionsAccepted)
    (pq : HttpManager → Option HttpManager) (s : HttpManager) (request : HttpRequest)
    (mode : HttpClientMode) :
    ∃ t b, ProcessQueue_admit E pq s request mode = some (t, b)
      ∧ t.connections_ = s.connections_.increment request.url.host
      ∧ t.requests_ = s.requests_
      ∧ t.trace = s.trace ++ [Event.Client_MakeRequest
          (GetClient E { s with connections_ := s.connections_.increment request.url.host }
            request).2 request] := by
  unfold ProcessQueue_admit
  dsimp only
  obtain ⟨t, b, h, hb⟩ := MakeRequest_owner_accepted E hE pq
    (GetClient E { s with connections_ := s.connections_.increment request.url.host } request).2
    request
    (emit (setClient
      (GetClient E { s with connections_ := s.connections_.increment request.url.host } request).1
      (GetClient E { s with connections_ := s.connections_.increment request.url.host } request).2
      ((client
        (GetClient E { s with connections_ := s.connections_.increment request.url.host } request).1
        (GetClient E { s with connections_ := s.connections_.increment request.url.host }
          request).2).set_mode mode))
      [Event.Client_MakeRequest
        (GetClient E { s with connections_ := s.connections_.increment request.url.host }
          request).2 request])
  refine ⟨t, b, h, ?_, ?_, ?_⟩
  · rw [hb.1]; simp [emit, setClient, GetClient_connections]
  · rw [hb.2.1]; simp [emit, setClient, GetClient_requests]
  · rw [hb.2.2.1]; simp [emit, setClient, GetClient_trace]

theorem ProcessQueue_loop_within (E : Engine) (hE : E.OptionsAccepted)
    (pq : HttpManager → Option HttpManager) :
    ∀ (fuel connections i : Nat) (s t : HttpManager),
      ProcessQueue_loop E pq fuel connections i s = some t →
      connections = s.connections_.total → s.WithinCeilings → t.WithinCeilings := by
  intro fuel
  induction fuel with
  | zero => intro c i s t h; simp [ProcessQueue_loop] at h
  | succ fuel ih =>
    intro c i s t h hc hs
    unfold ProcessQueue_loop at h
    split at h
    · split at h
      · cases h; exact hs
      · rename_i hlt hne
        split at h
        · cases h
        · rename_i request mode hreq
          dsimp only at h
          have hs1 : HttpManager.WithinCeilings
              { s with connections_ := s.connections_.touch request.url.host } :=
            ⟨by simpa [Connections.total_touch] using hs.1,
              fun hn => by simpa [Connections.at_touch] using hs.2 hn⟩
          split at h
          · exact ih _ _ _ _ h (by simp [hc, Connections.total_touch]) hs1
          · rename_i hhost
            obtain ⟨s5, b, h5, hconn, hreqs, _⟩ := ProcessQueue_admit_accepted E hE pq
              { s with connections_ := s.connections_.touch request.url.host } request mode
            rw [h5] at h
            dsimp only at h
            split at h
            · refine ih _ _ _ _ h ?_ ?_
              · simp [hconn, hc, Connections.total_increment, Connections.total_touch]
              · constructor
                · have h1 := hs.1
                  simp only [hconn, Connections.total_increment, Connections.total_touch]
                  rw [hc] at hne
                  omega
                · intro hn
                  simp only [hconn]
                  by_cases e : hn = request.url.host
                  · subst e
                    rw [Connections.at_increment_self]
                    have h2 := hs1.2 request.url.host
                    simp only [kMaxSimultaneousConnectionsPerHostname] at h2 hhost ⊢
                    omega
                  · rw [Connections.at_increment_other _ _ _ e]
                    exact hs1.2 hn
            · cases h
    · cases h; exact hs


theorem ProcessQueue_within (E : Engine) (hE : E.OptionsAccepted) (depth : Nat)
    (s t : HttpManager) (h : ProcessQueue E depth s = some t) (hs : s.WithinCeilings) :
    t.WithinCeilings := by
  cases depth with
  | zero => exact ProcessQueue_loop_within E hE _ _ _ _ _ _ h rfl hs
  | succ d => exact ProcessQueue_loop_within E hE _ _ _ _ _ _ h rfl hs

theorem FreeConnection_within (s : HttpManager) (hostname : string_t) (hs : s.WithinCeilings) :
    (s.FreeConnection hostname).WithinCeilings := by
  unfold FreeConnection
  split
  · rename_i hpos
    constructor
    · have h1 := Connections.total_decrement s.connections_ hostname hpos
      have h2 := hs.1
      show (s.connections_.decrement hostname).total ≤ _
      omega
    · intro hn
      show (s.connections_.decrement hostname).at_ hn ≤ _
      by_cases e : hn = hostname
      · subst e
        rw [Connections.at_decrement_self]
        have := hs.2 hn
        omega
      · rw [Connections.at_decrement_other _ _ _ e]
        exact hs.2 hn
  · exact ⟨by simpa [emit, Connections.total_touch] using hs.1,
      fun hn => by simpa [emit, Connections.at_touch] using hs.2 hn⟩

theorem emit_within (s : HttpManager) (events : List Event) (hs : s.WithinCeilings) :
    (s.emit events).WithinCeilings := hs

theorem setClient_within (s : HttpManager) (k : Nat) (c : HttpClient) (hs : s.WithinCeilings) :
    (s.setClient k c).WithinCeilings := hs

theorem HandleError_within (pq : HttpManager → Option HttpManager)
    (hpq : ∀ a b, pq a = some b → a.WithinCeilings → b.WithinCeilings)
    (s t : HttpManager) (response : HttpResponse) (error : string_t)
    (h : HandleError pq s response error = some t) (hs : s.WithinCeilings) :
    t.WithinCeilings := by
  unfold HandleError at h
  split at h
  · cases h
  · exact hpq _ _ h (FreeConnection_within _ _ (emit_within _ _ hs))

theorem HandleResponse_within (E : Engine) (pq : HttpManager → Option HttpManager)
    (hpq : ∀ a b, pq a = some b → a.WithinCeilings → b.WithinCeilings)
    (s t : HttpManager) (response : HttpResponse)
    (h : HandleResponse E pq s response = some t) (hs : s.WithinCeilings) :
    t.WithinCeilings := by
  unfold HandleResponse at h
  split at h
  · cases h
  · exact hpq _ _ h (FreeConnection_within _ _ (emit_within _ _ hs))

theorem Perform_owner_within (E : Engine) (pq : HttpManager → Option HttpManager)
    (hpq : ∀ a b, pq a = some b → a.WithinCeilings → b.WithinCeilings)
    (k : Nat) (code : CURLcode) (s t : HttpManager) (b : Bool)
    (h : Client.Perform (owner E pq k) E code s = some (t, b)) (hs : s.WithinCeilings) :
    t.WithinCeilings := by
  unfold Client.Perform at h
  simp only [Option.map_eq_some'] at h
  obtain ⟨w1, hw, ht⟩ := h
  have hw1 : w1.WithinCeilings := by
    split at hw
    · exact HandleResponse_within E pq hpq _ _ _ hw (emit_within _ _ (setClient_within _ _ _ hs))
    · split at hw
      · exact HandleError_within pq hpq _ _ _ _ hw (emit_within _ _ hs)
      · cases hw; exact hs
  cases ht
  exact setClient_within _ _ _ hw1

theorem step_within (E : Engine) (hE : E.OptionsAccepted) (depth : Nat) (s t : HttpManager)
    (op : Op) (hop : op.isSubmissionOrCompletion = true) (h : step E depth s op = some t)
    (hs : s.WithinCeilings) : t.WithinCeilings := by
  have hpq : ∀ a b, ProcessQueue E depth a = some b → a.WithinCeilings → b.WithinCeilings :=
    fun a b hab ha => ProcessQueue_within E hE depth a b hab ha
  cases op with
  | MakeRequest request mode =>
    simp only [step, HttpManager.MakeRequest, Option.bind_eq_some] at h
    obtain ⟨s1, h1, h2⟩ := h
    unfold AddToQueue at h1
    split at h1
    · cases h1; exact hpq _ _ h2 hs
    · cases h1
  | HandleResponse response => exact HandleResponse_within E _ hpq _ _ _ h hs
  | HandleError response error => exact HandleError_within _ hpq _ _ _ _ h hs
  | ThreadProc k code received =>
    simp only [step] at h
    split at h
    · simp only [Client.ThreadProc, Option.map_eq_some'] at h
      obtain ⟨r, hr, rfl⟩ := h
      exact Perform_owner_within E _ hpq k code _ _ r.2 hr (setClient_within _ _ _ hs)
    · cases h
  | HandleRedirect a b => simp [Op.isSubmissionOrCompletion] at hop
  | CancelRequest uid => simp [Op.isSubmissionOrCompletion] at hop
  | OnRedirect k url => simp [Op.isSubmissionOrCompletion] at hop

theorem run_within (E : Engine) (hE : E.OptionsAccepted) (depth : Nat) :
    ∀ (ops : List Op) (s t : HttpManager),
      (∀ op ∈ ops, op.isSubmissionOrCompletion = true) →
      run E depth ops s = some t → s.WithinCeilings → t.WithinCeilings := by
  intro ops
  induction ops with
  | nil => intro s t _ h hs; simp [run] at h; rw [← h]; exact hs
  | cons op rest ih =>
    intro s t hops h hs
    simp only [run, Option.bind_eq_some] at h
    obtain ⟨s1, h1, h2⟩ := h
    exact ih s1 t (fun o ho => hops o (List.mem_cons_of_mem _ ho)) h2
      (step_within E hE depth s s1 op (hops op (List.mem_cons_self _ _)) h1 hs)

theorem size_t_decrement_increment (i : Nat) (hi : i < size_t_modulus) :
    ((i + size_t_modulus - 1) % size_t_modulus + 1) % size_t_modulus = i := by
  unfold size_t_modulus at *
  omega

theorem ProcessQueue_loop_returns (E : Engine) (hE : E.OptionsAccepted)
    (pq : HttpManager → Option HttpManager) :
    ∀ (fuel connections i : Nat) (s : HttpManager),
      i ≤ s.requests_.length → s.requests_.length < size_t_modulus →
      s.requests_.length - i < fuel →
      ∃ t, ProcessQueue_loop E pq fuel connections i s = some t := by
  intro fuel
  induction fuel with
  | zero => intro c i s _ _ h; omega
  | succ fuel ih =>
    intro c i s hi hM hfuel
    unfold ProcessQueue_loop
    split
    · rename_i hlt
      split
      · exact ⟨s, rfl⟩
      · split
        · rename_i hnone
          have := List.getElem?_eq_none_iff.mp hnone
          omega
        · rename_i request mode hreq
          dsimp only
          split
          · have hmod : (i + 1) % size_t_modulus = i + 1 := Nat.mod_eq_of_lt (by omega)
            rw [hmod]
            exact ih _ _ _ (by simpa using hlt) (by simpa using hM) (by simp; omega)
          · obtain ⟨s5, b, h5, _, hreqs, _⟩ := ProcessQueue_admit_accepted E hE pq
              { s with connections_ := s.connections_.touch request.url.host } request mode
            rw [h5]
            dsimp only
            have hlen : s5.requests_.length = s.requests_.length := by rw [hreqs]
            rw [if_pos (by omega), size_t_decrement_increment i (by omega)]
            have hers : (s5.requests_.eraseIdx i).length = s.requests_.length - 1 := by
              rw [List.length_eraseIdx, hlen, if_pos hlt]
            refine ih _ _ _ ?_ ?_ ?_
            · show i ≤ (s5.requests_.eraseIdx i).length
              omega
            · show (s5.requests_.eraseIdx i).length < size_t_modulus
              omega
            · show (s5.requests_.eraseIdx i).length - i < fuel
              omega
    · exact ⟨s, rfl⟩

/-- On an engine that accepts every option, `ProcessQueue` returns for every queue a vector can hold. -/
theorem ProcessQueue_returns (E : Engine) (hE : E.OptionsAccepted) (depth : Nat)
    (s : HttpManager) (hM : s.requests_.length < size_t_modulus) :
    ∃ t, ProcessQueue E depth s = some t := by
  cases depth with
  | zero => exact ProcessQueue_loop_returns E hE _ _ _ _ _ (Nat.zero_le _) hM (by omega)
  | succ d => exact ProcessQueue_loop_returns E hE _ _ _ _ _ (Nat.zero_le _) hM (by omega)

/-! ## Redirect accounting -/

/-- C8: for every manager state and distinct hosts X and Y with X's counter at least 1,
`HandleRedirect(X, Y)` leaves X's counter exactly one lower and Y's counter exactly one higher,
leaves every other host's counter unchanged, and leaves the sum of all counters unchanged. -/
theorem HandleRedirect_moves_one_connection (s : HttpManager) (X Y : string_t)
    (hXY : X ≠ Y) (hX : 1 ≤ s.connections_.at_ X) :
    (s.HandleRedirect X Y).connections_.at_ X + 1 = s.connections_.at_ X
    ∧ (s.HandleRedirect X Y).connections_.at_ Y = s.connections_.at_ Y + 1
    ∧ (∀ Z : string_t, Z ≠ X → Z ≠ Y →
        (s.HandleRedirect X Y).connections_.at_ Z = s.connections_.at_ Z)
    ∧ (s.HandleRedirect X Y).connections_.total = s.connections_.total := by
  have hpos : 0 < s.connections_.at_ X := hX
  have hfree : (s.FreeConnection X).connections_ = s.connections_.decrement X := by
    simp [HttpManager.FreeConnection, hpos]
  have hconn : (s.HandleRedirect X Y).connections_
      = (s.connections_.decrement X).increment Y := by
    simp [HttpManager.HandleRedirect, HttpManager.AddConnection, hfree]
  rw [hconn]
  refine ⟨?_, ?_, ?_, ?_⟩
  · rw [Connections.at_increment_other _ _ _ hXY, Connections.at_decrement_self]
    omega
  · rw [Connections.at_increment_self, Connections.at_decrement_other _ _ _ (Ne.symm hXY)]
  · intro Z hZX hZY
    rw [Connections.at_increment_other _ _ _ hZY, Connections.at_decrement_other _ _ _ hZX]
  · have h1 := Connections.total_decrement s.connections_ X hpos
    rw [Connections.total_increment]
    exact h1

/-- C8 at a concrete state: one connection on "x", redirected to "y". -/
theorem HandleRedirect_moves_one_connection_witness :
    ("x" : string_t) ≠ "y"
    ∧ 1 ≤ ({ HttpManager.empty with connections_ := [("x", 1)] } : HttpManager).connections_.at_ "x"
    ∧ (({ HttpManager.empty with connections_ := [("x", 1)] } : HttpManager).HandleRedirect
          "x" "y").connections_.at_ "y" = 1 := by
  refine ⟨by decide, by decide, ?_⟩
  have h := HandleRedirect_moves_one_connection
    ({ HttpManager.empty with connections_ := [("x", 1)] } : HttpManager) "x" "y"
    (by decide) (by decide)
  exact h.2.1

/-! ## Runs that break the ceilings, drop a request, or leak a counter -/

/-- C2 at its failing input: ten transfers on ten hosts, the first redirected twice.  Every step
is possible (the run returns), the second redirect finds the counter of "h0" already zero (the
error branch of `FreeConnection`), and the sum of the counters ends at 11. -/
theorem sum_exceeds_global_ceiling_after_redirects :
    (run Engine.working 0 ten_hosts HttpManager.empty).map
        (fun s => s.connections_.total) = some 10
    ∧ (run Engine.working 0 redirected_twice HttpManager.empty).map
        (fun s => (s.connections_.total, s.connections_.at_ "h0", s.connections_.at_ "y",
          s.connections_.at_ "z",
          decide (Event.LOG_LevelError_already_zero "h0" ∈ s.trace)))
      = some (11, 0, 1, 1, true) := by
  decide

/-- C3 at its failing input: with six transfers on "a", a transfer on "b" is redirected to "a";
the counter of "a" becomes 7, and the request to "a" submitted next is admitted at once (empty
queue, counter 8). -/
theorem host_exceeds_ceiling_after_redirect :
    (run Engine.working 0 (redirected_into_full_host.take 8) HttpManager.empty).map
        (fun s => (s.connections_.at_ "a", s.requests_.length)) = some (7, 0)
    ∧ (run Engine.working 0 redirected_into_full_host HttpManager.empty).map
        (fun s => (s.connections_.at_ "a", s.requests_.length)) = some (8, 0) := by
  decide

/-- C4 at its failing input: libcurl is not initialised, one request is submitted.  The scheduler
removes it from the queue and counts it, `Client::MakeRequest` is called and fails, no terminal
outcome reaches the manager, no client is busy (so none can arrive later), and the counter of
the host stays at 1. -/
theorem failed_start_is_dropped_silently :
    (run Engine.uninitialized 0 [Op.MakeRequest (HttpRequest.get "1" "x") kHttpSilent]
        HttpManager.empty).map
      (fun s => (s.requests_, s.connections_.at_ "x", s.trace,
        s.clients_.map (fun c => c.busy_), terminal_outcomes "1" s.trace))
    = some ([], 1, [Event.Client_MakeRequest 0 (HttpRequest.get "1" "x")], [false], []) := by
  rfl

/-- C9 at its failing input: a request admitted on "x" is redirected to "y" and finishes.  Both
counters were 0 before; afterwards "y" is left at 1, and the release of "x" found it already
zero. -/
theorem counters_not_restored_after_redirect :
    (run Engine.working 0 redirected_then_finished HttpManager.empty).map
      (fun s => (s.connections_.at_ "x", s.connections_.at_ "y",
        decide (Event.LOG_LevelError_already_zero "x" ∈ s.trace),
        s.clients_.map (fun c => c.busy_), s.requests_.length))
    = some (0, 1, true, [false], 0) := by
  decide

/-! ## One terminal event per submission -/

theorem TAIGA_CURL_SET_OPTION_recording (E : Engine) (options : List CURLoption)
    (c : HttpClient) (log : List Callback) :
    ReportsAtMostOneFailure log
      (Client.TAIGA_CURL_SET_OPTION recordingOwner E options (c, log)) := by
  induction options with
  | nil => exact ⟨c, Or.inl rfl⟩
  | cons o rest ih =>
    unfold Client.TAIGA_CURL_SET_OPTION
    by_cases hcode : E.curl_easy_setopt c o = CURLE_OK
    · simpa [recordingOwner, hcode] using ih
    · exact ⟨c, Or.inr ⟨E.curl_easy_setopt c o, hcode, by simp [recordingOwner, hcode]⟩⟩

theorem andThen_recording (log : List Callback)
    (r : Option ((HttpClient × List Callback) × Bool))
    (f : HttpClient × List Callback → Option ((HttpClient × List Callback) × Bool))
    (hr : ReportsAtMostOneFailure log r)
    (hf : ∀ c1, ReportsAtMostOneFailure log (f (c1, log))) :
    ReportsAtMostOneFailure log (andThen r f) := by
  obtain ⟨c1, h | ⟨e, he, h⟩⟩ := hr
  · rw [h]; exact hf c1
  · rw [h]; exact ⟨c1, Or.inr ⟨e, he, rfl⟩⟩

theorem SetRequestOptions_recording (E : Engine) (c : HttpClient) (log : List Callback) :
    ReportsAtMostOneFailure log (Client.SetRequestOptions recordingOwner E (c, log)) := by
  unfold Client.SetRequestOptions
  refine andThen_recording log _ _ (TAIGA_CURL_SET_OPTION_recording E _ c log) ?_
  intro c1
  refine andThen_recording log _ _ ?_ ?_
  · split
    · exact TAIGA_CURL_SET_OPTION_recording E _ _ log
    · exact ⟨c1, Or.inl rfl⟩
  · intro c2
    refine andThen_recording log _ _ (TAIGA_CURL_SET_OPTION_recording E _ c2 log) ?_
    intro c3
    exact TAIGA_CURL_SET_OPTION_recording E _ _ log

/-- `Client::MakeRequest` on a recorded client: it either reports nothing, or returns false after
reporting exactly one failure code. -/
theorem MakeRequest_recording (E : Engine) (request : HttpRequest) (c : HttpClient) :
    ∃ c1 b, Client.MakeRequest recordingOwner E request (c, []) = some ((c1, []), b)
      ∨ ∃ e, e ≠ CURLE_OK ∧ Client.MakeRequest recordingOwner E request (c, [])
          = some ((c1, [Callback.OnError e]), false) := by
  unfold Client.MakeRequest
  split
  · exact ⟨c, false, Or.inl rfl⟩
  · dsimp only
    generalize Client.Initialize E _ = ini
    obtain ⟨c2, initialized⟩ := ini
    cases initialized
    · exact ⟨_, false, Or.inl rfl⟩
    · obtain ⟨c3, h | ⟨e, he, h⟩⟩ := SetRequestOptions_recording E c2 []
      · simp only [recordingOwner] at h ⊢
        simp only [h, andThen, Client.SendRequest, if_true]
        cases hT : E.CreateThread c3
        · exact ⟨_, false, Or.inl rfl⟩
        · exact ⟨_, true, Or.inl rfl⟩
      · simp only [recordingOwner] at h ⊢
        simp only [h, andThen, if_true]
        exact ⟨_, false, Or.inr ⟨e, he, rfl⟩⟩

/-- `Client::Perform` on a recorded client reports `OnReadComplete` for `CURLE_OK`, nothing for
`CURLE_ABORTED_BY_CALLBACK`, and `OnError(code)` for every other code. -/
theorem Perform_recording (E : Engine) (code : CURLcode) (c : HttpClient)
    (log : List Callback) :
    ∃ c1, Client.Perform recordingOwner E code (c, log)
      = some ((c1, log ++ (if code = CURLE_OK then [Callback.OnReadComplete]
                            else if code ≠ CURLE_ABORTED_BY_CALLBACK then [Callback.OnError code]
                            else [])), code == CURLE_OK) := by
  unfold Client.Perform
  by_cases h1 : code = CURLE_OK
  · simp only [h1, if_true, recordingOwner, Option.map_some']
    exact ⟨_, rfl⟩
  · by_cases h2 : code = CURLE_ABORTED_BY_CALLBACK
    · have h2n : ¬ (code ≠ CURLE_ABORTED_BY_CALLBACK) := fun h => h h2
      simp only [h1, h2n, if_false, recordingOwner, Option.map_some', List.append_nil]
      exact ⟨_, rfl⟩
    · have h2p : code ≠ CURLE_ABORTED_BY_CALLBACK := h2
      simp only [h1, if_false, if_pos h2p, recordingOwner, Option.map_some']
      exact ⟨_, rfl⟩

/-- C5: a client reports at most one terminal event per submission.  For every engine, request,
client and engine result code, the callbacks received during `Client::MakeRequest` followed by
`Client::Perform` are: none; or `OnReadComplete` alone, and then the result code is `CURLE_OK`;
or one `OnError` alone, with a failure code (from `SetRequestOptions`, in which case `Perform`
does not run, or from `Perform`). -/
theorem client_reports_at_most_one_terminal_event (E : Engine) (request : HttpRequest)
    (code : CURLcode) (c : HttpClient) :
    (Client.submit E request code c).length ≤ 1
    ∧ (Client.submit E request code c = []
      ∨ (Client.submit E request code c = [Callback.OnReadComplete] ∧ code = CURLE_OK)
      ∨ ∃ e, Client.submit E request code c = [Callback.OnError e] ∧ e ≠ CURLE_OK) := by
  have key : Client.submit E request code c = []
      ∨ (Client.submit E request code c = [Callback.OnReadComplete] ∧ code = CURLE_OK)
      ∨ ∃ e, Client.submit E request code c = [Callback.OnError e] ∧ e ≠ CURLE_OK := by
    unfold Client.submit
    obtain ⟨c1, b, h | ⟨e, he, h⟩⟩ := MakeRequest_recording E request c
    · rw [h]
      cases b
      · exact Or.inl rfl
      · obtain ⟨c2, hp⟩ := Perform_recording E code c1 []
        simp only [Client.ThreadProc, hp]
        by_cases h1 : code = CURLE_OK
        · exact Or.inr (Or.inl ⟨by simp [h1], h1⟩)
        · by_cases h2 : code = CURLE_ABORTED_BY_CALLBACK
          · have h2n : ¬ (code ≠ CURLE_ABORTED_BY_CALLBACK) := fun h => h h2
            exact Or.inl (by simp only [if_neg h1, if_neg h2n, List.append_nil])
          · have h2p : code ≠ CURLE_ABORTED_BY_CALLBACK := h2
            exact Or.inr (Or.inr ⟨code, by simp only [if_neg h1, if_pos h2p, List.nil_append], h1⟩)
    · rw [h]
      exact Or.inr (Or.inr ⟨e, rfl, he⟩)
  refine ⟨?_, key⟩
  rcases key with h | ⟨h, _⟩ | ⟨e, h, _⟩ <;> simp [h]

theorem ProcessQueue_loop_skips_then_admits (E : Engine) (hE : E.OptionsAccepted)
    (pq : HttpManager → Option HttpManager) (s : HttpManager)
    (rA rB : HttpRequest) (mA mB : HttpClientMode)
    (hq : s.requests_ = [(rA, mA), (rB, mB)])
    (hA : s.connections_.at_ rA.url.host = kMaxSimultaneousConnectionsPerHostname)
    (hB : s.connections_.at_ rB.url.host < kMaxSimultaneousConnectionsPerHostname)
    (hsum : s.connections_.total < kMaxSimultaneousConnections) :
    ∃ t, ProcessQueue_loop E pq 3 s.connections_.total 0 s = some t
      ∧ t.requests_ = [(rA, mA)]
      ∧ t.connections_.at_ rB.url.host = s.connections_.at_ rB.url.host + 1
      ∧ t.connections_.at_ rA.url.host = s.connections_.at_ rA.url.host
      ∧ ∃ k, t.trace = s.trace ++ [Event.Client_MakeRequest k rB] := by
  have hne : rB.url.host ≠ rA.url.host := by
    intro e; rw [e, hA] at hB; exact Nat.lt_irrefl _ hB
  have hc : ¬ s.connections_.total = kMaxSimultaneousConnections := Nat.ne_of_lt hsum
  obtain ⟨s5, b, h5, hconn, hreqs, htrace⟩ := ProcessQueue_admit_accepted E hE pq
    { connections_ := (s.connections_.touch rA.url.host).touch rB.url.host,
      clients_ := s.clients_, requests_ := s.requests_, trace := s.trace } rB mB
  have hB6 : ¬ ((s.connections_.touch rA.url.host).touch rB.url.host).at_ rB.url.host
      = kMaxSimultaneousConnectionsPerHostname := by
    rw [Connections.at_touch, Connections.at_touch]; exact Nat.ne_of_lt hB
  have hA6 : (s.connections_.touch rA.url.host).at_ rA.url.host
      = kMaxSimultaneousConnectionsPerHostname := by
    rw [Connections.at_touch]; exact hA
  have h1 : (1 : Nat) % size_t_modulus = 1 := by decide
  have h2 : ((1 + size_t_modulus - 1) % size_t_modulus + 1) % size_t_modulus = 1 := by decide
  refine ⟨{ s5 with requests_ := [(rA, mA)] }, ?_, rfl, ?_, ?_, ?_⟩
  · unfold ProcessQueue_loop
    simp only [hq, List.length_cons, List.length_nil, Nat.zero_lt_succ, if_true, hc, if_false,
      List.getElem?_cons_zero, hA6, Nat.zero_add, h1]
    unfold ProcessQueue_loop
    simp only [List.length_cons, List.length_nil, Nat.lt_add_one, Nat.one_lt_two, if_true, hc,
      if_false, List.getElem?_cons_succ, List.getElem?_cons_zero, hB6]
    rw [hq] at h5 hreqs
    simp only [h5, hreqs, List.length_cons, List.length_nil, Nat.one_lt_two, if_true, h2]
    unfold ProcessQueue_loop
    simp [List.eraseIdx]
  · show s5.connections_.at_ rB.url.host = _
    rw [hconn]
    simp only [Connections.at_increment_self, Connections.at_touch]
  · show s5.connections_.at_ rA.url.host = _
    rw [hconn]
    simp only [Connections.at_increment_other _ _ _ (Ne.symm hne), Connections.at_touch]
  · exact ⟨_, htrace⟩

/-! ## Host-starvation freedom -/

/-- On an engine that accepts every option: in every state where host A's counter equals the
per-host ceiling, host B's counter is below it, the sum of the counters is below the global
ceiling and the queue is
[request to A, request to B], `ProcessQueue` returns, having admitted the B request: B's counter
is one higher, `client.MakeRequest` was called for the B request on the client obtained from
`GetClient`, the B request has left the queue; the A request is still queued and A's counter is
unchanged.  (The engine is any engine whose option setting succeeds.) -/
theorem saturated_host_does_not_block_other_host (E : Engine) (hE : E.OptionsAccepted)
    (depth : Nat) (s : HttpManager) (rA rB : HttpRequest) (mA mB : HttpClientMode)
    (hq : s.requests_ = [(rA, mA), (rB, mB)])
    (hA : s.connections_.at_ rA.url.host = kMaxSimultaneousConnectionsPerHostname)
    (hB : s.connections_.at_ rB.url.host < kMaxSimultaneousConnectionsPerHostname)
    (hsum : s.connections_.total < kMaxSimultaneousConnections) :
    ∃ t, ProcessQueue E depth s = some t
      ∧ t.requests_ = [(rA, mA)]
      ∧ t.connections_.at_ rB.url.host = s.connections_.at_ rB.url.host + 1
      ∧ t.connections_.at_ rA.url.host = s.connections_.at_ rA.url.host
      ∧ ∃ k, t.trace = s.trace ++ [Event.Client_MakeRequest k rB] := by
  have hlen : s.requests_.length + 1 = 3 := by rw [hq]; rfl
  cases depth with
  | zero =>
    unfold ProcessQueue
    rw [hlen]
    exact ProcessQueue_loop_skips_then_admits E hE _ s rA rB mA mB hq hA hB hsum
  | succ d =>
    unfold ProcessQueue
    rw [hlen]
    exact ProcessQueue_loop_skips_then_admits E hE _ s rA rB mA mB hq hA hB hsum

/-- The working engine at a concrete state: "a" holds 6 connections, "b" holds 1, the queue is
[request to "a", request to "b"]. -/
theorem saturated_host_does_not_block_other_host_witness :
    Engine.working.OptionsAccepted
    ∧ saturated_host_then_free_host.connections_.at_ "a" = kMaxSimultaneousConnectionsPerHostname
    ∧ saturated_host_then_free_host.connections_.at_ "b" < kMaxSimultaneousConnectionsPerHostname
    ∧ saturated_host_then_free_host.connections_.total < kMaxSimultaneousConnections
    ∧ ∃ t, ProcessQueue Engine.working 0 saturated_host_then_free_host = some t
      ∧ t.requests_ = [(HttpRequest.get "1" "a", kHttpSilent)]
      ∧ t.connections_.at_ "b" = 2 ∧ t.connections_.at_ "a" = 6 := by
  have hE : Engine.working.OptionsAccepted := fun _ _ => rfl
  obtain ⟨t, h1, h2, h3, h4, _⟩ := saturated_host_does_not_block_other_host Engine.working hE 0
    saturated_host_then_free_host (HttpRequest.get "1" "a") (HttpRequest.get "2" "b")
    kHttpSilent kHttpSilent rfl (by decide) (by decide) (by decide)
  exact ⟨hE, by decide, by decide, by decide, t, h1, h2, h3, h4⟩

/-! ## Cancellation -/

/-- C6, as stated, fails: six transfers are in flight on "a", a seventh request to "a" is queued,
the first transfer is cancelled and its thread ends with `CURLE_ABORTED_BY_CALLBACK`.  No terminal
outcome for it reaches the manager, the counter of "a" is still 6, and the queued request is still
queued, although the cancelled client is idle again. -/
theorem cancelled_transfer_has_no_terminal_callback :
    (run Engine.working 0 (seven_to_one_host ++ [Op.CancelRequest "1"]) HttpManager.empty).map
        (fun s => (s.connections_.at_ "a", s.requests_.map (fun r => r.1.uid),
          s.clients_.map (fun c => (c.request_.uid, c.busy_, c.cancel_))))
      = some (6, ["7"], [("1", true, true), ("2", true, false), ("3", true, false),
          ("4", true, false), ("5", true, false), ("6", true, false)])
    ∧ (run Engine.working 0
        (seven_to_one_host ++ [Op.CancelRequest "1",
          Op.ThreadProc 0 CURLE_ABORTED_BY_CALLBACK ""]) HttpManager.empty).map
        (fun s => (terminal_outcomes "1" s.trace, s.connections_.at_ "a",
          s.requests_.map (fun r => r.1.uid), s.clients_.map (fun c => c.busy_)))
      = some ([], 6, ["7"], [false, true, true, true, true, true]) := by
  constructor <;> rfl

/-- C6 as amended: when the thread of an in-flight transfer ends with the aborted-by-callback code,
`Client::Perform` calls neither `OnReadComplete` nor `OnError`; nothing reaches the manager, the
UI or a collaborator (the trace of outward calls and terminal entry points is unchanged). -/
theorem aborted_transfer_reports_nothing (E : Engine) (depth : Nat) (s : HttpManager) (k : Nat)
    (received : string_t) (hk : k < s.clients_.length) (hbusy : (s.client k).busy_ = true) :
    ∃ t, step E depth s (Op.ThreadProc k CURLE_ABORTED_BY_CALLBACK received) = some t
      ∧ t.trace = s.trace := by
  have hne : ¬ (CURLE_ABORTED_BY_CALLBACK = CURLE_OK) := by decide
  have hstep : step E depth s (Op.ThreadProc k CURLE_ABORTED_BY_CALLBACK received)
      = (Client.Perform (owner E (ProcessQueue E depth) k) E CURLE_ABORTED_BY_CALLBACK
          (s.setClient k { s.client k with write_buffer_ := received })).map (fun r => r.1) := by
    simp only [step, hk, hbusy, and_self, if_true, Client.ThreadProc]
  rw [hstep]
  unfold Client.Perform
  simp only [hne, if_false, ne_eq, not_true_eq_false, Option.map_some']
  exact ⟨_, rfl, rfl⟩

/-- C6 as amended, at a concrete state: the cancelled first transfer of `first_transfer_cancelled`. -/
theorem aborted_transfer_reports_nothing_witness :
    0 < first_transfer_cancelled.clients_.length
    ∧ (first_transfer_cancelled.client 0).busy_ = true
    ∧ ∃ t, step Engine.working 0 first_transfer_cancelled
          (Op.ThreadProc 0 CURLE_ABORTED_BY_CALLBACK "") = some t
        ∧ t.trace = first_transfer_cancelled.trace :=
  ⟨by decide, by decide,
    aborted_transfer_reports_nothing Engine.working 0 first_transfer_cancelled 0 ""
      (by decide) (by decide)⟩

/-- C7, as stated, fails: with six transfers in flight on "a" and the request "7" queued,
`CancelRequest("7")` leaves "7" in the queue, and "7" is admitted as soon as a transfer ends. -/
theorem cancelled_queued_request_stays_queued :
    (run Engine.working 0 seven_to_one_host HttpManager.empty).map
        (fun s => s.requests_.map (fun r => r.1.uid)) = some ["7"]
    ∧ (run Engine.working 0 (seven_to_one_host ++ [Op.CancelRequest "7"]) HttpManager.empty).map
        (fun s => s.requests_.map (fun r => r.1.uid)) = some ["7"]
    ∧ (run Engine.working 0
        (seven_to_one_host ++ [Op.CancelRequest "7", Op.ThreadProc 0 CURLE_OK ""])
        HttpManager.empty).map
        (fun s => (s.requests_.map (fun r => r.1.uid),
          decide (Event.Client_MakeRequest 6 (HttpRequest.get "7" "a") ∈ s.trace)))
      = some ([], true) := by
  refine ⟨by rfl, by rfl, by decide⟩

/-- C7 as amended: `CancelRequest(uid)` never touches the queue or the counters; in particular a
request that is queued but not yet admitted stays in the queue, every other queue entry and every
host counter unchanged. -/
theorem CancelRequest_keeps_queue_and_counters (s : HttpManager) (uid : uid_t) :
    (s.CancelRequest uid).requests_ = s.requests_
    ∧ (s.CancelRequest uid).connections_ = s.connections_ := by
  unfold CancelRequest
  split
  · split <;> exact ⟨rfl, rfl⟩
  · exact ⟨rfl, rfl⟩

/-! ## A busy client rejects a submission -/

/-- C14: `Client::MakeRequest` on a client that is already busy returns false and changes nothing:
the whole state of its owner is returned as it was (the stored request, the stored response, the
busy flag, and whatever the owner records of started transfers and callbacks). -/
theorem MakeRequest_on_busy_client_changes_nothing {σ : Type} (O : Owner σ) (E : Engine)
    (request : HttpRequest) (w : σ) (hbusy : (O.self w).busy_ = true) :
    Client.MakeRequest O E request w = some (w, false) := by
  unfold Client.MakeRequest
  rw [if_pos hbusy]

/-- C14 at a concrete client: a busy client owned by the recording owner. -/
theorem MakeRequest_on_busy_client_changes_nothing_witness :
    (recordingOwner.self ({ HttpClient.null with busy_ := true }, [])).busy_ = true
    ∧ Client.MakeRequest recordingOwner Engine.working (HttpRequest.get "2" "y")
        ({ HttpClient.null with busy_ := true }, [])
      = some (({ HttpClient.null with busy_ := true }, []), false) :=
  ⟨rfl, MakeRequest_on_busy_client_changes_nothing recordingOwner Engine.working
    (HttpRequest.get "2" "y") ({ HttpClient.null with busy_ := true }, []) rfl⟩

/-! ## Dispatch by mode -/

/-- C17: `HandleResponse` routes by the client's mode alone.  For every engine, client and
response: every collaborator call of the dispatch is made on the collaborator of the mode's
group (sync service manager for `kHttpService*`, feed aggregator for `kHttpFeed*`, Twitter handler
for `kHttpTwitter*`, updater for `kHttpTaigaUpdate*`), so no mode reaches two of them; that
collaborator is indeed called (for the two feed-check modes: when the feed parameter is not null);
and the silent mode calls nothing at all. -/
theorem HandleResponse_dispatches_by_mode (E : Engine) (c : HttpClient)
    (response : HttpResponse) :
    (∀ e ∈ HandleResponse_dispatch E c response,
      e.collaborator = none ∨ e.collaborator = c.mode_.collaborator)
    ∧ (∀ X, c.mode_.collaborator = some X →
        some X ∈ (HandleResponse_dispatch E c response).map Event.collaborator
        ∨ ((c.mode_ = kHttpFeedCheck ∨ c.mode_ = kHttpFeedCheckAuto) ∧ response.parameter = 0))
    ∧ HandleResponse_dispatch E { c with mode_ := kHttpSilent } response = [] := by
  refine ⟨?_, ?_, rfl⟩
  · intro e he
    unfold HandleResponse_dispatch at he
    cases hm : c.mode_ <;> simp only [hm] at he <;> (try split_ifs at he) <;>
      simp only [List.mem_cons, List.mem_singleton, List.mem_append, List.not_mem_nil,
        List.append_nil, List.nil_append, or_false, false_or, List.cons_append] at he <;>
      (try rcases he with rfl | rfl | rfl) <;>
      simp [Event.collaborator, HttpClientMode.collaborator]
  · intro X hX
    unfold HandleResponse_dispatch
    cases hm : c.mode_ <;> simp only [hm, HttpClientMode.collaborator] at hX ⊢ <;>
      (try cases hX) <;>
      (try (left; simp [Event.collaborator]; done))
    all_goals
      by_cases hp : response.parameter = 0
      · right; simp [hp]
      · left; simp [hp, Event.collaborator]

/-- C18, as stated, fails: a feed check whose transfer cannot connect reaches `HandleError`, which
calls no collaborator at all (the feed aggregator is not told); only the UI is. -/
theorem feed_error_reaches_no_collaborator :
    (run Engine.working 0 failed_feed_check HttpManager.empty).map
      (fun s => (s.trace.filterMap Event.collaborator, terminal_outcomes "1" s.trace,
        HandleError_dispatch (s.client 0) "e"))
    = some ([], [Event.HandleError "1" "HTTP error #7: error (x)"], []) := by
  decide

/-- C18 as amended: `HandleError` passes the diagnostic text unchanged to the sync service manager
for every list-synchronization mode, the collaborator `HandleResponse` selects for these modes,
and calls no collaborator for any other mode. -/
theorem HandleError_surfaces_to_service_manager_only (E : Engine) (c : HttpClient)
    (response : HttpResponse) (error : string_t) :
    HandleError_dispatch c error
      = (if c.mode_.collaborator = some Collaborator.ServiceManager then
          [Event.ServiceManager_HandleHttpError c.response_ error] else [])
    ∧ (c.mode_.collaborator ≠ some Collaborator.ServiceManager
        ∨ HandleResponse_dispatch E c response
            = [Event.ServiceManager_HandleHttpResponse response]) := by
  unfold HandleError_dispatch HandleResponse_dispatch
  cases hm : c.mode_ <;> simp [HttpClientMode.collaborator]

/-! ## Housekeeping -/

/-- C20, as stated, fails: after one finished transfer the only client is idle and reuse-eligible,
and `FreeMemory` removes it. -/
theorem FreeMemory_removes_idle_reusable_client :
    (run Engine.working 0 one_finished_transfer HttpManager.empty).map
      (fun s => (s.clients_.map (fun c => (c.busy_, c.allow_reuse_)),
        s.FreeMemory.clients_.length))
    = some ([(false, true)], 0) := by
  decide

/-- C20 as amended: `FreeMemory` removes exactly the idle clients, reuse-eligible or not: the
clients afterwards are the busy clients, in their original relative order. -/
theorem FreeMemory_keeps_exactly_the_busy_clients (s : HttpManager) :
    s.FreeMemory.clients_ = s.clients_.filter (fun c => c.busy_)
    ∧ s.FreeMemory.clients_.Sublist s.clients_
    ∧ (∀ c, c ∈ s.FreeMemory.clients_ ↔ c ∈ s.clients_ ∧ c.busy_ = true)
    ∧ s.FreeMemory.requests_ = s.requests_ ∧ s.FreeMemory.connections_ = s.connections_ := by
  refine ⟨rfl, ?_, ?_, rfl, rfl⟩
  · exact List.filter_sublist _
  · intro c
    simp [FreeMemory, List.mem_filter]

/-! ## A failing silent request -/

/-- A client in the silent mode, with a positive host counter, whose transfer fails with any
error code.
`HttpClient::OnError` makes `ui::OnHttpError` do nothing (no status text, dialog or taskbar call),
`HandleError` calls no collaborator, the counter of the request's host is lowered by exactly one,
and the result is that of `ProcessQueue` run on the state so obtained.  (The client is the one
`FindClient` finds for its response, and its host counter is positive, as for an admitted
request.) -/
theorem silent_error_surfaces_nothing (E : Engine) (depth : Nat) (s : HttpManager) (k : Nat)
    (code : CURLcode) (hmode : (s.client k).mode_ = kHttpSilent)
    (hfind : FindClient s (s.client k).response_.uid = some k)
    (hpos : 0 < s.connections_.at_ (s.client k).request_.url.host) :
    ∃ error_text, error_text = HttpManager.error_text E (s.client k) code ∧
      HttpClient_OnError E (ProcessQueue E depth) k code s
        = ProcessQueue E depth
            { s with
              connections_ := s.connections_.decrement (s.client k).request_.url.host,
              trace := s.trace ++ [Event.ui_OnHttpError kHttpSilent error_text,
                Event.Stats_connections_failed,
                Event.HandleError (s.client k).response_.uid error_text] }
      ∧ ui.OnHttpError kHttpSilent error_text = []
      ∧ HandleError_dispatch (s.client k) error_text = []
      ∧ ([Event.ui_OnHttpError kHttpSilent error_text, Event.Stats_connections_failed,
          Event.HandleError (s.client k).response_.uid error_text].filterMap Event.collaborator
          = [])
      ∧ (s.connections_.decrement (s.client k).request_.url.host).at_
          (s.client k).request_.url.host + 1
        = s.connections_.at_ (s.client k).request_.url.host := by
  refine ⟨error_text E (s.client k) code, rfl, ?_, rfl, ?_, rfl, ?_⟩
  · have htext : HttpClient_OnError E (ProcessQueue E depth) k code s
        = HandleError (ProcessQueue E depth)
            (emit s [Event.ui_OnHttpError (s.client k).mode_ (error_text E (s.client k) code),
              Event.Stats_connections_failed])
            (s.client k).response_ (error_text E (s.client k) code) := by
      unfold HttpClient_OnError error_text
      split <;> rfl
    have hfind1 : FindClient
        (emit s [Event.ui_OnHttpError (s.client k).mode_ (error_text E (s.client k) code),
          Event.Stats_connections_failed]) (s.client k).response_.uid = some k := hfind
    have hclient : client
        (emit s [Event.ui_OnHttpError (s.client k).mode_ (error_text E (s.client k) code),
          Event.Stats_connections_failed]) k = s.client k := rfl
    rw [htext]
    unfold HandleError
    simp only [hfind1, hclient]
    have hd : HandleError_dispatch (s.client k) (error_text E (s.client k) code) = [] := by
      simp [HandleError_dispatch, hmode]
    have hp : s.connections_.at_ (s.client k).request_.url.host > 0 := hpos
    simp only [hd, hmode, FreeConnection, emit, hp, if_true, List.append_nil,
      List.append_assoc, List.cons_append, List.nil_append]
  · simp [HandleError_dispatch, hmode]
  · rw [Connections.at_decrement_self]; omega

/-- A silent failure at a concrete state: the running silent request of `one_silent_transfer`, failing to
connect. -/
theorem silent_error_surfaces_nothing_witness :
    (one_silent_transfer.client 0).mode_ = kHttpSilent
    ∧ FindClient one_silent_transfer (one_silent_transfer.client 0).response_.uid = some 0
    ∧ 0 < one_silent_transfer.connections_.at_ (one_silent_transfer.client 0).request_.url.host
    ∧ ∃ error_text, error_text = "HTTP error #7: error (x)" ∧
      HttpClient_OnError Engine.working (ProcessQueue Engine.working 0) 0 CURLE_COULDNT_CONNECT
          one_silent_transfer
        = ProcessQueue Engine.working 0
            { one_silent_transfer with
              connections_ := one_silent_transfer.connections_.decrement
                (one_silent_transfer.client 0).request_.url.host,
              trace := one_silent_transfer.trace ++
                [Event.ui_OnHttpError kHttpSilent error_text, Event.Stats_connections_failed,
                 Event.HandleError (one_silent_transfer.client 0).response_.uid error_text] }
      ∧ ui.OnHttpError kHttpSilent error_text = [] := by
  obtain ⟨text, h0, h1, h2, _⟩ := silent_error_surfaces_nothing Engine.working 0
    one_silent_transfer 0 CURLE_COULDNT_CONNECT (by decide) (by decide) (by decide)
  exact ⟨by decide, by decide, by decide, text, h0.trans (by decide), h1, h2⟩

/-! ## Client reuse -/

theorem findFirst_some {α : Type} (p : α → Bool) :
    ∀ (l : List α) (k : Nat), findFirst p l = some k →
      k < l.length ∧ (∃ x, l[k]? = some x ∧ p x = true)
        ∧ ∀ j, j < k → ∀ x, l[j]? = some x → p x = false := by
  intro l
  induction l with
  | nil => intro k h; simp [findFirst] at h
  | cons a rest ih =>
    intro k h
    unfold findFirst at h
    by_cases hp : p a = true
    · rw [if_pos hp] at h
      cases h
      exact ⟨by simp, ⟨a, by simp, hp⟩, fun j hj => absurd hj (Nat.not_lt_zero j)⟩
    · rw [if_neg hp] at h
      simp only [Option.map_eq_some'] at h
      obtain ⟨k', hk', rfl⟩ := h
      obtain ⟨h1, ⟨x, hx, hpx⟩, h3⟩ := ih k' hk'
      refine ⟨by simpa using h1, ⟨x, by simpa using hx, hpx⟩, ?_⟩
      intro j hj y hy
      cases j with
      | zero =>
        simp at hy
        subst hy
        simpa using hp
      | succ j' =>
        simp at hy
        exact h3 j' (by omega) y hy

theorem findFirst_none {α : Type} (p : α → Bool) :
    ∀ (l : List α), findFirst p l = none → ∀ x ∈ l, p x = false := by
  intro l
  induction l with
  | nil => intro _ x hx; simp at hx
  | cons a rest ih =>
    intro h x hx
    unfold findFirst at h
    by_cases hp : p a = true
    · rw [if_pos hp] at h; cases h
    · rw [if_neg hp] at h
      simp only [Option.map_eq_none'] at h
      rcases List.mem_cons.mp hx with rfl | hx'
      · simpa using hp
      · exact ih h x hx'

theorem client_of_getElem? (s : HttpManager) (k : Nat) (c : HttpClient)
    (h : s.clients_[k]? = some c) : s.client k = c := by
  simp [client, List.getD, h]

/-- C13: whenever the client set contains a client that is reuse-eligible, idle and whose last
request went to the host of the new request, `GetClient` returns the first such client (that very
client, with its proxy settings refreshed) and the client set keeps its size; in particular a set
made of one such client keeps size 1 and that client serves the request. -/
theorem GetClient_reuses_first_idle_client (E : Engine) (s : HttpManager)
    (request : HttpRequest)
    (h : ∃ c ∈ s.clients_, c.allow_reuse_ = true ∧ c.busy_ = false
      ∧ c.request_.url.host = request.url.host) :
    (GetClient E s request).2 < s.clients_.length
    ∧ ((s.client (GetClient E s request).2).allow_reuse_ = true
      ∧ (s.client (GetClient E s request).2).busy_ = false
      ∧ (s.client (GetClient E s request).2).request_.url.host = request.url.host)
    ∧ (∀ j, j < (GetClient E s request).2 →
        ¬ ((s.client j).allow_reuse_ = true ∧ (s.client j).busy_ = false
          ∧ (s.client j).request_.url.host = request.url.host))
    ∧ (GetClient E s request).1.clients_.length = s.clients_.length
    ∧ (GetClient E s request).1.client (GetClient E s request).2
        = (s.client (GetClient E s request).2).set_proxy E.kApp_Connection_ProxyHost
            E.kApp_Connection_ProxyUsername E.kApp_Connection_ProxyPassword
    ∧ (s.clients_.length = 1 →
        (GetClient E s request).2 = 0 ∧ (GetClient E s request).1.clients_.length = 1) := by
  have htest : ∀ c : HttpClient, (c.allow_reuse_ && !c.busy_
      && IsEqual c.request_.url.host request.url.host) = true
      ↔ (c.allow_reuse_ = true ∧ c.busy_ = false ∧ c.request_.url.host = request.url.host) := by
    intro c
    simp [IsEqual, and_assoc]
  obtain ⟨c0, hc0, hc0p⟩ := h
  cases hf : findFirst (fun c => c.allow_reuse_ && !c.busy_
      && IsEqual c.request_.url.host request.url.host) s.clients_ with
  | none =>
    have := findFirst_none _ _ hf c0 hc0
    have h2 := (htest c0).mpr hc0p
    simp only [h2] at this
    cases this
  | some k =>
    obtain ⟨hk, ⟨x, hx, hpx⟩, hfirst⟩ := findFirst_some _ _ _ hf
    have hg : GetClient E s request
        = (setClient s k ((client s k).set_proxy E.kApp_Connection_ProxyHost
            E.kApp_Connection_ProxyUsername E.kApp_Connection_ProxyPassword), k) := by
      unfold GetClient
      rw [hf]
    have hxk : s.client k = x := client_of_getElem? s k x hx
    rw [hg]
    refine ⟨hk, ?_, ?_, ?_, ?_, ?_⟩
    · rw [hxk]; exact (htest x).mp hpx
    · intro j hj hcon
      have hjlen : j < s.clients_.length := Nat.lt_trans hj hk
      have hjget : s.clients_[j]? = some s.clients_[j] := List.getElem?_eq_getElem hjlen
      have hcj : s.client j = s.clients_[j] := client_of_getElem? s j _ hjget
      have := hfirst j hj _ hjget
      rw [hcj] at hcon
      have h2 := (htest _).mpr hcon
      simp only [h2] at this
      cases this
    · simp [setClient]
    · simp only [client, setClient]
      rw [List.getD_eq_getElem?_getD, List.getElem?_set_eq_of_lt _ hk]
      rfl
    · intro h1
      exact ⟨by omega, by simp [setClient, h1]⟩

/-- C13 at a concrete state: after one finished transfer to "x" the only client is idle and
reuse-eligible; a second request to "x" is given that client. -/
theorem GetClient_reuses_first_idle_client_witness :
    (∃ c ∈ one_idle_client.clients_, c.allow_reuse_ = true ∧ c.busy_ = false
      ∧ c.request_.url.host = (HttpRequest.get "2" "x").url.host)
    ∧ one_idle_client.clients_.length = 1
    ∧ (GetClient Engine.working one_idle_client (HttpRequest.get "2" "x")).2 = 0
    ∧ (GetClient Engine.working one_idle_client (HttpRequest.get "2" "x")).1.clients_.length
        = 1 := by
  have hex : ∃ c ∈ one_idle_client.clients_, c.allow_reuse_ = true ∧ c.busy_ = false
      ∧ c.request_.url.host = (HttpRequest.get "2" "x").url.host :=
    ⟨one_idle_client.client 0, by decide, by decide, by decide, by decide⟩
  have h := GetClient_reuses_first_idle_client Engine.working one_idle_client
    (HttpRequest.get "2" "x") hex
  have hlen : one_idle_client.clients_.length = 1 := by decide
  exact ⟨hex, hlen, (h.2.2.2.2.2 hlen).1, (h.2.2.2.2.2 hlen).2⟩

/-! ## What a submission stores in the client -/

theorem BuildRequestHeader_request (c : HttpClient) :
    (Client.BuildRequestHeader c).request_ = c.request_.with_default_headers := rfl

theorem BuildRequestHeader_response (c : HttpClient) :
    (Client.BuildRequestHeader c).response_ = c.response_ := rfl

theorem with_default_headers_fields (request : HttpRequest) :
    request.with_default_headers.uid = request.uid
    ∧ request.with_default_headers.url = request.url
    ∧ request.with_default_headers.method = request.method
    ∧ request.with_default_headers.body = request.body
    ∧ request.with_default_headers.parameter = request.parameter :=
  ⟨rfl, rfl, rfl, rfl, rfl⟩

theorem TAIGA_CURL_SET_OPTION_client (E : Engine) (Q : HttpClient → Prop)
    (options : List CURLoption) (c : HttpClient) (log : List Callback) (hc : Q c) :
    ClientResult Q (Client.TAIGA_CURL_SET_OPTION recordingOwner E options (c, log)) := by
  induction options with
  | nil => exact ⟨c, log, true, rfl, hc⟩
  | cons o rest ih =>
    unfold Client.TAIGA_CURL_SET_OPTION
    by_cases hcode : E.curl_easy_setopt c o = CURLE_OK
    · simpa [recordingOwner, hcode] using ih
    · exact ⟨c, log ++ [Callback.OnError (E.curl_easy_setopt c o)], false,
        by simp [recordingOwner, hcode], hc⟩

theorem andThen_client (Q Q1 : HttpClient → Prop)
    (r : Option ((HttpClient × List Callback) × Bool))
    (f : HttpClient × List Callback → Option ((HttpClient × List Callback) × Bool))
    (hr : ClientResult Q r) (hQ : ∀ c, Q c → Q1 c)
    (hf : ∀ c1 log1, Q c1 → ClientResult Q1 (f (c1, log1))) :
    ClientResult Q1 (andThen r f) := by
  obtain ⟨c1, log1, b, h, hq⟩ := hr
  rw [h]
  cases b
  · exact ⟨c1, log1, false, rfl, hQ c1 hq⟩
  · exact hf c1 log1 hq

/-- After `SetRequestOptions` the recorded client still holds the response stub, and holds the
request either as it was or with the default header fields filled in. -/
theorem SetRequestOptions_client (E : Engine) (c : HttpClient) (log : List Callback) :
    ClientResult
      (fun c1 => (c1.request_ = c.request_ ∨ c1.request_ = c.request_.with_default_headers)
        ∧ c1.response_ = c.response_)
      (Client.SetRequestOptions recordingOwner E (c, log)) := by
  unfold Client.SetRequestOptions
  refine andThen_client (fun c1 => c1.request_ = c.request_ ∧ c1.response_ = c.response_) _ _ _
    (TAIGA_CURL_SET_OPTION_client E _ _ c log ⟨rfl, rfl⟩) (fun c1 h => ⟨Or.inl h.1, h.2⟩) ?_
  intro c1 log1 h1
  refine andThen_client (fun c2 => c2.request_ = c.request_ ∧ c2.response_ = c.response_) _ _ _
    ?_ (fun c2 h => ⟨Or.inl h.1, h.2⟩) ?_
  · split
    · exact TAIGA_CURL_SET_OPTION_client E _ _ _ log1 ⟨h1.1, h1.2⟩
    · exact ⟨c1, log1, true, rfl, h1⟩
  · intro c2 log2 h2
    refine andThen_client (fun c3 => c3.request_ = c.request_ ∧ c3.response_ = c.response_) _ _
      _ (TAIGA_CURL_SET_OPTION_client E _ _ c2 log2 h2) (fun c3 h => ⟨Or.inl h.1, h.2⟩) ?_
    intro c3 log3 h3
    refine TAIGA_CURL_SET_OPTION_client E _ _ _ log3 ⟨Or.inr ?_, ?_⟩
    · show (Client.BuildRequestHeader c3).request_ = _
      rw [BuildRequestHeader_request, h3.1]
    · show (Client.BuildRequestHeader c3).response_ = _
      rw [BuildRequestHeader_response, h3.2]

/-- C15, as stated, fails: a `GET` request without header fields is submitted to an idle client
on an engine where everything succeeds; afterwards the client's request carries the header field
`Accept: */*` and is not equal to the argument. -/
theorem stored_request_differs_from_argument :
    (Client.MakeRequest recordingOwner Engine.working (HttpRequest.get "1" "x")
        (HttpClient.null, [])).map
      (fun r => (r.2, r.1.1.request_.header,
        decide (r.1.1.request_ = HttpRequest.get "1" "x")))
    = some (true, [("Accept", "*/*")], false) := by
  decide

/-- C15 as amended: `Client::MakeRequest` on an idle client returns, and whatever it returns the
client's request is the argument, either unchanged or with the default header fields filled in by
`BuildRequestHeader` (uid, URL, method, body and parameter are the argument's in both cases), and
the client's response carries the uid and the parameter of the argument. -/
theorem MakeRequest_stores_request_up_to_default_headers (E : Engine) (request : HttpRequest)
    (c : HttpClient) (log : List Callback) (hidle : c.busy_ = false) :
    ∃ c1 log1 b, Client.MakeRequest recordingOwner E request (c, log) = some ((c1, log1), b)
      ∧ (c1.request_ = request ∨ c1.request_ = request.with_default_headers)
      ∧ c1.request_.uid = request.uid ∧ c1.request_.url = request.url
      ∧ c1.request_.method = request.method ∧ c1.request_.body = request.body
      ∧ c1.request_.parameter = request.parameter
      ∧ c1.response_.uid = request.uid ∧ c1.response_.parameter = request.parameter := by
  have key : ∃ c1 log1 b,
      Client.MakeRequest recordingOwner E request (c, log) = some ((c1, log1), b)
      ∧ (c1.request_ = request ∨ c1.request_ = request.with_default_headers)
      ∧ c1.response_.uid = request.uid ∧ c1.response_.parameter = request.parameter := by
    unfold Client.MakeRequest
    have hb : ¬ ((recordingOwner.self (c, log)).busy_ = true) := by
      simp [recordingOwner, hidle]
    rw [if_neg hb]
    dsimp only
    have hini : ∀ c1 : HttpClient, (Client.Initialize E c1).1.request_ = c1.request_
        ∧ (Client.Initialize E c1).1.response_ = c1.response_ := by
      intro c1
      unfold Client.Initialize
      split
      · exact ⟨rfl, rfl⟩
      · dsimp only
        split <;> exact ⟨rfl, rfl⟩
    generalize hgen : Client.Initialize E _ = ini
    have h1 := hini { (recordingOwner.self (c, log)) with
      busy_ := true, request_ := request,
      response_ := { (recordingOwner.self (c, log)).response_ with
        parameter := request.parameter, uid := request.uid } }
    rw [hgen] at h1
    obtain ⟨c2, initialized⟩ := ini
    simp only at h1
    cases initialized
    · refine ⟨_, _, false, rfl, Or.inl ?_, ?_, ?_⟩
      · simp [recordingOwner, Client.Cleanup, h1.1]
      · simp [recordingOwner, Client.Cleanup, h1.2]
      · simp [recordingOwner, Client.Cleanup, h1.2]
    · obtain ⟨c3, log3, b3, h3, hq, hr⟩ := SetRequestOptions_client E c2 log
      simp only [recordingOwner] at h3 ⊢
      rw [h1.1] at hq
      rw [h1.2] at hr
      simp only [if_true, h3, andThen]
      cases b3
      · refine ⟨_, _, false, rfl, ?_, ?_, ?_⟩
        · simpa [Client.Cleanup] using hq
        · simp [Client.Cleanup, hr]
        · simp [Client.Cleanup, hr]
      · simp only [Client.SendRequest]
        cases hT : E.CreateThread c3
        · refine ⟨_, _, false, rfl, ?_, ?_, ?_⟩
          · simpa [Client.Cleanup] using hq
          · simp [Client.Cleanup, hr]
          · simp [Client.Cleanup, hr]
        · exact ⟨_, _, true, rfl, hq, by simp [hr], by simp [hr]⟩
  obtain ⟨c1, log1, b, h, hreq, hu, hp⟩ := key
  have hf := with_default_headers_fields request
  refine ⟨c1, log1, b, h, hreq, ?_, ?_, ?_, ?_, ?_, hu, hp⟩ <;>
    rcases hreq with e | e <;> rw [e] <;> simp [hf]

/-- C15 as amended, at a concrete client: the idle placeholder client and a `GET` request. -/
theorem MakeRequest_stores_request_up_to_default_headers_witness :
    HttpClient.null.busy_ = false
    ∧ ∃ c1 log1 b, Client.MakeRequest recordingOwner Engine.working (HttpRequest.get "1" "x")
          (HttpClient.null, []) = some ((c1, log1), b)
        ∧ c1.request_.uid = "1" ∧ c1.response_.uid = "1" := by
  obtain ⟨c1, log1, b, h, _, h1, _, _, _, _, h2, _⟩ :=
    MakeRequest_stores_request_up_to_default_headers Engine.working (HttpRequest.get "1" "x")
      HttpClient.null [] rfl
  exact ⟨rfl, c1, log1, b, h, h1, h2⟩

/-! ## What an admission leaves in the client set -/

theorem Initialize_request (E : Engine) (c : HttpClient) :
    (Client.Initialize E c).1.request_ = c.request_ := by
  unfold Client.Initialize
  split
  · rfl
  · dsimp only
    split <;> rfl

theorem SetRequestOptions_accepted_stored {σ : Type} (O : Owner σ) (E : Engine)
    (hE : E.OptionsAccepted) (V : σ → Prop) (R : σ → σ → Prop)
    (htrans : ∀ a b c, R a b → R b c → R a c) (hupd : ∀ w c, R w (O.update w c))
    (hself : ∀ w c, V w → O.self (O.update w c) = c)
    (hV : ∀ w c, V w → V (O.update w c)) (w : σ) (hw : V w) :
    ∃ w1, Client.SetRequestOptions O E w = some (w1, true) ∧ R w w1 ∧ V w1
      ∧ (O.self w1).request_ = (O.self w).request_.with_default_headers := by
  unfold Client.SetRequestOptions
  by_cases hm : (O.self w).request_.method = "POST"
  · simp only [TAIGA_CURL_SET_OPTION_accepted O E hE, andThen, hm, if_true]
    refine ⟨_, rfl, htrans _ _ _ (hupd _ _) (hupd _ _), hV _ _ (hV _ _ hw), ?_⟩
    rw [hself _ _ (hV _ _ hw), hself _ _ hw]
    rfl
  · simp only [TAIGA_CURL_SET_OPTION_accepted O E hE, andThen, hm, if_false]
    refine ⟨_, rfl, hupd _ _, hV _ _ hw, ?_⟩
    rw [hself _ _ hw]
    rfl

/-- On an engine that accepts every option, `Client::MakeRequest` on an idle client returns and
leaves the request (possibly with default header fields) in the client; the owner's state is
changed through `update` only. -/
theorem MakeRequest_accepted_stored {σ : Type} (O : Owner σ) (E : Engine)
    (hE : E.OptionsAccepted) (V : σ → Prop) (R : σ → σ → Prop)
    (htrans : ∀ a b c, R a b → R b c → R a c) (hupd : ∀ w c, R w (O.update w c))
    (hself : ∀ w c, V w → O.self (O.update w c) = c)
    (hV : ∀ w c, V w → V (O.update w c))
    (request : HttpRequest) (w : σ) (hw : V w) (hidle : (O.self w).busy_ = false) :
    ∃ w1 b, Client.MakeRequest O E request w = some (w1, b) ∧ R w w1 ∧ V w1
      ∧ ((O.self w1).request_ = request
        ∨ (O.self w1).request_ = request.with_default_headers) := by
  unfold Client.MakeRequest
  have hb : ¬ ((O.self w).busy_ = true) := by simp [hidle]
  rw [if_neg hb]
  dsimp only
  generalize hgen : Client.Initialize E _ = ini
  have h1 := Initialize_request E { (O.self w) with
    busy_ := true, request_ := request,
    response_ := { (O.self w).response_ with
      parameter := request.parameter, uid := request.uid } }
  rw [hgen] at h1
  obtain ⟨c2, initialized⟩ := ini
  simp only at h1
  have hw2 : V (O.update w c2) := hV _ _ hw
  have hs2 : O.self (O.update w c2) = c2 := hself _ _ hw
  cases initialized
  · refine ⟨_, false, rfl, htrans _ _ _ (hupd _ _) (hupd _ _), hV _ _ hw2, Or.inl ?_⟩
    rw [hself _ _ hw2, hs2]
    exact h1
  · obtain ⟨w3, h3, hR, hV3, hreq⟩ :=
      SetRequestOptions_accepted_stored O E hE V R htrans hupd hself hV (O.update w c2) hw2
    rw [hs2, h1] at hreq
    simp only [h3, andThen, Client.SendRequest, if_true]
    cases hT : E.CreateThread (O.self w3)
    · refine ⟨_, false, rfl, htrans _ _ _ (hupd _ _) (htrans _ _ _ hR (hupd _ _)),
        hV _ _ hV3, Or.inr ?_⟩
      rw [hself _ _ hV3]
      exact hreq
    · exact ⟨_, true, rfl, htrans _ _ _ (hupd _ _) hR, hV3, Or.inr hreq⟩

theorem setClient_setClient (s : HttpManager) (k : Nat) (c c1 : HttpClient) :
    (s.setClient k c).setClient k c1 = s.setClient k c1 := by
  simp [setClient, List.set_set]

theorem client_setClient (s : HttpManager) (k : Nat) (c : HttpClient)
    (hk : k < s.clients_.length) : (s.setClient k c).client k = c := by
  simp only [client, setClient]
  rw [List.getD_eq_getElem?_getD, List.getElem?_set_eq_of_lt _ hk]
  rfl

theorem UpdatedAt_trans (k : Nat) (a b c : HttpManager) (h1 : UpdatedAt k a b)
    (h2 : UpdatedAt k b c) : UpdatedAt k a c := by
  rcases h1 with rfl | ⟨x, rfl⟩
  · exact h2
  · rcases h2 with rfl | ⟨y, rfl⟩
    · exact Or.inr ⟨x, rfl⟩
    · exact Or.inr ⟨y, setClient_setClient _ _ _ _⟩

/-- The books of `UpdatedAt`: same counters, queue and trace, and the client set differs at most
at `k`, where it holds the client read back at `k`. -/
theorem UpdatedAt_books (k : Nat) (s t : HttpManager) (hk : k < s.clients_.length)
    (h : UpdatedAt k s t) :
    t.connections_ = s.connections_ ∧ t.requests_ = s.requests_ ∧ t.trace = s.trace
      ∧ t.clients_ = s.clients_.set k (t.client k) := by
  rcases h with rfl | ⟨c, rfl⟩
  · refine ⟨rfl, rfl, rfl, ?_⟩
    simp only [client]
    rw [List.getD_eq_getElem?_getD, List.getElem?_eq_getElem hk]
    apply List.ext_getElem?
    intro j
    by_cases hj : k = j
    · subst hj
      simp [List.getElem?_set_eq_of_lt _ hk, List.getElem?_eq_getElem hk]
    · rw [List.getElem?_set_ne hj]
  · refine ⟨rfl, rfl, rfl, ?_⟩
    rw [client_setClient _ _ _ hk]
    rfl

theorem GetClient_index_lt (E : Engine) (s : HttpManager) (request : HttpRequest) :
    (GetClient E s request).2 < (GetClient E s request).1.clients_.length := by
  unfold GetClient
  split
  · rename_i k hf
    have := (findFirst_some _ _ _ hf).1
    simpa [setClient] using this
  · simp

theorem GetClient_idle (E : Engine) (s : HttpManager) (request : HttpRequest) :
    ((GetClient E s request).1.client (GetClient E s request).2).busy_ = false := by
  unfold GetClient
  split
  · rename_i k hf
    obtain ⟨hk, ⟨x, hx, hpx⟩, _⟩ := findFirst_some _ _ _ hf
    dsimp only
    rw [client_setClient _ _ _ hk, client_of_getElem? s k x hx]
    simp only [Bool.and_eq_true, Bool.not_eq_true'] at hpx
    exact hpx.1.2
  · dsimp only
    simp [client, HttpClient.new]

theorem GetClient_none (E : Engine) (s : HttpManager) (request : HttpRequest)
    (h : ∀ c ∈ s.clients_, c.request_.url.host ≠ request.url.host) :
    GetClient E s request
      = ({ s with clients_ := s.clients_ ++ [HttpClient.new E request] }, s.clients_.length) := by
  unfold GetClient
  split
  · rename_i k hf
    obtain ⟨hk, ⟨x, hx, hpx⟩, _⟩ := findFirst_some _ _ _ hf
    have hmem : x ∈ s.clients_ := List.getElem?_mem hx
    have := h x hmem
    simp [IsEqual] at hpx
    exact absurd hpx.2 this
  · rfl

/-- The admission step on an engine that accepts every option, with the client set it leaves:
only the client returned by `GetClient` is rewritten, and it holds the admitted request. -/
theorem ProcessQueue_admit_stored (E : Engine) (hE : E.OptionsAccepted)
    (pq : HttpManager → Option HttpManager) (s : HttpManager) (request : HttpRequest)
    (mode : HttpClientMode) :
    ∃ t b, ProcessQueue_admit E pq s request mode = some (t, b)
      ∧ t.connections_ = s.connections_.increment request.url.host
      ∧ t.requests_ = s.requests_
      ∧ t.trace = s.trace ++ [Event.Client_MakeRequest
          (GetClient E { s with connections_ := s.connections_.increment request.url.host }
            request).2 request]
      ∧ t.clients_ = (GetClient E
            { s with connections_ := s.connections_.increment request.url.host }
            request).1.clients_.set
          (GetClient E { s with connections_ := s.connections_.increment request.url.host }
            request).2
          (t.client (GetClient E
            { s with connections_ := s.connections_.increment request.url.host } request).2)
      ∧ ((t.client (GetClient E
            { s with connections_ := s.connections_.increment request.url.host }
            request).2).request_ = request
        ∨ (t.client (GetClient E
            { s with connections_ := s.connections_.increment request.url.host }
            request).2).request_ = request.with_default_headers) := by
  unfold ProcessQueue_admit
  dsimp only
  generalize hg : GetClient E
    { s with connections_ := s.connections_.increment request.url.host } request = g
  have hlt := GetClient_index_lt E
    { s with connections_ := s.connections_.increment request.url.host } request
  have hidle := GetClient_idle E
    { s with connections_ := s.connections_.increment request.url.host } request
  have hc := GetClient_connections E
    { s with connections_ := s.connections_.increment request.url.host } request
  have hr := GetClient_requests E
    { s with connections_ := s.connections_.increment request.url.host } request
  have ht := GetClient_trace E
    { s with connections_ := s.connections_.increment request.url.host } request
  rw [hg] at hlt hidle hc hr ht
  obtain ⟨g1, k⟩ := g
  dsimp only at hlt hidle hc hr ht ⊢
  have hklen : k < (emit (setClient g1 k ((client g1 k).set_mode mode))
      [Event.Client_MakeRequest k request]).clients_.length := by
    simpa [emit, setClient] using hlt
  have hidle2 : ((owner E pq k).self (emit (setClient g1 k ((client g1 k).set_mode mode))
      [Event.Client_MakeRequest k request])).busy_ = false := by
    show (client (setClient g1 k ((client g1 k).set_mode mode)) k).busy_ = false
    rw [client_setClient _ _ _ hlt]
    exact hidle
  obtain ⟨t, b, h, hU, _, hreq⟩ := MakeRequest_accepted_stored (owner E pq k) E hE
    (fun w => k < w.clients_.length) (UpdatedAt k) (UpdatedAt_trans k)
    (fun w c => Or.inr ⟨c, rfl⟩)
    (fun w c hw => client_setClient w k c hw)
    (fun w c hw => by simpa [owner, setClient] using hw)
    request _ hklen hidle2
  obtain ⟨b1, b2, b3, b4⟩ := UpdatedAt_books k _ t hklen hU
  refine ⟨t, b, h, ?_, ?_, ?_, ?_, hreq⟩
  · rw [b1]; simpa [emit, setClient] using hc
  · rw [b2]; simpa [emit, setClient] using hr
  · rw [b3]; simp [emit, setClient, ht]
  · rw [b4]; simp [emit, setClient, List.set_set]

/-! ## The scheduler with other ceilings -/

theorem ProcessQueue_loop_at_constants (E : Engine) (pq : HttpManager → Option HttpManager) :
    ∀ (fuel connections i : Nat) (s : HttpManager),
      ProcessQueue_loop_at kMaxSimultaneousConnections kMaxSimultaneousConnectionsPerHostname
        E pq fuel connections i s = ProcessQueue_loop E pq fuel connections i s := by
  intro fuel
  induction fuel with
  | zero => intro c i s; rfl
  | succ fuel ih =>
    intro c i s
    unfold ProcessQueue_loop_at ProcessQueue_loop
    simp only [ih]

/-- With the ceilings 10 and 6 the parametric scheduler is `ProcessQueue`. -/
theorem ProcessQueue_at_constants (E : Engine) :
    ∀ (depth : Nat) (s : HttpManager),
      ProcessQueue_at kMaxSimultaneousConnections kMaxSimultaneousConnectionsPerHostname
        E depth s = ProcessQueue E depth s := by
  intro depth
  induction depth with
  | zero =>
    intro s
    unfold ProcessQueue_at ProcessQueue
    exact ProcessQueue_loop_at_constants E _ _ _ _ _
  | succ d ih =>
    intro s
    unfold ProcessQueue_at ProcessQueue
    have hfun : (fun s1 => ProcessQueue_at kMaxSimultaneousConnections
        kMaxSimultaneousConnectionsPerHostname E d s1) = (fun s1 => ProcessQueue E d s1) :=
      funext (fun s1 => ih s1)
    rw [hfun]
    exact ProcessQueue_loop_at_constants E _ _ _ _ _

/-- With the ceilings 10 and 6 the parametric runs are the runs of the manager. -/
theorem run_at_constants (E : Engine) (depth : Nat) :
    ∀ (ops : List Op) (s : HttpManager),
      run_at kMaxSimultaneousConnections kMaxSimultaneousConnectionsPerHostname E depth ops s
        = run E depth ops s := by
  have hpq : ProcessQueue_at kMaxSimultaneousConnections kMaxSimultaneousConnectionsPerHostname
      E depth = ProcessQueue E depth := funext (fun s => ProcessQueue_at_constants E depth s)
  have hstep : ∀ (s : HttpManager) (op : Op),
      step_at kMaxSimultaneousConnections kMaxSimultaneousConnectionsPerHostname E depth s op
        = step E depth s op := by
    intro s op
    cases op <;> simp only [step_at, step, hpq, HttpManager.MakeRequest]
  intro ops
  induction ops with
  | nil => intro s; rfl
  | cons op rest ih =>
    intro s
    simp only [run_at, run, hstep]
    congr 1
    exact funext ih

theorem GetClient_clients_only (E : Engine) (s t : HttpManager) (request : HttpRequest)
    (h : s.clients_ = t.clients_) :
    (GetClient E s request).2 = (GetClient E t request).2
    ∧ (GetClient E s request).1.clients_ = (GetClient E t request).1.clients_ := by
  unfold GetClient
  rw [h]
  split
  · simp [setClient, client, h]
  · simp

/-- A one-entry queue whose request is admissible: the loop admits it and empties the queue. -/
theorem ProcessQueue_loop_at_admits_single (G H : Nat) (E : Engine) (hE : E.OptionsAccepted)
    (pq : HttpManager → Option HttpManager) (s : HttpManager) (request : HttpRequest)
    (mode : HttpClientMode) (hq : s.requests_ = [(request, mode)])
    (hG : s.connections_.total ≠ G) (hH : s.connections_.at_ request.url.host ≠ H) :
    ∃ t, ProcessQueue_loop_at G H E pq 2 s.connections_.total 0 s = some t
      ∧ t.requests_ = []
      ∧ t.connections_ = (s.connections_.touch request.url.host).increment request.url.host
      ∧ t.trace = s.trace ++ [Event.Client_MakeRequest (GetClient E s request).2 request]
      ∧ t.clients_ = (GetClient E s request).1.clients_.set (GetClient E s request).2
          (t.client (GetClient E s request).2)
      ∧ ((t.client (GetClient E s request).2).request_ = request
        ∨ (t.client (GetClient E s request).2).request_ = request.with_default_headers) := by
  obtain ⟨s5, b, h5, hconn, hreqs, htrace, hclients, hstored⟩ := ProcessQueue_admit_stored E hE pq
    { s with connections_ := s.connections_.touch request.url.host } request mode
  have hgc := GetClient_clients_only E
    { clients_ := s.clients_,
      connections_ := (s.connections_.touch request.url.host).increment request.url.host,
      requests_ := s.requests_, trace := s.trace } s request rfl
  dsimp only at hconn hreqs htrace hclients hstored
  rw [hgc.1] at htrace hclients hstored
  rw [hgc.2] at hclients
  have hH1 : ¬ (s.connections_.touch request.url.host).at_ request.url.host = H := by
    rw [Connections.at_touch]; exact hH
  have h2 : ((0 + size_t_modulus - 1) % size_t_modulus + 1) % size_t_modulus = 0 := by decide
  refine ⟨{ s5 with requests_ := [] }, ?_, rfl, hconn, htrace, ?_, ?_⟩
  · unfold ProcessQueue_loop_at
    simp only [hq, List.length_cons, List.length_nil, Nat.zero_lt_succ, if_true, hG, if_false,
      List.getElem?_cons_zero, hH1]
    rw [hq] at h5 hreqs
    simp only [h5, hreqs, List.length_cons, List.length_nil, Nat.zero_lt_succ, if_true, h2]
    unfold ProcessQueue_loop_at
    simp [List.eraseIdx]
  · exact hclients
  · exact hstored

theorem started_requests_append (a b : List Event) :
    started_requests (a ++ b) = started_requests a ++ started_requests b := by
  simp [started_requests, List.filterMap_append]

theorem started_requests_HandleResponse_dispatch (E : Engine) (c : HttpClient)
    (response : HttpResponse) :
    started_requests (HandleResponse_dispatch E c response) = [] := by
  unfold HandleResponse_dispatch
  cases hm : c.mode_ <;> simp only [hm] <;> (try split_ifs) <;> rfl

theorem started_requests_HandleError_dispatch (c : HttpClient) (error : string_t) :
    started_requests (HandleError_dispatch c error) = [] := by
  unfold HandleError_dispatch
  cases hm : c.mode_ <;> rfl

/-- A submission to a manager with an empty queue, when neither ceiling is reached for it. -/
theorem step_at_MakeRequest_admits (G H : Nat) (E : Engine) (hE : E.OptionsAccepted)
    (depth : Nat) (s : HttpManager) (request : HttpRequest) (mode : HttpClientMode)
    (hq : s.requests_ = []) (hG : s.connections_.total ≠ G)
    (hH : s.connections_.at_ request.url.host ≠ H) :
    ∃ t, step_at G H E depth s (Op.MakeRequest request mode) = some t
      ∧ t.requests_ = []
      ∧ t.connections_ = (s.connections_.touch request.url.host).increment request.url.host
      ∧ t.trace = s.trace ++ [Event.Client_MakeRequest (GetClient E s request).2 request]
      ∧ t.clients_ = (GetClient E s request).1.clients_.set (GetClient E s request).2
          (t.client (GetClient E s request).2)
      ∧ ((t.client (GetClient E s request).2).request_ = request
        ∨ (t.client (GetClient E s request).2).request_ = request.with_default_headers) := by
  have hadd : AddToQueue s request mode = some { s with requests_ := [(request, mode)] } := by
    unfold AddToQueue
    rw [hq]
    simp [vector_max_size, size_t_modulus]
  have hgc := GetClient_clients_only E { s with requests_ := [(request, mode)] } s request rfl
  have key : ∀ pq, ∃ t, ProcessQueue_loop_at G H E pq 2 s.connections_.total 0
        { s with requests_ := [(request, mode)] } = some t
      ∧ t.requests_ = []
      ∧ t.connections_ = (s.connections_.touch request.url.host).increment request.url.host
      ∧ t.trace = s.trace ++ [Event.Client_MakeRequest (GetClient E s request).2 request]
      ∧ t.clients_ = (GetClient E s request).1.clients_.set (GetClient E s request).2
          (t.client (GetClient E s request).2)
      ∧ ((t.client (GetClient E s request).2).request_ = request
        ∨ (t.client (GetClient E s request).2).request_ = request.with_default_headers) := by
    intro pq
    have h := ProcessQueue_loop_at_admits_single G H E hE pq
      { s with requests_ := [(request, mode)] } request mode rfl hG hH
    rw [hgc.1, hgc.2] at h
    exact h
  simp only [step_at, hadd, Option.some_bind]
  cases depth with
  | zero => exact key _
  | succ d => exact key _

/-- A submission to a manager with an empty queue whose counters sum to the global ceiling. -/
theorem step_at_MakeRequest_full (G H : Nat) (E : Engine) (depth : Nat) (s : HttpManager)
    (request : HttpRequest) (mode : HttpClientMode) (hq : s.requests_ = [])
    (hG : s.connections_.total = G) :
    step_at G H E depth s (Op.MakeRequest request mode)
      = some { s with requests_ := [(request, mode)] } := by
  have hadd : AddToQueue s request mode = some { s with requests_ := [(request, mode)] } := by
    unfold AddToQueue
    rw [hq]
    simp [vector_max_size, size_t_modulus]
  simp only [step_at, hadd, Option.some_bind]
  cases depth with
  | zero =>
    unfold ProcessQueue_at ProcessQueue_loop_at
    simp [hG]
  | succ d =>
    unfold ProcessQueue_at ProcessQueue_loop_at
    simp [hG]

/-- The scheduler on a one-entry queue whose request is admissible. -/
theorem ProcessQueue_at_admits_single (G H : Nat) (E : Engine) (hE : E.OptionsAccepted)
    (depth : Nat) (s : HttpManager) (request : HttpRequest) (mode : HttpClientMode)
    (hq : s.requests_ = [(request, mode)]) (hG : s.connections_.total ≠ G)
    (hH : s.connections_.at_ request.url.host ≠ H) :
    ∃ t, ProcessQueue_at G H E depth s = some t ∧ t.requests_ = []
      ∧ t.trace = s.trace ++ [Event.Client_MakeRequest (GetClient E s request).2 request] := by
  have hlen : s.requests_.length + 1 = 2 := by rw [hq]; rfl
  cases depth with
  | zero =>
    unfold ProcessQueue_at
    rw [hlen]
    obtain ⟨t, h1, h2, _, h4, _⟩ :=
      ProcessQueue_loop_at_admits_single G H E hE _ s request mode hq hG hH
    exact ⟨t, h1, h2, h4⟩
  | succ d =>
    unfold ProcessQueue_at
    rw [hlen]
    obtain ⟨t, h1, h2, _, h4, _⟩ :=
      ProcessQueue_loop_at_admits_single G H E hE _ s request mode hq hG hH
    exact ⟨t, h1, h2, h4⟩

theorem stored_request_uid_url (c : HttpClient) (request : HttpRequest)
    (h : c.request_ = request ∨ c.request_ = request.with_default_headers) :
    c.request_.uid = request.uid ∧ c.request_.url = request.url := by
  rcases h with e | e <;> rw [e] <;> exact ⟨rfl, rfl⟩

/-- Completion of the request held by the first client, while one request to the same host waits
alone in the queue and the other host holds one connection (ceilings 2 and 1). -/
theorem completion_admits_waiting_request (E : Engine) (hE : E.OptionsAccepted) (depth : Nat)
    (s : HttpManager) (c0 c1 : HttpClient) (r3 : HttpRequest) (m3 : HttpClientMode)
    (before : List HttpRequest) (events : List Event)
    (hclients : s.clients_ = [c0, c1])
    (hhost : c0.request_.url.host = r3.url.host) (hq : s.requests_ = [(r3, m3)])
    (hat : s.connections_.at_ r3.url.host = 1) (htotal : s.connections_.total = 2)
    (hstarted : started_requests s.trace = before) (hevents : started_requests events = []) :
    ∃ t, ProcessQueue_at 2 1 E depth
          (FreeConnection (emit s events) (s.client (0 : Nat)).request_.url.host) = some t
      ∧ t.requests_ = [] ∧ started_requests t.trace = before ++ [r3] := by
  have hc : s.client 0 = c0 := by simp [client, hclients]
  rw [hc, hhost]
  have hpos : (emit s events).connections_.at_ r3.url.host > 0 := by
    show s.connections_.at_ r3.url.host > 0
    omega
  have hfree : FreeConnection (emit s events) r3.url.host
      = { emit s events with connections_ := s.connections_.decrement r3.url.host } := by
    unfold FreeConnection
    rw [if_pos hpos]
    rfl
  rw [hfree]
  have hdec := Connections.total_decrement s.connections_ r3.url.host (by omega)
  obtain ⟨t, h1, h2, h3⟩ := ProcessQueue_at_admits_single 2 1 E hE depth
    { emit s events with connections_ := s.connections_.decrement r3.url.host } r3 m3 hq
    (by show (s.connections_.decrement r3.url.host).total ≠ 2; omega)
    (by
      show (s.connections_.decrement r3.url.host).at_ r3.url.host ≠ 1
      rw [Connections.at_decrement_self]; omega)
  refine ⟨t, h1, h2, ?_⟩
  rw [h3]
  show started_requests ((s.trace ++ events) ++ _) = _
  rw [started_requests_append, started_requests_append, hstarted, hevents]
  simp [started_requests]

/-- On an engine that accepts every option: with global ceiling 2 and per-host ceiling 1 (the
scheduler read as parametric in its ceilings), three requests to hosts A, B, A submitted in that order to the empty manager: the
first two are admitted at once and the third stays alone in the queue; when the first request
then completes (`HandleResponse` or `HandleError` for its uid) the third is admitted and the queue
is empty.  (The engine is any engine whose option setting succeeds.) -/
theorem two_hosts_scenario_with_ceilings_2_and_1 (E : Engine) (hE : E.OptionsAccepted)
    (depth : Nat) (r1 r2 r3 : HttpRequest) (m1 m2 m3 : HttpClientMode)
    (hA : r3.url.host = r1.url.host) (hB : r2.url.host ≠ r1.url.host) :
    ∃ s3, run_at 2 1 E depth
          [Op.MakeRequest r1 m1, Op.MakeRequest r2 m2, Op.MakeRequest r3 m3] HttpManager.empty
          = some s3
      ∧ s3.requests_ = [(r3, m3)]
      ∧ started_requests s3.trace = [r1, r2]
      ∧ (∀ response : HttpResponse, response.uid = r1.uid →
          ∃ t, step_at 2 1 E depth s3 (Op.HandleResponse response) = some t
            ∧ t.requests_ = [] ∧ started_requests t.trace = [r1, r2, r3])
      ∧ (∀ (response : HttpResponse) (error : string_t), response.uid = r1.uid →
          ∃ t, step_at 2 1 E depth s3 (Op.HandleError response error) = some t
            ∧ t.requests_ = [] ∧ started_requests t.trace = [r1, r2, r3]) := by
  -- first submission
  obtain ⟨t1, h1, q1, conn1, tr1, cl1, st1⟩ := step_at_MakeRequest_admits 2 1 E hE depth
    HttpManager.empty r1 m1 rfl (by decide) (by simp [HttpManager.empty, Connections.at_])
  have hg1 : GetClient E HttpManager.empty r1
      = ({ HttpManager.empty with clients_ := [HttpClient.new E r1] }, 0) :=
    GetClient_none E HttpManager.empty r1 (fun c hc => by simp [HttpManager.empty] at hc)
  rw [hg1] at tr1 cl1 st1
  dsimp only at tr1 cl1 st1
  have hcl1 : t1.clients_ = [t1.client 0] := by rw [cl1]; rfl
  obtain ⟨hu0, hurl0⟩ := stored_request_uid_url _ _ st1
  have htot1 : t1.connections_.total = 1 := by
    rw [conn1, Connections.total_increment, Connections.total_touch]; rfl
  have hat1 : ∀ h : string_t, h ≠ r1.url.host → t1.connections_.at_ h = 0 := by
    intro h hne
    rw [conn1, Connections.at_increment_other _ _ _ hne, Connections.at_touch]; rfl
  have hatA1 : t1.connections_.at_ r1.url.host = 1 := by
    rw [conn1, Connections.at_increment_self, Connections.at_touch]; rfl
  -- second submission
  obtain ⟨t2, h2, q2, conn2, tr2, cl2, _⟩ := step_at_MakeRequest_admits 2 1 E hE depth
    t1 r2 m2 q1 (by omega) (by rw [hat1 _ hB]; decide)
  have hg2 : GetClient E t1 r2
      = ({ t1 with clients_ := t1.clients_ ++ [HttpClient.new E r2] }, t1.clients_.length) := by
    apply GetClient_none
    intro c hc
    rw [hcl1] at hc
    simp only [List.mem_singleton] at hc
    rw [hc, hurl0]
    exact fun e => hB e.symm
  rw [hg2] at tr2 cl2
  dsimp only at tr2 cl2
  have hcl2 : t2.clients_ = [t1.client 0, t2.client 1] := by
    rw [cl2, hcl1]; rfl
  have htot2 : t2.connections_.total = 2 := by
    rw [conn2, Connections.total_increment, Connections.total_touch, htot1]
  have hatA2 : t2.connections_.at_ r1.url.host = 1 := by
    rw [conn2, Connections.at_increment_other _ _ _ (Ne.symm hB), Connections.at_touch, hatA1]
  -- third submission
  have h3 := step_at_MakeRequest_full 2 1 E depth t2 r3 m3 q2 htot2
  have hstarted : started_requests t2.trace = [r1, r2] := by
    rw [tr2, tr1, started_requests_append, started_requests_append]
    rfl
  have hfind : FindClient { t2 with requests_ := [(r3, m3)] } r1.uid = some 0 := by
    show findFirst _ t2.clients_ = some 0
    rw [hcl2]
    simp [findFirst, hu0]
  have hhost : (t1.client 0).request_.url.host = r3.url.host := by rw [hurl0, hA]
  refine ⟨{ t2 with requests_ := [(r3, m3)] }, ?_, rfl, hstarted, ?_, ?_⟩
  · simp only [run_at, h1, h2, h3, Option.some_bind]
  · intro response hresp
    simp only [step_at, HandleResponse, hresp, hfind]
    have hev : started_requests ([Event.HandleResponse r1.uid] ++ HandleResponse_dispatch E
        (client { t2 with requests_ := [(r3, m3)] } 0) response) = [] := by
      rw [started_requests_append, started_requests_HandleResponse_dispatch]; rfl
    exact completion_admits_waiting_request E hE depth { t2 with requests_ := [(r3, m3)] }
      (t1.client 0) (t2.client 1) r3 m3 [r1, r2] _ hcl2 hhost rfl
      (by rw [hA]; exact hatA2) htot2 hstarted hev
  · intro response error hresp
    simp only [step_at, HandleError, hresp, hfind]
    have hev : started_requests ([Event.HandleError r1.uid error] ++ HandleError_dispatch
        (client { t2 with requests_ := [(r3, m3)] } 0) error) = [] := by
      rw [started_requests_append, started_requests_HandleError_dispatch]; rfl
    exact completion_admits_waiting_request E hE depth { t2 with requests_ := [(r3, m3)] }
      (t1.client 0) (t2.client 1) r3 m3 [r1, r2] _ hcl2 hhost rfl
      (by rw [hA]; exact hatA2) htot2 hstarted hev

/-! ## The scheduler splits the queue in order -/

theorem unadmitted_replicate_false {α : Type} (q : List α) :
    unadmitted q (List.replicate q.length false) = q := by
  induction q with
  | nil => rfl
  | cons x q ih => simp [unadmitted, List.replicate_succ, ih]

theorem admitted_replicate_false {α : Type} (q : List α) :
    admitted q (List.replicate q.length false) = [] := by
  induction q with
  | nil => rfl
  | cons x q ih => simp [admitted, List.replicate_succ, ih]

theorem unadmitted_sublist {α : Type} :
    ∀ (q : List α) (mask : List Bool), (unadmitted q mask).Sublist q := by
  intro q
  induction q with
  | nil => intro mask; cases mask <;> simp [unadmitted]
  | cons x q ih =>
    intro mask
    cases mask with
    | nil => simp [unadmitted]
    | cons b mask =>
      cases b
      · simpa [unadmitted] using ih mask
      · simpa [unadmitted] using (ih mask).trans (List.sublist_cons_self x q)

theorem admitted_sublist {α : Type} :
    ∀ (q : List α) (mask : List Bool), (admitted q mask).Sublist q := by
  intro q
  induction q with
  | nil => intro mask; cases mask <;> simp [admitted]
  | cons x q ih =>
    intro mask
    cases mask with
    | nil => simp [admitted]
    | cons b mask =>
      cases b
      · simpa [admitted] using (ih mask).trans (List.sublist_cons_self x q)
      · simpa [admitted] using ih mask

theorem eraseIdx_append_cons {α : Type} (kept : List α) (x : α) (rest : List α) :
    (kept ++ x :: rest).eraseIdx kept.length = kept ++ rest := by
  induction kept with
  | nil => rfl
  | cons a kept ih => simp [List.eraseIdx, ih]

theorem getElem?_append_cons {α : Type} (kept : List α) (x : α) (rest : List α) :
    (kept ++ x :: rest)[kept.length]? = some x := by
  induction kept with
  | nil => simp
  | cons a kept ih => simpa using ih

/-- The loop of `ProcessQueue`, started behind the entries `kept`, splits the entries `rest` in
order into those it leaves queued and those it starts; an entry whose host counter is at the
per-host ceiling when the loop begins is left queued. -/
theorem ProcessQueue_loop_partition (E : Engine) (hE : E.OptionsAccepted)
    (pq : HttpManager → Option HttpManager) :
    ∀ (fuel connections : Nat) (kept rest : List (HttpRequest × HttpClientMode))
      (s t : HttpManager),
      s.requests_ = kept ++ rest → (kept ++ rest).length < size_t_modulus →
      ProcessQueue_loop E pq fuel connections kept.length s = some t →
      ∃ mask : List Bool, mask.length = rest.length
        ∧ t.requests_ = kept ++ unadmitted rest mask
        ∧ started_requests t.trace
            = started_requests s.trace ++ (admitted rest mask).map Prod.fst
        ∧ NoOvertaking rest mask
        ∧ (∀ (j : Nat) (r : HttpRequest × HttpClientMode), rest[j]? = some r →
            s.connections_.at_ r.1.url.host = kMaxSimultaneousConnectionsPerHostname →
            mask[j]? = some false) := by
  intro fuel
  induction fuel with
  | zero => intro c kept rest s t _ _ h; simp [ProcessQueue_loop] at h
  | succ fuel ih =>
    intro c kept rest s t hq hM h
    cases rest with
    | nil =>
      unfold ProcessQueue_loop at h
      have hnot : ¬ kept.length < s.requests_.length := by rw [hq]; simp
      rw [if_neg hnot] at h
      cases h
      refine ⟨[], rfl, by simpa [unadmitted] using hq, by simp [admitted], ?_, ?_⟩
      · intro i j ri rj _ hi; simp at hi
      · intro j r hj; simp at hj
    | cons x rest =>
      unfold ProcessQueue_loop at h
      have hlt : kept.length < s.requests_.length := by rw [hq]; simp
      rw [if_pos hlt] at h
      split at h
      · -- the global ceiling is reached: everything stays
        cases h
        refine ⟨List.replicate (x :: rest).length false, by simp, ?_, ?_, ?_, ?_⟩
        · rw [unadmitted_replicate_false]; exact hq
        · rw [admitted_replicate_false]; simp
        · intro i j ri rj _ _ _ _ hj
          simp [List.getElem?_replicate] at hj
        · intro j r hj _
          have hjl : j < (x :: rest).length := by
            by_contra hcon
            rw [List.getElem?_eq_none (by omega)] at hj
            cases hj
          have hjl2 : j < rest.length + 1 := by simpa using hjl
          simp [List.getElem?_replicate, hjl2]
      · have hget : s.requests_[kept.length]? = some x := by
          rw [hq]; exact getElem?_append_cons kept x rest
        rw [hget] at h
        obtain ⟨request, mode⟩ := x
        dsimp only at h
        split at h
        · -- the host is at its ceiling: skip
          rename_i hhost
          have hidx : (kept.length + 1) % size_t_modulus = (kept ++ [(request, mode)]).length := by
            rw [Nat.mod_eq_of_lt]
            · simp
            · have : (kept ++ (request, mode) :: rest).length < size_t_modulus := hM
              simp at this; omega
          rw [hidx] at h
          obtain ⟨mask, hlen, hreqs, hstarted, hno, hceil⟩ := ih c (kept ++ [(request, mode)])
            rest _ t (by simpa using hq) (by simpa using hM) h
          rw [Connections.at_touch] at hhost
          refine ⟨false :: mask, by simp [hlen], ?_, ?_, ?_, ?_⟩
          · simpa [unadmitted] using hreqs
          · simpa [admitted] using hstarted
          · intro i j ri rj hij hi hj hhosts hmj
            cases j with
            | zero => omega
            | succ j1 =>
              cases i with
              | zero =>
                simp only [List.getElem?_cons_zero, Option.some.injEq] at hi
                simp only [List.getElem?_cons_succ] at hj hmj
                subst hi
                have := hceil j1 rj hj (by
                  show (s.connections_.touch request.url.host).at_ rj.1.url.host = _
                  rw [Connections.at_touch, ← hhosts]; exact hhost)
                rw [this] at hmj
                cases hmj
              | succ i1 =>
                simp only [List.getElem?_cons_succ] at hi hj hmj ⊢
                exact hno i1 j1 ri rj (by omega) hi hj hhosts hmj
          · intro j r hj hat
            cases j with
            | zero => simp
            | succ j1 =>
              simp only [List.getElem?_cons_succ] at hj ⊢
              exact hceil j1 r hj (by
                show (s.connections_.touch request.url.host).at_ r.1.url.host = _
                rw [Connections.at_touch]; exact hat)
        · -- the request is admitted
          rename_i hhost
          obtain ⟨s5, b, h5, hconn, hreqs5, htrace5⟩ := ProcessQueue_admit_accepted E hE pq
            { s with connections_ := s.connections_.touch request.url.host } request mode
          rw [h5] at h
          dsimp only at h hreqs5
          have hlt5 : kept.length < s5.requests_.length := by rw [hreqs5]; exact hlt
          have hkM : kept.length < size_t_modulus := by
            have : (kept ++ (request, mode) :: rest).length < size_t_modulus := hM
            simp at this; omega
          rw [if_pos hlt5, size_t_decrement_increment _ hkM] at h
          obtain ⟨mask, hlen, hreqs, hstarted, hno, hceil⟩ := ih (c + 1) kept rest _ t
            (by
              show s5.requests_.eraseIdx kept.length = kept ++ rest
              rw [hreqs5, hq]; exact eraseIdx_append_cons kept _ rest)
            (by
              have : (kept ++ (request, mode) :: rest).length < size_t_modulus := hM
              simp at this ⊢; omega)
            h
          rw [Connections.at_touch] at hhost
          refine ⟨true :: mask, by simp [hlen], ?_, ?_, ?_, ?_⟩
          · simpa [unadmitted] using hreqs
          · rw [hstarted]
            show started_requests s5.trace ++ _ = _
            rw [htrace5, started_requests_append]
            simp [admitted, started_requests]
          · intro i j ri rj hij hi hj hhosts hmj
            cases j with
            | zero => omega
            | succ j1 =>
              cases i with
              | zero => simp
              | succ i1 =>
                simp only [List.getElem?_cons_succ] at hi hj hmj ⊢
                exact hno i1 j1 ri rj (by omega) hi hj hhosts hmj
          · intro j r hj hat
            cases j with
            | zero =>
              simp only [List.getElem?_cons_zero, Option.some.injEq] at hj
              subst hj
              exact absurd hat hhost
            | succ j1 =>
              simp only [List.getElem?_cons_succ] at hj ⊢
              have hne : r.1.url.host ≠ request.url.host := by
                intro e; rw [e] at hat; exact hhost hat
              exact hceil j1 r hj (by
                show s5.connections_.at_ r.1.url.host = _
                rw [hconn]
                show ((s.connections_.touch request.url.host).increment request.url.host).at_
                  r.1.url.host = _
                rw [Connections.at_increment_other _ _ _ hne, Connections.at_touch]
                exact hat)


/-- A call of `ProcessQueue` that returns splits the queue in order into the entries it leaves
queued and the entries it starts. -/
theorem ProcessQueue_partition (E : Engine) (hE : E.OptionsAccepted) (depth : Nat)
    (s t : HttpManager) (hM : s.requests_.length < size_t_modulus)
    (h : ProcessQueue E depth s = some t) :
    ∃ mask : List Bool, mask.length = s.requests_.length
      ∧ t.requests_ = unadmitted s.requests_ mask
      ∧ started_requests t.trace
          = started_requests s.trace ++ (admitted s.requests_ mask).map Prod.fst
      ∧ NoOvertaking s.requests_ mask := by
  have key : ∀ pq, ProcessQueue_loop E pq (s.requests_.length + 1) s.connections_.total 0 s
      = some t → _ := fun pq hl =>
    ProcessQueue_loop_partition E hE pq _ _ [] s.requests_ s t rfl hM hl
  cases depth with
  | zero =>
    obtain ⟨mask, h1, h2, h3, h4, _⟩ := key _ h
    exact ⟨mask, h1, by simpa using h2, h3, h4⟩
  | succ d =>
    obtain ⟨mask, h1, h2, h3, h4, _⟩ := key _ h
    exact ⟨mask, h1, by simpa using h2, h3, h4⟩

/-- On an engine that accepts every option, for every queue a vector index can address and
every counter state, `ProcessQueue` returns, and there is an admission mask over the original
queue such that the remaining queue is exactly the unadmitted entries in their original order (a
subsequence of the original queue), the requests started by the call are exactly the admitted
entries in their original order, and whenever an entry is admitted every earlier entry to the same
host is admitted too. -/
theorem ProcessQueue_never_reorders (E : Engine) (hE : E.OptionsAccepted) (depth : Nat)
    (s : HttpManager) (hM : s.requests_.length < size_t_modulus) :
    ∃ (t : HttpManager) (mask : List Bool),
      ProcessQueue E depth s = some t
      ∧ mask.length = s.requests_.length
      ∧ t.requests_ = unadmitted s.requests_ mask
      ∧ t.requests_.Sublist s.requests_
      ∧ started_requests t.trace
          = started_requests s.trace ++ (admitted s.requests_ mask).map Prod.fst
      ∧ ((admitted s.requests_ mask).map Prod.fst).Sublist (s.requests_.map Prod.fst)
      ∧ NoOvertaking s.requests_ mask := by
  obtain ⟨t, ht⟩ := ProcessQueue_returns E hE depth s hM
  obtain ⟨mask, h1, h2, h3, h4⟩ := ProcessQueue_partition E hE depth s t hM ht
  exact ⟨t, mask, ht, h1, h2, h2 ▸ unadmitted_sublist _ _, h3,
    (admitted_sublist _ _).map _, h4⟩

/-- The working engine at a concrete state: "a" is at its ceiling, the queue is [request to "a", request to
"b"]; the request to "b" is started and the request to "a" stays. -/
theorem ProcessQueue_never_reorders_witness :
    Engine.working.OptionsAccepted
    ∧ saturated_host_then_free_host.requests_.length < size_t_modulus
    ∧ ∃ (t : HttpManager) (mask : List Bool),
      ProcessQueue Engine.working 0 saturated_host_then_free_host = some t
      ∧ mask.length = saturated_host_then_free_host.requests_.length
      ∧ t.requests_ = unadmitted saturated_host_then_free_host.requests_ mask
      ∧ t.requests_.Sublist saturated_host_then_free_host.requests_
      ∧ started_requests t.trace
          = started_requests saturated_host_then_free_host.trace
            ++ (admitted saturated_host_then_free_host.requests_ mask).map Prod.fst
      ∧ ((admitted saturated_host_then_free_host.requests_ mask).map Prod.fst).Sublist
          (saturated_host_then_free_host.requests_.map Prod.fst)
      ∧ NoOvertaking saturated_host_then_free_host.requests_ mask :=
  ⟨fun _ _ => rfl, by decide,
    ProcessQueue_never_reorders Engine.working (fun _ _ => rfl) 0 saturated_host_then_free_host
      (by decide)⟩

theorem started_requests_FreeConnection (s : HttpManager) (hostname : string_t) :
    started_requests (FreeConnection s hostname).trace = started_requests s.trace
    ∧ (FreeConnection s hostname).requests_ = s.requests_ := by
  unfold FreeConnection
  split
  · exact ⟨rfl, rfl⟩
  · refine ⟨?_, rfl⟩
    show started_requests (s.trace ++ _) = _
    rw [started_requests_append]
    simp [started_requests]

/-- On an engine that accepts every option, for every manager state whose queue a vector
index can address and every client found for the response (whatever its mode), `HandleError`
returns; the queue after it is a subsequence of the queue before it (no entry is added), and the
transfers started during the call are exactly the entries taken out of the queue, in queue order:
each belongs to a request that was waiting in the queue, and the failed request is not among them
unless it was also waiting there. -/
theorem HandleError_never_retries (E : Engine) (hE : E.OptionsAccepted) (depth : Nat)
    (s : HttpManager) (response : HttpResponse) (error : string_t) (k : Nat)
    (hfind : FindClient s response.uid = some k)
    (hM : s.requests_.length < size_t_modulus) :
    ∃ (t : HttpManager) (mask : List Bool),
      HandleError (ProcessQueue E depth) s response error = some t
      ∧ mask.length = s.requests_.length
      ∧ t.requests_ = unadmitted s.requests_ mask
      ∧ t.requests_.Sublist s.requests_
      ∧ started_requests t.trace
          = started_requests s.trace ++ (admitted s.requests_ mask).map Prod.fst
      ∧ (admitted s.requests_ mask).Sublist s.requests_
      ∧ (∀ r : HttpRequest, r ∈ (admitted s.requests_ mask).map Prod.fst →
          ∃ mode, (r, mode) ∈ s.requests_)
      ∧ ((s.client k).request_ ∉ s.requests_.map Prod.fst →
          (s.client k).request_ ∉ (admitted s.requests_ mask).map Prod.fst) := by
  unfold HandleError
  rw [hfind]
  dsimp only
  generalize hs2 : FreeConnection (emit s ([Event.HandleError response.uid error]
    ++ HandleError_dispatch (client s k) error)) (client s k).request_.url.host = s2
  have hfree := started_requests_FreeConnection (emit s ([Event.HandleError response.uid error]
    ++ HandleError_dispatch (client s k) error)) (client s k).request_.url.host
  rw [hs2] at hfree
  obtain ⟨htr, hq⟩ := hfree
  have htr2 : started_requests s2.trace = started_requests s.trace := by
    rw [htr]
    show started_requests (s.trace ++ _) = _
    rw [started_requests_append, started_requests_append, started_requests_HandleError_dispatch]
    simp [started_requests]
  have hq2 : s2.requests_ = s.requests_ := hq
  obtain ⟨t, ht⟩ := ProcessQueue_returns E hE depth s2 (by rw [hq2]; exact hM)
  obtain ⟨mask, h1, h2, h3, _⟩ := ProcessQueue_partition E hE depth s2 t
    (by rw [hq2]; exact hM) ht
  rw [hq2] at h1 h2 h3
  rw [htr2] at h3
  have hsub := admitted_sublist s.requests_ mask
  refine ⟨t, mask, ht, h1, h2, h2 ▸ unadmitted_sublist _ _, h3, hsub, ?_, ?_⟩
  · intro r hr
    obtain ⟨⟨r1, mode⟩, hmem, rfl⟩ := List.mem_map.mp hr
    exact ⟨mode, hsub.subset hmem⟩
  · intro hnot hin
    exact hnot ((hsub.map Prod.fst).subset hin)

/-- The working engine at a concrete state: six transfers run on "a", a seventh request waits, and the first
transfer fails. -/
theorem HandleError_never_retries_witness :
    Engine.working.OptionsAccepted
    ∧ FindClient six_running_one_waiting (HttpResponse.mk "1" "" 0).uid = some 0
    ∧ six_running_one_waiting.requests_.length < size_t_modulus
    ∧ ∃ (t : HttpManager) (mask : List Bool),
      HandleError (ProcessQueue Engine.working 0) six_running_one_waiting
          (HttpResponse.mk "1" "" 0) "error" = some t
      ∧ mask.length = six_running_one_waiting.requests_.length
      ∧ t.requests_ = unadmitted six_running_one_waiting.requests_ mask
      ∧ t.requests_.Sublist six_running_one_waiting.requests_
      ∧ started_requests t.trace
          = started_requests six_running_one_waiting.trace
            ++ (admitted six_running_one_waiting.requests_ mask).map Prod.fst
      ∧ (admitted six_running_one_waiting.requests_ mask).Sublist
          six_running_one_waiting.requests_
      ∧ (∀ r : HttpRequest,
          r ∈ (admitted six_running_one_waiting.requests_ mask).map Prod.fst →
          ∃ mode, (r, mode) ∈ six_running_one_waiting.requests_)
      ∧ ((six_running_one_waiting.client 0).request_
            ∉ six_running_one_waiting.requests_.map Prod.fst →
          (six_running_one_waiting.client 0).request_
            ∉ (admitted six_running_one_waiting.requests_ mask).map Prod.fst) :=
  ⟨fun _ _ => rfl, by decide, by decide,
    HandleError_never_retries Engine.working (fun _ _ => rfl) 0 six_running_one_waiting
      (HttpResponse.mk "1" "" 0) "error" 0 (by decide) (by decide)⟩

/-- The scenario at concrete requests: hosts "A", "B", "A" on the working engine. -/
theorem two_hosts_scenario_with_ceilings_2_and_1_witness :
    Engine.working.OptionsAccepted
    ∧ (HttpRequest.get "3" "A").url.host = (HttpRequest.get "1" "A").url.host
    ∧ (HttpRequest.get "2" "B").url.host ≠ (HttpRequest.get "1" "A").url.host
    ∧ ∃ s3, run_at 2 1 Engine.working 0
          [Op.MakeRequest (HttpRequest.get "1" "A") kHttpSilent,
           Op.MakeRequest (HttpRequest.get "2" "B") kHttpSilent,
           Op.MakeRequest (HttpRequest.get "3" "A") kHttpSilent] HttpManager.empty
          = some s3
      ∧ s3.requests_ = [(HttpRequest.get "3" "A", kHttpSilent)]
      ∧ started_requests s3.trace = [HttpRequest.get "1" "A", HttpRequest.get "2" "B"]
      ∧ (∀ response : HttpResponse, response.uid = (HttpRequest.get "1" "A").uid →
          ∃ t, step_at 2 1 Engine.working 0 s3 (Op.HandleResponse response) = some t
            ∧ t.requests_ = []
            ∧ started_requests t.trace
                = [HttpRequest.get "1" "A", HttpRequest.get "2" "B", HttpRequest.get "3" "A"])
      ∧ (∀ (response : HttpResponse) (error : string_t),
          response.uid = (HttpRequest.get "1" "A").uid →
          ∃ t, step_at 2 1 Engine.working 0 s3 (Op.HandleError response error) = some t
            ∧ t.requests_ = []
            ∧ started_requests t.trace
                = [HttpRequest.get "1" "A", HttpRequest.get "2" "B", HttpRequest.get "3" "A"]) :=
  ⟨fun _ _ => rfl, by decide, by decide,
    two_hosts_scenario_with_ceilings_2_and_1 Engine.working (fun _ _ => rfl) 0
      (HttpRequest.get "1" "A") (HttpRequest.get "2" "B") (HttpRequest.get "3" "A")
      kHttpSilent kHttpSilent kHttpSilent (by decide) (by decide)⟩


/-! ## Releasing a connection -/

/-- C25: `FreeConnection` never drives a counter below zero.  For a host whose counter is 0 (or
that has no entry) every counter value is unchanged (the error is logged); for a host whose
counter is positive that counter is lowered by exactly one and every other counter is unchanged.
The queue and the clients are never touched. -/
theorem FreeConnection_lowers_one_positive_counter (s : HttpManager) (hostname : string_t) :
    (s.connections_.at_ hostname = 0 →
      (∀ other : string_t,
        (FreeConnection s hostname).connections_.at_ other = s.connections_.at_ other)
      ∧ (FreeConnection s hostname).trace
          = s.trace ++ [Event.LOG_LevelError_already_zero hostname])
    ∧ (0 < s.connections_.at_ hostname →
        (FreeConnection s hostname).connections_.at_ hostname + 1 = s.connections_.at_ hostname
        ∧ (∀ other : string_t, other ≠ hostname →
            (FreeConnection s hostname).connections_.at_ other = s.connections_.at_ other)
        ∧ (FreeConnection s hostname).trace = s.trace)
    ∧ (FreeConnection s hostname).requests_ = s.requests_
    ∧ (FreeConnection s hostname).clients_ = s.clients_ := by
  refine ⟨?_, ?_, ?_, ?_⟩
  · intro h0
    have hnot : ¬ s.connections_.at_ hostname > 0 := by omega
    unfold FreeConnection
    rw [if_neg hnot]
    refine ⟨fun other => ?_, rfl⟩
    show (s.connections_.touch hostname).at_ other = _
    exact Connections.at_touch _ _ _
  · intro hpos
    unfold FreeConnection
    rw [if_pos hpos]
    refine ⟨?_, fun other hne => ?_, rfl⟩
    · show (s.connections_.decrement hostname).at_ hostname + 1 = _
      rw [Connections.at_decrement_self]
      omega
    · show (s.connections_.decrement hostname).at_ other = _
      exact Connections.at_decrement_other _ _ _ hne
  · unfold FreeConnection; split <;> rfl
  · unfold FreeConnection; split <;> rfl

/-- C25 at a concrete state: "a" holds 6 connections, "b" holds 1 and "c" has no entry. -/
theorem FreeConnection_lowers_one_positive_counter_witness :
    saturated_host_then_free_host.connections_.at_ "c" = 0
    ∧ 0 < saturated_host_then_free_host.connections_.at_ "a"
    ∧ (FreeConnection saturated_host_then_free_host "c").connections_.at_ "a" = 6
    ∧ (FreeConnection saturated_host_then_free_host "a").connections_.at_ "a" + 1 = 6
    ∧ (FreeConnection saturated_host_then_free_host "a").connections_.at_ "b" = 1 := by
  have h := FreeConnection_lowers_one_positive_counter saturated_host_then_free_host "c"
  have k := FreeConnection_lowers_one_positive_counter saturated_host_then_free_host "a"
  have h0 : saturated_host_then_free_host.connections_.at_ "c" = 0 := by decide
  have hpos : 0 < saturated_host_then_free_host.connections_.at_ "a" := by decide
  exact ⟨h0, hpos, ((h.1 h0).1 "a").trans (by decide), (k.2.1 hpos).1.trans (by decide),
    ((k.2.1 hpos).2.1 "b" (by decide)).trans (by decide)⟩

/-! ## Default header fields -/

theorem header_find_none_iff_count (header : List (string_t × string_t)) (key : string_t) :
    header_find header key = none ↔ header_count header key = 0 := by
  induction header with
  | nil => simp [header_find, header_count]
  | cons kv rest ih =>
    obtain ⟨k, v⟩ := kv
    unfold header_find header_count
    by_cases hk : header_key k = header_key key
    · simp [hk]
    · simp [hk, ih]

theorem header_find_assign_self (header : List (string_t × string_t)) (key value : string_t) :
    header_find (header_assign header key value) key = some value := by
  induction header with
  | nil => simp [header_assign, header_find]
  | cons kv rest ih =>
    obtain ⟨k, v⟩ := kv
    unfold header_assign
    by_cases hk : header_key k = header_key key
    · rw [if_pos hk]
      unfold header_find
      rw [if_pos hk]
    · rw [if_neg hk]
      by_cases hlt : header_key key < header_key k
      · rw [if_pos hlt]
        unfold header_find
        rw [if_pos rfl]
      · rw [if_neg hlt]
        unfold header_find
        rw [if_neg hk]
        exact ih

theorem header_find_assign_other (header : List (string_t × string_t))
    (key value other : string_t) (hne : header_key other ≠ header_key key) :
    header_find (header_assign header key value) other = header_find header other := by
  induction header with
  | nil =>
    unfold header_assign header_find
    rw [if_neg (Ne.symm hne)]
    rfl
  | cons kv rest ih =>
    obtain ⟨k, v⟩ := kv
    unfold header_assign
    by_cases hk : header_key k = header_key key
    · have hko : header_key k ≠ header_key other := fun e => hne (e.symm.trans hk)
      rw [if_pos hk]
      unfold header_find
      rw [if_neg hko, if_neg hko]
    · rw [if_neg hk]
      by_cases hlt : header_key key < header_key k
      · rw [if_pos hlt]
        conv_lhs => unfold header_find
        rw [if_neg (Ne.symm hne)]
      · rw [if_neg hlt]
        unfold header_find
        by_cases hko : header_key k = header_key other
        · rw [if_pos hko, if_pos hko]
        · rw [if_neg hko, if_neg hko]; exact ih

theorem header_assign_absent_sublist (header : List (string_t × string_t))
    (key value : string_t) (h : header_count header key = 0) :
    header.Sublist (header_assign header key value)
    ∧ (header_assign header key value).length = header.length + 1 := by
  induction header with
  | nil => simp [header_assign]
  | cons kv rest ih =>
    obtain ⟨k, v⟩ := kv
    unfold header_count at h
    by_cases hk : header_key k = header_key key
    · rw [if_pos hk] at h; cases h
    · rw [if_neg hk] at h
      unfold header_assign
      rw [if_neg hk]
      by_cases hlt : header_key key < header_key k
      · rw [if_pos hlt]
        exact ⟨List.sublist_cons_self _ _, by simp⟩
      · rw [if_neg hlt]
        exact ⟨(ih h).1.cons₂ _, by simp [(ih h).2]⟩

/-- C26: `BuildRequestHeader` only fills in defaults.  For every client: every header field the
caller supplied is still in the header map, with its key and value as written; a value supplied
under `Accept` or `Content-Type` (keys taken without regard to case) is the value found
afterwards; `Accept` is `*/*` afterwards when it was absent; `Content-Type` is
`application/x-www-form-urlencoded` afterwards when it was absent and the method is `POST` or
`PUT`, and is still absent when it was absent and the method is another one; every other key
finds what it found before; and the header list grows by exactly one line per field of the
resulting header map, in map order, "name: value" for a non-empty value and "name;" for an empty
one. -/
theorem BuildRequestHeader_fills_in_defaults_only (c : HttpClient) :
    c.request_.header.Sublist (Client.BuildRequestHeader c).request_.header
    ∧ (∀ value, header_find c.request_.header "Accept" = some value →
      header_find (Client.BuildRequestHeader c).request_.header "Accept" = some value)
    ∧ (header_find c.request_.header "Accept" = none →
      header_find (Client.BuildRequestHeader c).request_.header "Accept" = some "*/*")
    ∧ (∀ value, header_find c.request_.header "Content-Type" = some value →
      header_find (Client.BuildRequestHeader c).request_.header "Content-Type" = some value)
    ∧ (header_find c.request_.header "Content-Type" = none →
      header_find (Client.BuildRequestHeader c).request_.header "Content-Type"
        = if c.request_.method = "POST" ∨ c.request_.method = "PUT" then
            some "application/x-www-form-urlencoded" else none)
    ∧ (∀ key, header_key key ≠ header_key "Accept" →
      header_key key ≠ header_key "Content-Type" →
      header_find (Client.BuildRequestHeader c).request_.header key
        = header_find c.request_.header key)
    ∧ (Client.BuildRequestHeader c).request_.header.length
        = c.request_.header.length
          + (if header_find c.request_.header "Accept" = none then 1 else 0)
          + (if header_find c.request_.header "Content-Type" = none
              ∧ (c.request_.method = "POST" ∨ c.request_.method = "PUT") then 1 else 0)
    ∧ (Client.BuildRequestHeader c).header_list_
        = c.header_list_ ++ (Client.BuildRequestHeader c).request_.header.map header_line
    ∧ (Client.BuildRequestHeader c).header_list_.length
        = c.header_list_.length + (Client.BuildRequestHeader c).request_.header.length := by
  have hAC : header_key "Content-Type" ≠ header_key "Accept" := by decide
  -- the header map after the first default
  have h1 : ∀ key, header_find
      (if header_count c.request_.header "Accept" = 0 then
        header_assign c.request_.header "Accept" "*/*" else c.request_.header) key
      = if header_key key = header_key "Accept" then
          (match header_find c.request_.header "Accept" with
            | some v => some v
            | none => some "*/*")
        else header_find c.request_.header key := by
    intro key
    by_cases hcount : header_count c.request_.header "Accept" = 0
    · have hnone := (header_find_none_iff_count _ _).mpr hcount
      rw [if_pos hcount]
      by_cases hk : header_key key = header_key "Accept"
      · rw [if_pos hk, hnone]
        have hsame : ∀ hdr : List (string_t × string_t),
            header_find hdr key = header_find hdr "Accept" := by
          intro hdr
          induction hdr with
          | nil => rfl
          | cons kv rest ih =>
            obtain ⟨k, v⟩ := kv
            unfold header_find
            rw [hk, ih]
        rw [hsame, header_find_assign_self]
      · rw [header_find_assign_other _ _ _ _ hk, if_neg hk]
    · rw [if_neg hcount]
      by_cases hk : header_key key = header_key "Accept"
      · rw [if_pos hk]
        have hsame : ∀ hdr : List (string_t × string_t),
            header_find hdr key = header_find hdr "Accept" := by
          intro hdr
          induction hdr with
          | nil => rfl
          | cons kv rest ih =>
            obtain ⟨k, v⟩ := kv
            unfold header_find
            rw [hk, ih]
        rw [hsame]
        cases hf : header_find c.request_.header "Accept" with
        | none => exact absurd ((header_find_none_iff_count _ _).mp hf) hcount
        | some v => rfl
      · rw [if_neg hk]
  have hsub1 : c.request_.header.Sublist
      (if header_count c.request_.header "Accept" = 0 then
        header_assign c.request_.header "Accept" "*/*" else c.request_.header)
      ∧ (if header_count c.request_.header "Accept" = 0 then
        header_assign c.request_.header "Accept" "*/*" else c.request_.header).length
        = c.request_.header.length
          + (if header_find c.request_.header "Accept" = none then 1 else 0) := by
    by_cases hcount : header_count c.request_.header "Accept" = 0
    · rw [if_pos hcount, if_pos ((header_find_none_iff_count _ _).mpr hcount)]
      exact header_assign_absent_sublist _ _ _ hcount
    · rw [if_neg hcount, if_neg (fun e => hcount ((header_find_none_iff_count _ _).mp e))]
      exact ⟨List.Sublist.refl _, rfl⟩
  generalize hh1 : (if header_count c.request_.header "Accept" = 0 then
        header_assign c.request_.header "Accept" "*/*" else c.request_.header) = hdr1
    at h1 hsub1
  have hCT1 : header_find hdr1 "Content-Type" = header_find c.request_.header "Content-Type" := by
    rw [h1, if_neg hAC]
  have hreq : (Client.BuildRequestHeader c).request_.header
      = if c.request_.method = "POST" ∨ c.request_.method = "PUT" then
          (if header_count hdr1 "Content-Type" = 0 then
            header_assign hdr1 "Content-Type" "application/x-www-form-urlencoded" else hdr1)
        else hdr1 := by
    rw [← hh1]; rfl
  have hlist : (Client.BuildRequestHeader c).header_list_
      = c.header_list_ ++ (Client.BuildRequestHeader c).request_.header.map header_line := rfl
  have hsame2 : ∀ key, header_key key = header_key "Content-Type" →
      ∀ hdr : List (string_t × string_t),
        header_find hdr key = header_find hdr "Content-Type" := by
    intro key hk hdr
    induction hdr with
    | nil => rfl
    | cons kv rest ih =>
      obtain ⟨k, v⟩ := kv
      unfold header_find
      rw [hk, ih]
  have h2 : ∀ key, header_find (Client.BuildRequestHeader c).request_.header key
      = if header_key key = header_key "Content-Type" then
          (match header_find hdr1 "Content-Type" with
            | some v => some v
            | none => if c.request_.method = "POST" ∨ c.request_.method = "PUT" then
                some "application/x-www-form-urlencoded" else none)
        else header_find hdr1 key := by
    intro key
    rw [hreq]
    by_cases hm : c.request_.method = "POST" ∨ c.request_.method = "PUT"
    · rw [if_pos hm]
      by_cases hcount : header_count hdr1 "Content-Type" = 0
      · have hnone := (header_find_none_iff_count _ _).mpr hcount
        rw [if_pos hcount]
        by_cases hk : header_key key = header_key "Content-Type"
        · rw [if_pos hk, hnone, if_pos hm, hsame2 key hk, header_find_assign_self]
        · rw [header_find_assign_other _ _ _ _ hk, if_neg hk]
      · rw [if_neg hcount]
        by_cases hk : header_key key = header_key "Content-Type"
        · rw [if_pos hk, hsame2 key hk]
          cases hf : header_find hdr1 "Content-Type" with
          | none => exact absurd ((header_find_none_iff_count _ _).mp hf) hcount
          | some v => rfl
        · rw [if_neg hk]
    · rw [if_neg hm]
      by_cases hk : header_key key = header_key "Content-Type"
      · rw [if_pos hk, hsame2 key hk]
        cases hf : header_find hdr1 "Content-Type" with
        | none => rw [if_neg hm]
        | some v => rfl
      · rw [if_neg hk]
  have hsub2 : hdr1.Sublist (Client.BuildRequestHeader c).request_.header
      ∧ (Client.BuildRequestHeader c).request_.header.length
        = hdr1.length + (if header_find c.request_.header "Content-Type" = none
              ∧ (c.request_.method = "POST" ∨ c.request_.method = "PUT") then 1 else 0) := by
    rw [hreq, ← hCT1]
    by_cases hm : c.request_.method = "POST" ∨ c.request_.method = "PUT"
    · rw [if_pos hm]
      by_cases hcount : header_count hdr1 "Content-Type" = 0
      · rw [if_pos hcount, if_pos ⟨(header_find_none_iff_count _ _).mpr hcount, hm⟩]
        exact header_assign_absent_sublist _ _ _ hcount
      · rw [if_neg hcount,
          if_neg (fun e => hcount ((header_find_none_iff_count _ _).mp e.1))]
        exact ⟨List.Sublist.refl _, rfl⟩
    · rw [if_neg hm, if_neg (fun e => hm e.2)]
      exact ⟨List.Sublist.refl _, rfl⟩
  refine ⟨hsub1.1.trans hsub2.1, ?_, ?_, ?_, ?_, ?_, ?_, hlist, ?_⟩
  · intro value hv
    rw [h2, if_neg (Ne.symm hAC), h1, if_pos rfl, hv]
  · intro hv
    rw [h2, if_neg (Ne.symm hAC), h1, if_pos rfl, hv]
  · intro value hv
    rw [h2, if_pos rfl, hCT1, hv]
  · intro hv
    rw [h2, if_pos rfl, hCT1, hv]
  · intro key hA hC
    rw [h2, if_neg hC, h1, if_neg hA]
  · rw [hsub2.2, hsub1.2]
  · rw [hlist]; simp

/-! ## `library/anime_util.cpp` -/

/-- C27, as stated, fails: the index `rand() % size + 1` is never 0 and is at most `size`; with a
single candidate it is 1 whatever `rand()` returns, `valid_ids.at(1)` throws, and with more
candidates the first one is never selected while a value of `rand()` one below a multiple of the
size throws. -/
theorem PlayRandomAnime_index_skips_first_and_overruns :
    (∀ (rand : Nat → Nat) (PlayNextEpisode : Int → Bool) (anime_id : Int),
      anime.PlayRandomAnime rand PlayNextEpisode [anime_id] = none)
    ∧ (∀ rand_value max_value : Nat, anime.PlayRandomAnime_index rand_value max_value ≠ 0)
    ∧ (∀ rand_value max_value : Nat, 0 < max_value →
        anime.PlayRandomAnime_index rand_value max_value ≤ max_value)
    ∧ (∀ max_value : Nat, 0 < max_value →
        anime.PlayRandomAnime_index (max_value - 1) max_value = max_value)
    ∧ anime.PlayRandomAnime (fun _ => 2) (fun _ => true) [10, 20, 30] = none
    ∧ anime.PlayRandomAnime (fun _ => 0) (fun _ => true) [10, 20, 30] = some true := by
  refine ⟨?_, ?_, ?_, ?_, by decide, by decide⟩
  · intro rand P anime_id
    simp [anime.PlayRandomAnime, anime.PlayRandomAnime_loop, anime.PlayRandomAnime_index,
      Nat.mod_one]
  · intro r m
    simp [anime.PlayRandomAnime_index]
  · intro r m hm
    have := Nat.mod_lt r hm
    simp only [anime.PlayRandomAnime_index]
    omega
  · intro m hm
    simp only [anime.PlayRandomAnime_index]
    rw [Nat.mod_eq_of_lt (by omega)]
    omega

/-- C28: `IsValidEpisode(episode, total, watched)` returns true only if the episode is not
negative, is not below the watched count, and is within the total (or the total is unknown, 0);
and it returns true for an episode equal to the watched count only when the total is 1. -/
theorem IsValidEpisode_never_moves_backwards (episode total watched : Int)
    (h : anime.IsValidEpisode episode total watched = true) :
    0 ≤ episode ∧ watched ≤ episode ∧ (total = 0 ∨ episode ≤ total)
    ∧ (episode = watched → total = 1) := by
  unfold anime.IsValidEpisode anime.IsValidEpisode2 at h
  by_cases h2 : episode < 0 ∨ (episode > total ∧ total ≠ 0)
  · simp [h2] at h
  · by_cases h3 : episode < watched ∨ (episode = watched ∧ total ≠ 1)
    · simp [h3] at h
    · simp only [not_or, not_lt, not_and, ne_eq, Decidable.not_not] at h2 h3
      refine ⟨h2.1, h3.1, ?_, h3.2⟩
      by_cases ht : total = 0
      · exact Or.inl ht
      · right
        by_contra hgt
        exact ht (h2.2 (by omega))

/-- C28 at concrete numbers: episode 3 of 12 with 2 watched is accepted. -/
theorem IsValidEpisode_never_moves_backwards_witness :
    anime.IsValidEpisode 3 12 2 = true
    ∧ (0 : Int) ≤ 3 ∧ (2 : Int) ≤ 3 ∧ ((12 : Int) = 0 ∨ (3 : Int) ≤ 12)
    ∧ ((3 : Int) = 2 → (12 : Int) = 1) :=
  ⟨by decide, IsValidEpisode_never_moves_backwards 3 12 2 (by decide)⟩

theorem anime_max_ge (a b : Int) : a ≤ anime.max a b ∧ b ≤ anime.max a b := by
  unfold anime.max
  split <;> constructor <;> omega

/-- C29: `EstimateEpisodeCount` returns a known (positive) episode count unchanged; otherwise it
returns 13, 26, 52 or 0, and a non-zero estimate is strictly greater than every lower bound that
was considered: the last watched and the available episode counts when the item is in the list,
the last aired episode number, and for a TV series with a valid start date the number of whole
weeks from the start date to the end date (to the current date in Japan when the end date is
unknown). -/
theorem EstimateEpisodeCount_exceeds_lower_bounds (item : anime.Item) :
    (0 < item.GetEpisodeCount → anime.EstimateEpisodeCount item = item.GetEpisodeCount)
    ∧ (¬ 0 < item.GetEpisodeCount →
      (anime.EstimateEpisodeCount item = 13 ∨ anime.EstimateEpisodeCount item = 26
        ∨ anime.EstimateEpisodeCount item = 52 ∨ anime.EstimateEpisodeCount item = 0)
      ∧ (anime.EstimateEpisodeCount item ≠ 0 →
        (item.IsInList = true →
          item.GetMyLastWatchedEpisode < anime.EstimateEpisodeCount item
          ∧ item.GetAvailableEpisodeCount < anime.EstimateEpisodeCount item)
        ∧ item.GetLastAiredEpisodeNumber < anime.EstimateEpisodeCount item
        ∧ (item.GetType_is_kTv = true → item.IsValidDate_date_start = true →
          (item.IsValidDate_date_end = true →
            Int.tdiv item.date_end_minus_date_start 7 < anime.EstimateEpisodeCount item)
          ∧ (item.IsValidDate_date_end = false →
            Int.tdiv item.date_japan_minus_date_start 7
              < anime.EstimateEpisodeCount item)))) := by
  constructor
  · intro hpos
    unfold anime.EstimateEpisodeCount
    rw [if_pos hpos]
  · intro hnot
    -- the lower bounds are below `number`
    have hbounds :
        (item.IsInList = true →
          item.GetMyLastWatchedEpisode ≤ anime.EstimateEpisodeCount_number item
          ∧ item.GetAvailableEpisodeCount ≤ anime.EstimateEpisodeCount_number item)
        ∧ item.GetLastAiredEpisodeNumber ≤ anime.EstimateEpisodeCount_number item
        ∧ (item.GetType_is_kTv = true → item.IsValidDate_date_start = true →
          (item.IsValidDate_date_end = true →
            Int.tdiv item.date_end_minus_date_start 7 ≤ anime.EstimateEpisodeCount_number item)
          ∧ (item.IsValidDate_date_end = false →
            Int.tdiv item.date_japan_minus_date_start 7
              ≤ anime.EstimateEpisodeCount_number item)) := by
      unfold anime.EstimateEpisodeCount_number
      dsimp only
      generalize hn0 : (if item.IsInList = true then
        anime.max item.GetMyLastWatchedEpisode item.GetAvailableEpisodeCount else 0) = number0
      have h0 : item.IsInList = true →
          item.GetMyLastWatchedEpisode ≤ number0 ∧ item.GetAvailableEpisodeCount ≤ number0 := by
        intro hin
        rw [if_pos hin] at hn0
        rw [← hn0]
        exact anime_max_ge _ _
      have h1 := anime_max_ge number0 item.GetLastAiredEpisodeNumber
      generalize anime.max number0 item.GetLastAiredEpisodeNumber = number1 at h1 ⊢
      by_cases htv : item.GetType_is_kTv = true
      · by_cases hs : item.IsValidDate_date_start = true
        · rw [if_pos htv, if_pos hs]
          by_cases he : item.IsValidDate_date_end = true
          · have h2 := anime_max_ge number1 (Int.tdiv item.date_end_minus_date_start 7)
            simp only [he, Bool.not_true, Bool.false_eq_true, if_false]
            generalize anime.max number1 (Int.tdiv item.date_end_minus_date_start 7)
              = number2 at h2 ⊢
            refine ⟨fun hin => ⟨?_, ?_⟩, ?_, fun _ _ => ⟨fun _ => h2.2, fun hf => ?_⟩⟩
            · have := (h0 hin).1; omega
            · have := (h0 hin).2; omega
            · omega
            · cases hf
          · have he2 : item.IsValidDate_date_end = false := by
              cases hv : item.IsValidDate_date_end
              · rfl
              · exact absurd hv he
            have h2 := anime_max_ge number1 (Int.tdiv item.date_japan_minus_date_start 7)
            simp only [he2, Bool.not_false, if_true]
            generalize anime.max number1 (Int.tdiv item.date_japan_minus_date_start 7)
              = number2 at h2 ⊢
            refine ⟨fun hin => ⟨?_, ?_⟩, ?_, fun _ _ => ⟨fun hf => ?_, fun _ => h2.2⟩⟩
            · have := (h0 hin).1; omega
            · have := (h0 hin).2; omega
            · omega
            · cases hf
        · rw [if_pos htv, if_neg hs]
          exact ⟨fun hin => ⟨by have := (h0 hin).1; omega, by have := (h0 hin).2; omega⟩,
            h1.2, fun _ hs2 => absurd hs2 hs⟩
      · rw [if_neg htv]
        exact ⟨fun hin => ⟨by have := (h0 hin).1; omega, by have := (h0 hin).2; omega⟩,
          h1.2, fun htv2 => absurd htv2 htv⟩
    have hval : (anime.EstimateEpisodeCount item = 13 ∨ anime.EstimateEpisodeCount item = 26
        ∨ anime.EstimateEpisodeCount item = 52 ∨ anime.EstimateEpisodeCount item = 0)
        ∧ (anime.EstimateEpisodeCount item ≠ 0 →
          anime.EstimateEpisodeCount_number item < anime.EstimateEpisodeCount item) := by
      unfold anime.EstimateEpisodeCount
      rw [if_neg (by omega)]
      dsimp only
      split
      · exact ⟨Or.inl rfl, fun _ => by omega⟩
      · split
        · exact ⟨Or.inr (Or.inl rfl), fun _ => by omega⟩
        · split
          · exact ⟨Or.inr (Or.inr (Or.inl rfl)), fun _ => by omega⟩
          · exact ⟨Or.inr (Or.inr (Or.inr rfl)), fun h => absurd rfl h⟩
    refine ⟨hval.1, fun hne => ?_⟩
    have hlt := hval.2 hne
    obtain ⟨b1, b2, b3⟩ := hbounds
    refine ⟨fun hin => ⟨?_, ?_⟩, ?_, fun htv hs => ⟨fun he => ?_, fun he => ?_⟩⟩
    · have := (b1 hin).1; omega
    · have := (b1 hin).2; omega
    · omega
    · have := (b3 htv hs).1 he; omega
    · have := (b3 htv hs).2 he; omega

/-! ## `base/file.cpp` -/

theorem StartsWith_append (a b : wstring) : StartsWith (a ++ b) a = true := by
  unfold StartsWith
  induction a with
  | nil => simp
  | cons x a ih => simp [ih]

theorem StartsWith_of_longer (path a b : wstring) (h : StartsWith path (a ++ b) = true) :
    StartsWith path a = true := by
  unfold StartsWith at *
  induction a generalizing path with
  | nil => simp
  | cons x a ih =>
    cases path with
    | nil => simp at h
    | cons y path =>
      simp only [List.cons_append, List.isPrefixOf, Bool.and_eq_true] at h ⊢
      exact ⟨h.1, ih path h.2⟩

/-- C30: `GetExtendedLengthPath` always yields a path that starts with the prefix `\\?\` and is
idempotent; a path that already starts with the prefix is returned unchanged, any other path that
starts with two backslashes `\\rest` becomes `\\?\UNC\rest`, and every other path becomes
the prefix followed by the path. -/
theorem GetExtendedLengthPath_is_idempotent (path : wstring) :
    StartsWith (GetExtendedLengthPath path) kExtendedLengthPath = true
    ∧ GetExtendedLengthPath (GetExtendedLengthPath path) = GetExtendedLengthPath path
    ∧ (StartsWith path kExtendedLengthPath = true → GetExtendedLengthPath path = path)
    ∧ (∀ rest : wstring, path = ['\\', '\\'] ++ rest →
        StartsWith path kExtendedLengthPath = false →
        GetExtendedLengthPath path
          = kExtendedLengthPath ++ ['U', 'N', 'C', '\\'] ++ rest)
    ∧ (StartsWith path ['\\', '\\'] = false →
        GetExtendedLengthPath path = kExtendedLengthPath ++ path) := by
  have hstart : StartsWith (GetExtendedLengthPath path) kExtendedLengthPath = true := by
    unfold GetExtendedLengthPath
    split
    · assumption
    · split
      · rw [List.append_assoc]; exact StartsWith_append _ _
      · exact StartsWith_append _ _
  have hfix : ∀ p : wstring, StartsWith p kExtendedLengthPath = true →
      GetExtendedLengthPath p = p := by
    intro p hp
    unfold GetExtendedLengthPath
    rw [if_pos hp]
  refine ⟨hstart, hfix _ hstart, hfix path, ?_, ?_⟩
  · intro rest hrest hnot
    have h2 : StartsWith path ['\\', '\\'] = true := by
      rw [hrest]; exact StartsWith_append _ _
    unfold GetExtendedLengthPath
    rw [if_neg (by simp [hnot]), if_pos h2, hrest]
    rfl
  · intro hnot2
    have hnot : ¬ StartsWith path kExtendedLengthPath = true := by
      intro hp
      have : StartsWith path ['\\', '\\'] = true :=
        StartsWith_of_longer path ['\\', '\\'] ['?', '\\'] hp
      rw [this] at hnot2
      cases hnot2
    unfold GetExtendedLengthPath
    rw [if_neg hnot, if_neg (by simp [hnot2])]


/-! ## The scheduler against its reference -/

/-- The loop of `ProcessQueue`, started behind the entries `kept` with the local `connections`,
yields what the reference pass yields on the entries `rest`. -/
theorem ProcessQueue_loop_refines (E : Engine) (hE : E.OptionsAccepted)
    (pq : HttpManager → Option HttpManager) :
    ∀ (fuel connections : Nat) (kept rest : List (HttpRequest × HttpClientMode))
      (s t : HttpManager),
      s.requests_ = kept ++ rest → (kept ++ rest).length < size_t_modulus →
      ProcessQueue_loop E pq fuel connections kept.length s = some t →
      t.requests_ = kept ++
          (reference_pass connections (fun h => s.connections_.at_ h) rest).remaining
      ∧ started_requests t.trace = started_requests s.trace ++
          (reference_pass connections (fun h => s.connections_.at_ h) rest).started
      ∧ (∀ h, t.connections_.at_ h
          = (reference_pass connections (fun h => s.connections_.at_ h) rest).counters h)
      ∧ t.connections_.total + connections
          = (reference_pass connections (fun h => s.connections_.at_ h) rest).sum
            + s.connections_.total := by
  intro fuel
  induction fuel with
  | zero => intro c kept rest s t _ _ h; simp [ProcessQueue_loop] at h
  | succ fuel ih =>
    intro c kept rest s t hq hM h
    cases rest with
    | nil =>
      unfold ProcessQueue_loop at h
      have hnot : ¬ kept.length < s.requests_.length := by rw [hq]; simp
      rw [if_neg hnot] at h
      cases h
      refine ⟨by simpa [reference_pass] using hq, by simp [reference_pass],
        fun h => rfl, ?_⟩
      simp only [reference_pass]; omega
    | cons x rest =>
      obtain ⟨request, mode⟩ := x
      unfold ProcessQueue_loop at h
      have hlt : kept.length < s.requests_.length := by rw [hq]; simp
      rw [if_pos hlt] at h
      by_cases hstop : c = kMaxSimultaneousConnections
      · rw [if_pos hstop] at h
        cases h
        simp only [reference_pass, if_pos hstop]
        exact ⟨hq, by simp, fun _ => trivial, by omega⟩
      · rw [if_neg hstop] at h
        have hget : s.requests_[kept.length]? = some (request, mode) := by
          rw [hq]; exact getElem?_append_cons kept (request, mode) rest
        rw [hget] at h
        dsimp only at h
        have htouch : (fun h => (s.connections_.touch request.url.host).at_ h)
            = fun h => s.connections_.at_ h := by
          funext h; exact Connections.at_touch _ _ _
        by_cases hhost : (s.connections_.touch request.url.host).at_ request.url.host
            = kMaxSimultaneousConnectionsPerHostname
        · rw [if_pos hhost] at h
          have hidx : (kept.length + 1) % size_t_modulus
              = (kept ++ [(request, mode)]).length := by
            rw [Nat.mod_eq_of_lt]
            · simp
            · have : (kept ++ (request, mode) :: rest).length < size_t_modulus := hM
              simp at this; omega
          rw [hidx] at h
          obtain ⟨hreqs, hstarted, hcount, hsum⟩ := ih c (kept ++ [(request, mode)])
            rest _ t (by simpa using hq) (by simpa using hM) h
          dsimp only at hreqs hstarted hcount hsum
          rw [htouch] at hreqs hstarted hcount hsum
          rw [Connections.total_touch] at hsum
          rw [Connections.at_touch] at hhost
          simp only [reference_pass, if_neg hstop, if_pos hhost]
          exact ⟨by simpa using hreqs, hstarted, hcount, hsum⟩
        · rw [if_neg hhost] at h
          obtain ⟨s5, b, h5, hconn, hreqs5, htrace5⟩ := ProcessQueue_admit_accepted E hE pq
            { s with connections_ := s.connections_.touch request.url.host } request mode
          rw [h5] at h
          dsimp only at h hreqs5 hconn htrace5
          have hlt5 : kept.length < s5.requests_.length := by rw [hreqs5]; exact hlt
          have hkM : kept.length < size_t_modulus := by
            have : (kept ++ (request, mode) :: rest).length < size_t_modulus := hM
            simp at this; omega
          rw [if_pos hlt5, size_t_decrement_increment _ hkM] at h
          obtain ⟨hreqs, hstarted, hcount, hsum⟩ := ih (c + 1) kept rest _ t
            (by
              show s5.requests_.eraseIdx kept.length = kept ++ rest
              rw [hreqs5, hq]; exact eraseIdx_append_cons kept _ rest)
            (by
              have : (kept ++ (request, mode) :: rest).length < size_t_modulus := hM
              simp at this ⊢; omega)
            h
          dsimp only at hreqs hstarted hcount hsum
          have hfun : (fun h => s5.connections_.at_ h)
              = fun hostname => if hostname = request.url.host then
                  s.connections_.at_ hostname + 1 else s.connections_.at_ hostname := by
            funext h
            rw [hconn]
            by_cases hh : h = request.url.host
            · rw [if_pos hh, hh, Connections.at_increment_self, Connections.at_touch]
            · rw [if_neg hh, Connections.at_increment_other _ _ _ hh, Connections.at_touch]
          rw [hfun] at hreqs hstarted hcount hsum
          rw [hconn, Connections.total_increment, Connections.total_touch] at hsum
          rw [htrace5, started_requests_append] at hstarted
          rw [Connections.at_touch] at hhost
          simp only [reference_pass, if_neg hstop, if_neg hhost]
          refine ⟨hreqs, ?_, hcount, by omega⟩
          rw [hstarted]
          simp [started_requests]

/-- The loop of `ProcessQueue`, started behind entries `kept` that all target hosts at the
per-host ceiling and with the local `connections` equal to the sum of the counters, ends at the
global ceiling or leaves only requests to hosts at the per-host ceiling. -/
theorem ProcessQueue_loop_exhausts (E : Engine) (hE : E.OptionsAccepted)
    (pq : HttpManager → Option HttpManager) :
    ∀ (fuel connections : Nat) (kept rest : List (HttpRequest × HttpClientMode))
      (s t : HttpManager),
      s.requests_ = kept ++ rest → (kept ++ rest).length < size_t_modulus →
      connections = s.connections_.total →
      (∀ r ∈ kept, s.connections_.at_ r.1.url.host = kMaxSimultaneousConnectionsPerHostname) →
      ProcessQueue_loop E pq fuel connections kept.length s = some t →
      t.connections_.total = kMaxSimultaneousConnections
      ∨ ∀ r ∈ t.requests_,
          t.connections_.at_ r.1.url.host = kMaxSimultaneousConnectionsPerHostname := by
  intro fuel
  induction fuel with
  | zero => intro c kept rest s t _ _ _ _ h; simp [ProcessQueue_loop] at h
  | succ fuel ih =>
    intro c kept rest s t hq hM hc hkept h
    cases rest with
    | nil =>
      unfold ProcessQueue_loop at h
      have hnot : ¬ kept.length < s.requests_.length := by rw [hq]; simp
      rw [if_neg hnot] at h
      cases h
      right
      intro r hr
      rw [hq] at hr
      exact hkept r (by simpa using hr)
    | cons x rest =>
      obtain ⟨request, mode⟩ := x
      unfold ProcessQueue_loop at h
      have hlt : kept.length < s.requests_.length := by rw [hq]; simp
      rw [if_pos hlt] at h
      by_cases hstop : c = kMaxSimultaneousConnections
      · rw [if_pos hstop] at h
        cases h
        left; omega
      · rw [if_neg hstop] at h
        have hget : s.requests_[kept.length]? = some (request, mode) := by
          rw [hq]; exact getElem?_append_cons kept (request, mode) rest
        rw [hget] at h
        dsimp only at h
        by_cases hhost : (s.connections_.touch request.url.host).at_ request.url.host
            = kMaxSimultaneousConnectionsPerHostname
        · rw [if_pos hhost] at h
          have hidx : (kept.length + 1) % size_t_modulus
              = (kept ++ [(request, mode)]).length := by
            rw [Nat.mod_eq_of_lt]
            · simp
            · have : (kept ++ (request, mode) :: rest).length < size_t_modulus := hM
              simp at this; omega
          rw [hidx] at h
          refine ih c (kept ++ [(request, mode)]) rest _ t (by simpa using hq)
            (by simpa using hM) ?_ ?_ h
          · show c = (s.connections_.touch request.url.host).total
            rw [Connections.total_touch]; exact hc
          · intro r hr
            show (s.connections_.touch request.url.host).at_ r.1.url.host = _
            rcases List.mem_append.mp hr with hr1 | hr1
            · rw [Connections.at_touch]; exact hkept r hr1
            · simp only [List.mem_singleton] at hr1
              rw [hr1]; exact hhost
        · rw [if_neg hhost] at h
          obtain ⟨s5, b, h5, hconn, hreqs5, htrace5⟩ := ProcessQueue_admit_accepted E hE pq
            { s with connections_ := s.connections_.touch request.url.host } request mode
          rw [h5] at h
          dsimp only at h hreqs5 hconn
          have hlt5 : kept.length < s5.requests_.length := by rw [hreqs5]; exact hlt
          have hkM : kept.length < size_t_modulus := by
            have : (kept ++ (request, mode) :: rest).length < size_t_modulus := hM
            simp at this; omega
          rw [if_pos hlt5, size_t_decrement_increment _ hkM] at h
          rw [Connections.at_touch] at hhost
          refine ih (c + 1) kept rest _ t ?_ ?_ ?_ ?_ h
          · show s5.requests_.eraseIdx kept.length = kept ++ rest
            rw [hreqs5, hq]; exact eraseIdx_append_cons kept _ rest
          · have : (kept ++ (request, mode) :: rest).length < size_t_modulus := hM
            simp at this ⊢; omega
          · show c + 1 = s5.connections_.total
            rw [hconn, Connections.total_increment, Connections.total_touch, hc]
          · intro r hr
            show s5.connections_.at_ r.1.url.host = _
            have hr6 := hkept r hr
            have hne : r.1.url.host ≠ request.url.host := by
              intro e; rw [e] at hr6; exact hhost hr6
            rw [hconn, Connections.at_increment_other _ _ _ hne, Connections.at_touch]
            exact hr6


/-- On an engine that accepts every option, for every counter state and every queue a vector
index can address, `ProcessQueue` returns and its result is that of the reference pass: the same
requests started in the same order, the same remaining queue, the same counter for every host and
the same sum of counters.  (The `size_t` index of the loop wraps below zero when the first entry
is admitted; the loop is run with the queue length plus one as its bound.) -/
theorem ProcessQueue_refines_reference_scheduler (E : Engine) (hE : E.OptionsAccepted)
    (depth : Nat) (s : HttpManager) (hM : s.requests_.length < size_t_modulus) :
    ∃ t, ProcessQueue E depth s = some t
      ∧ started_requests t.trace
          = started_requests s.trace ++ (reference_scheduler s).started
      ∧ t.requests_ = (reference_scheduler s).remaining
      ∧ (∀ hostname, t.connections_.at_ hostname = (reference_scheduler s).counters hostname)
      ∧ t.connections_.total = (reference_scheduler s).sum := by
  obtain ⟨t, ht⟩ := ProcessQueue_returns E hE depth s hM
  have key : ∀ pq, ProcessQueue_loop E pq (s.requests_.length + 1) s.connections_.total 0 s
      = some t → _ := fun pq hl =>
    ProcessQueue_loop_refines E hE pq _ _ [] s.requests_ s t rfl hM hl
  have hres : t.requests_ = [] ++ (reference_scheduler s).remaining
      ∧ started_requests t.trace = started_requests s.trace ++ (reference_scheduler s).started
      ∧ (∀ h, t.connections_.at_ h = (reference_scheduler s).counters h)
      ∧ t.connections_.total + s.connections_.total
          = (reference_scheduler s).sum + s.connections_.total := by
    cases depth with
    | zero => exact key _ ht
    | succ d => exact key _ ht
  obtain ⟨h1, h2, h3, h4⟩ := hres
  exact ⟨t, ht, h2, by simpa using h1, h3, by omega⟩

/-- The working engine at a concrete state: one transfer runs on "a"; the queue holds a request to "b" and a
request to "a".  The first entry is admitted (the index wraps), then the second. -/
theorem ProcessQueue_refines_reference_scheduler_witness :
    Engine.working.OptionsAccepted
    ∧ two_waiting.requests_.length < size_t_modulus
    ∧ (reference_scheduler two_waiting).started
        = [HttpRequest.get "2" "b", HttpRequest.get "3" "a"]
    ∧ (reference_scheduler two_waiting).remaining = []
    ∧ (reference_scheduler two_waiting).counters "a" = 2
    ∧ (reference_scheduler two_waiting).counters "b" = 1
    ∧ (reference_scheduler two_waiting).sum = 3
    ∧ ∃ t, ProcessQueue Engine.working 0 two_waiting = some t
      ∧ started_requests t.trace
          = started_requests two_waiting.trace ++ (reference_scheduler two_waiting).started
      ∧ t.requests_ = (reference_scheduler two_waiting).remaining
      ∧ (∀ hostname,
          t.connections_.at_ hostname = (reference_scheduler two_waiting).counters hostname)
      ∧ t.connections_.total = (reference_scheduler two_waiting).sum :=
  ⟨fun _ _ => rfl, by decide, by decide, by decide, by decide, by decide, by decide,
    ProcessQueue_refines_reference_scheduler Engine.working (fun _ _ => rfl) 0 two_waiting
      (by decide)⟩

/-- On an engine that accepts every option, for every counter state (within the ceilings or
not) and every queue a vector index can address, `ProcessQueue` returns, and afterwards either
the sum of the counters equals the global ceiling or every request still in the queue targets a
host whose counter equals the per-host ceiling. -/
theorem ProcessQueue_leaves_no_admissible_request (E : Engine) (hE : E.OptionsAccepted)
    (depth : Nat) (s : HttpManager) (hM : s.requests_.length < size_t_modulus) :
    ∃ t, ProcessQueue E depth s = some t
      ∧ (t.connections_.total = kMaxSimultaneousConnections
        ∨ ∀ r ∈ t.requests_,
            t.connections_.at_ r.1.url.host = kMaxSimultaneousConnectionsPerHostname) := by
  obtain ⟨t, ht⟩ := ProcessQueue_returns E hE depth s hM
  have key : ∀ pq, ProcessQueue_loop E pq (s.requests_.length + 1) s.connections_.total 0 s
      = some t → _ := fun pq hl =>
    ProcessQueue_loop_exhausts E hE pq _ _ [] s.requests_ s t rfl hM rfl
      (fun r hr => by simp at hr) hl
  refine ⟨t, ht, ?_⟩
  cases depth with
  | zero => exact key _ ht
  | succ d => exact key _ ht

/-- The working engine at a concrete state: six transfers run on "a" and a seventh request to "a" waits; the
scheduler leaves it, and "a" is at its ceiling. -/
theorem ProcessQueue_leaves_no_admissible_request_witness :
    Engine.working.OptionsAccepted
    ∧ six_running_one_waiting.requests_.length < size_t_modulus
    ∧ six_running_one_waiting.connections_.total ≤ kMaxSimultaneousConnections
    ∧ ∃ t, ProcessQueue Engine.working 0 six_running_one_waiting = some t
      ∧ (t.connections_.total = kMaxSimultaneousConnections
        ∨ ∀ r ∈ t.requests_,
            t.connections_.at_ r.1.url.host = kMaxSimultaneousConnectionsPerHostname) :=
  ⟨fun _ _ => rfl, by decide, by decide,
    ProcessQueue_leaves_no_admissible_request Engine.working (fun _ _ => rfl) 0
      six_running_one_waiting (by decide)⟩

/-! ## One request per client -/

/-- C21: for every manager state, request and mode, the client `GetClient` returns is a client of
the set and is not busy (found idle, or newly constructed), and `ProcessQueue` calls
`client.MakeRequest` on exactly that client, in a state where it is still not busy: the
busy-rejection branch of `Client::MakeRequest` is not taken. -/
theorem scheduler_hands_out_idle_client (E : Engine) (pq : HttpManager → Option HttpManager)
    (s : HttpManager) (request : HttpRequest) (mode : HttpClientMode) :
    (GetClient E s request).2 < (GetClient E s request).1.clients_.length
    ∧ ((GetClient E s request).1.client (GetClient E s request).2).busy_ = false
    ∧ ProcessQueue_admit E pq s request mode
        = Client.MakeRequest (owner E pq (ProcessQueue_admit_call E s request mode).2) E request
            (ProcessQueue_admit_call E s request mode).1
    ∧ (ProcessQueue_admit_call E s request mode).2
        = (GetClient E { s with connections_ := s.connections_.increment request.url.host }
            request).2
    ∧ (ProcessQueue_admit_call E s request mode).2
        < (ProcessQueue_admit_call E s request mode).1.clients_.length
    ∧ ((owner E pq (ProcessQueue_admit_call E s request mode).2).self
        (ProcessQueue_admit_call E s request mode).1).busy_ = false := by
  refine ⟨GetClient_index_lt E s request, GetClient_idle E s request, rfl, rfl, ?_, ?_⟩
  · have h := GetClient_index_lt E
      { s with connections_ := s.connections_.increment request.url.host } request
    simpa [ProcessQueue_admit_call, emit, setClient] using h
  · have h := GetClient_index_lt E
      { s with connections_ := s.connections_.increment request.url.host } request
    have hb := GetClient_idle E
      { s with connections_ := s.connections_.increment request.url.host } request
    have hc : ∀ (u : HttpManager) (ev : List Event) (j : Nat),
        (emit u ev).client j = u.client j := fun _ _ _ => rfl
    have hcall : ProcessQueue_admit_call E s request mode
        = (emit (setClient
            (GetClient E { s with connections_ := s.connections_.increment request.url.host }
              request).1
            (GetClient E { s with connections_ := s.connections_.increment request.url.host }
              request).2
            ((client
              (GetClient E { s with connections_ := s.connections_.increment request.url.host }
                request).1
              (GetClient E { s with connections_ := s.connections_.increment request.url.host }
                request).2).set_mode mode))
            [Event.Client_MakeRequest
              (GetClient E { s with connections_ := s.connections_.increment request.url.host }
                request).2 request],
          (GetClient E { s with connections_ := s.connections_.increment request.url.host }
            request).2) := rfl
    rw [hcall]
    generalize GetClient E { s with connections_ := s.connections_.increment request.url.host }
      request = g at h hb
    show ((emit (setClient g.1 g.2 _) _).client g.2).busy_ = false
    rw [hc, client_setClient _ _ _ h]
    exact hb

/-! ## The finishing client and the scheduler -/

theorem GetClient_skips_busy_client (E : Engine) (s : HttpManager) (request : HttpRequest)
    (k : Nat) (hk : k < s.clients_.length) (hbusy : (s.client k).busy_ = true) :
    (GetClient E s request).2 ≠ k := by
  unfold GetClient
  split
  · rename_i j hf
    obtain ⟨hj, ⟨x, hx, hpx⟩, _⟩ := findFirst_some _ _ _ hf
    dsimp only
    intro e
    subst e
    rw [client_of_getElem? s j x hx] at hbusy
    simp [hbusy] at hpx
  · dsimp only
    omega

theorem HandleResponse_factors (E : Engine) (s : HttpManager) (response : HttpResponse) :
    ∃ r : Option HttpManager,
      (∀ s2, r = some s2 → s2.clients_ = s.clients_ ∧ s2.requests_ = s.requests_)
      ∧ ∀ pq, HandleResponse E pq s response = r.bind pq := by
  unfold HandleResponse
  cases FindClient s response.uid with
  | none => exact ⟨none, fun _ h => (by cases h), fun _ => rfl⟩
  | some j =>
    refine ⟨some _, fun s2 h => ?_, fun _ => rfl⟩
    cases h
    unfold FreeConnection
    split <;> exact ⟨rfl, rfl⟩

theorem HandleError_factors (s : HttpManager) (response : HttpResponse) (error : string_t) :
    ∃ r : Option HttpManager,
      (∀ s2, r = some s2 → s2.clients_ = s.clients_ ∧ s2.requests_ = s.requests_)
      ∧ ∀ pq, HandleError pq s response error = r.bind pq := by
  unfold HandleError
  cases FindClient s response.uid with
  | none => exact ⟨none, fun _ h => (by cases h), fun _ => rfl⟩
  | some j =>
    refine ⟨some _, fun s2 h => ?_, fun _ => rfl⟩
    cases h
    unfold FreeConnection
    split <;> exact ⟨rfl, rfl⟩


/-- C23, as stated, fails: six transfers run on "a" with clients 0 to 5, a seventh request to "a"
waits, and the first transfer ends successfully.  The scheduler run from its completion gives the
seventh request to a new client 6 (the client set grows from 6 to 7), although client 0 is
reuse-eligible and bound to "a"; client 0 is idle only afterwards. -/
theorem finished_client_is_not_reused_by_its_own_completion :
    six_running_one_waiting.clients_.length = 6
    ∧ (run Engine.working 0 seventh_after_first_completes HttpManager.empty).map
        (fun s => (s.clients_.length, s.requests_, started_clients s.trace,
          (s.client 0).busy_, (s.client 0).allow_reuse_, (s.client 0).request_.url.host))
      = some (7, [], [0, 1, 2, 3, 4, 5, 6], false, true, "a") :=
  ⟨by decide, rfl⟩

/-- C23 as amended: when the transfer of a busy client ends with a result other than the abort
code, `Client::Perform` raises the terminal callback first and calls `Cleanup` only after it has
returned.  The scheduler re-invoked by `HandleResponse` or `HandleError` runs on a state with the
same clients and queue in which the finishing client is still busy, so `GetClient` does not
return that client for any request; the client is released from `busy` by the `Cleanup` that
follows. -/
theorem completion_callback_sees_busy_client (E : Engine) (k : Nat) (s : HttpManager)
    (code : CURLcode) (hk : k < s.clients_.length) (hbusy : (s.client k).busy_ = true)
    (hcode : code ≠ CURLE_ABORTED_BY_CALLBACK) :
    ∃ r : Option HttpManager,
      (∀ s2, r = some s2 →
        (s2.client k).busy_ = true ∧ s2.clients_.length = s.clients_.length
        ∧ s2.requests_ = s.requests_
        ∧ ∀ request, (GetClient E s2 request).2 ≠ k)
      ∧ ∀ pq : HttpManager → Option HttpManager,
        Client.Perform (owner E pq k) E code s
          = (r.bind pq).map (fun w1 =>
              (w1.setClient k (Client.Cleanup (w1.client k) (w1.client k).allow_reuse_),
                code == CURLE_OK)) := by
  -- the state handed to the terminal callback
  have hstate : ∃ s1 : HttpManager, (s1.client k).busy_ = true
      ∧ s1.clients_.length = s.clients_.length ∧ s1.requests_ = s.requests_
      ∧ ∃ response : HttpResponse, ∃ error : string_t, ∀ pq,
        Client.Perform (owner E pq k) E code s
          = (if code = CURLE_OK then HandleResponse E pq s1 response
              else HandleError pq s1 response error).map (fun w1 =>
              (w1.setClient k (Client.Cleanup (w1.client k) (w1.client k).allow_reuse_),
                code == CURLE_OK)) := by
    by_cases hok : code = CURLE_OK
    · -- success: the body is stored, then `OnReadComplete`
      have hc1 : ∃ c1 : HttpClient, c1.busy_ = true ∧ ∀ pq,
          Client.Perform (owner E pq k) E code s
            = (HttpClient_OnReadComplete E pq k (s.setClient k c1)).map (fun w1 =>
                (w1.setClient k (Client.Cleanup (w1.client k) (w1.client k).allow_reuse_),
                  code == CURLE_OK)) := by
        refine ⟨if (s.client k).write_buffer_ ≠ "" then
            { (if (s.client k).content_encoding_gzip then
                { s.client k with
                  write_buffer_ := E.UncompressGzippedString (s.client k).write_buffer_ }
                else s.client k) with
              response_ :=
                { (if (s.client k).content_encoding_gzip then
                    { s.client k with
                      write_buffer_ := E.UncompressGzippedString (s.client k).write_buffer_ }
                    else s.client k).response_ with
                  body := (if (s.client k).content_encoding_gzip then
                    { s.client k with
                      write_buffer_ := E.UncompressGzippedString (s.client k).write_buffer_ }
                    else s.client k).write_buffer_ } }
          else s.client k, ?_, fun pq => ?_⟩
        · split
          · dsimp only
            split <;> exact hbusy
          · exact hbusy
        · unfold Client.Perform
          rw [if_pos hok]
          rfl
      obtain ⟨c1, hb1, hperf⟩ := hc1
      refine ⟨emit (s.setClient k c1)
          [Event.ui_OnHttpReadComplete ((s.setClient k c1).client k).mode_,
            Event.Stats_connections_succeeded], ?_, ?_, rfl,
        ((s.setClient k c1).client k).response_, "", fun pq => ?_⟩
      · show ((s.setClient k c1).client k).busy_ = true
        rw [client_setClient _ _ _ hk]; exact hb1
      · simp [emit, setClient]
      · rw [hperf pq, if_pos hok]
        rfl
    · refine ⟨emit s [Event.ui_OnHttpError (s.client k).mode_
            (HttpManager.error_text E (s.client k) code),
            Event.Stats_connections_failed], hbusy, rfl, rfl,
        (s.client k).response_, HttpManager.error_text E (s.client k) code, fun pq => ?_⟩
      rw [if_neg hok]
      unfold Client.Perform
      rw [if_neg hok, if_pos hcode]
      have herr : HttpClient_OnError E pq k code s
          = HandleError pq (emit s [Event.ui_OnHttpError (s.client k).mode_
              (HttpManager.error_text E (s.client k) code), Event.Stats_connections_failed])
              (s.client k).response_ (HttpManager.error_text E (s.client k) code) := by
        unfold HttpClient_OnError HttpManager.error_text
        split <;> rfl
      show (HttpClient_OnError E pq k code s).map _ = _
      rw [herr]
      rfl
  obtain ⟨s1, hb1, hlen1, hreq1, response, error, hperf⟩ := hstate
  obtain ⟨rR, hR, hRpq⟩ := HandleResponse_factors E s1 response
  obtain ⟨rE, hErr, hEpq⟩ := HandleError_factors s1 response error
  refine ⟨if code = CURLE_OK then rR else rE, fun s2 hs2 => ?_, fun pq => ?_⟩
  · have hcl : s2.clients_ = s1.clients_ ∧ s2.requests_ = s1.requests_ := by
      by_cases hok : code = CURLE_OK
      · rw [if_pos hok] at hs2; exact hR s2 hs2
      · rw [if_neg hok] at hs2; exact hErr s2 hs2
    have hbusy2 : (s2.client k).busy_ = true := by
      have : s2.client k = s1.client k := by simp [client, hcl.1]
      rw [this]; exact hb1
    have hlen2 : s2.clients_.length = s.clients_.length := by rw [hcl.1, hlen1]
    exact ⟨hbusy2, hlen2, hcl.2.trans hreq1,
      fun request => GetClient_skips_busy_client E s2 request k (by omega) hbusy2⟩
  · rw [hperf pq]
    by_cases hok : code = CURLE_OK
    · rw [if_pos hok, if_pos hok, hRpq pq]
    · rw [if_neg hok, if_neg hok, hEpq pq]

/-- C23 as amended, at a concrete state: the first of six running transfers on "a" ends
successfully while a seventh request to "a" waits. -/
theorem completion_callback_sees_busy_client_witness :
    0 < six_running_one_waiting.clients_.length
    ∧ (six_running_one_waiting.client 0).busy_ = true
    ∧ CURLE_OK ≠ CURLE_ABORTED_BY_CALLBACK
    ∧ ∃ r : Option HttpManager,
      (∀ s2, r = some s2 →
        (s2.client 0).busy_ = true
        ∧ s2.clients_.length = six_running_one_waiting.clients_.length
        ∧ s2.requests_ = six_running_one_waiting.requests_
        ∧ ∀ request, (GetClient Engine.working s2 request).2 ≠ 0)
      ∧ ∀ pq : HttpManager → Option HttpManager,
        Client.Perform (owner Engine.working pq 0) Engine.working CURLE_OK
            six_running_one_waiting
          = (r.bind pq).map (fun w1 =>
              (w1.setClient 0 (Client.Cleanup (w1.client 0) (w1.client 0).allow_reuse_),
                CURLE_OK == CURLE_OK)) :=
  ⟨by decide, by decide, by decide,
    completion_callback_sees_busy_client Engine.working 0 six_running_one_waiting CURLE_OK
      (by decide) (by decide) (by decide)⟩

/-- C29 at a concrete item: a TV series in the list, 14 whole weeks after its start, is estimated
at 26 episodes. -/
theorem EstimateEpisodeCount_exceeds_lower_bounds_witness :
    anime.EstimateEpisodeCount anime.airing_series = 26
    ∧ ¬ 0 < anime.airing_series.GetEpisodeCount
    ∧ anime.airing_series.GetLastAiredEpisodeNumber
        < anime.EstimateEpisodeCount anime.airing_series
    ∧ Int.tdiv anime.airing_series.date_japan_minus_date_start 7
        < anime.EstimateEpisodeCount anime.airing_series := by
  have h := (EstimateEpisodeCount_exceeds_lower_bounds anime.airing_series).2 (by decide)
  have hne : anime.EstimateEpisodeCount anime.airing_series ≠ 0 := by decide
  exact ⟨by decide, by decide, (h.2 hne).2.1, ((h.2 hne).2.2 rfl rfl).2 rfl⟩

/-! ## The scheduler on any engine -/

theorem andThen_eq_some {σ : Type} (r : Option (σ × Bool)) (f : σ → Option (σ × Bool))
    (x : σ × Bool) (h : andThen r f = some x) :
    (r = some x ∧ x.2 = false) ∨ ∃ w, r = some (w, true) ∧ f w = some x := by
  unfold andThen at h
  split at h
  · cases h
  · cases h; exact Or.inl ⟨rfl, rfl⟩
  · exact Or.inr ⟨_, rfl, h⟩

theorem FreeConnection_requests (s : HttpManager) (g : string_t) :
    (s.FreeConnection g).requests_ = s.requests_ := by
  unfold FreeConnection
  split <;> rfl

theorem FreeConnection_total (s : HttpManager) (g : string_t) :
    (s.FreeConnection g).connections_.total
      = if 0 < s.connections_.at_ g then s.connections_.total - 1 else s.connections_.total := by
  unfold FreeConnection
  split
  · rename_i hpos
    have := Connections.total_decrement s.connections_ g hpos
    show (s.connections_.decrement g).total = _
    omega
  · rename_i hz
    simp only [emit]
    exact Connections.total_touch _ _

theorem at_touch_increment (C : Connections) (h hostname : string_t) :
    ((C.touch h).increment h).at_ hostname
      = if hostname = h then C.at_ h + 1 else C.at_ hostname := by
  split
  · rename_i hh; subst hh
    rw [Connections.at_increment_self, Connections.at_touch]
  · rename_i hh
    rw [Connections.at_increment_other _ _ _ hh, Connections.at_touch]

theorem total_touch_increment (C : Connections) (h : string_t) :
    ((C.touch h).increment h).total = C.total + 1 := by
  rw [Connections.total_increment, Connections.total_touch]

theorem GetClient_all_busy (E : Engine) (s : HttpManager) (request : HttpRequest)
    (h : ∀ c ∈ s.clients_, c.busy_ = true) :
    GetClient E s request
      = ({ s with clients_ := s.clients_ ++ [HttpClient.new E request] }, s.clients_.length) := by
  unfold GetClient
  split
  · rename_i k hf
    obtain ⟨hk, ⟨x, hx, hpx⟩, _⟩ := findFirst_some _ _ _ hf
    have hmem : x ∈ s.clients_ := List.getElem?_mem hx
    have := h x hmem
    simp [this] at hpx
  · rfl

theorem set_length_append {α : Type} (l : List α) (a b : α) :
    (l ++ [a]).set l.length b = l ++ [b] := by
  induction l with
  | nil => rfl
  | cons x rest ih => simp [List.set, ih]

theorem getD_length_append {α : Type} (l : List α) (a d : α) :
    (l ++ [a]).getD l.length d = a := by
  induction l with
  | nil => rfl
  | cons x rest ih => simp [List.getD] at ih ⊢

theorem FindClient_host (s : HttpManager) (uid : uid_t) (k : Nat) (g : string_t)
    (h : FindClient s uid = some k) (hall : ∀ c ∈ s.clients_, c.request_.url.host = g) :
    (s.client k).request_.url.host = g := by
  unfold FindClient at h
  obtain ⟨hk, ⟨x, hx, _⟩, _⟩ := findFirst_some _ _ _ h
  rw [client_of_getElem? s k x hx]
  exact hall x (List.getElem?_mem hx)

theorem TAIGA_CURL_SET_OPTION_refused {σ : Type} (O : Owner σ) (E : Engine)
    (hR : ∀ c o, E.curl_easy_setopt c o ≠ CURLE_OK) (options : List CURLoption)
    (hne : options ≠ []) (w : σ) (hO : ∀ code, O.OnError code w = none) :
    Client.TAIGA_CURL_SET_OPTION O E options w = none := by
  cases options with
  | nil => exact absurd rfl hne
  | cons o rest =>
    unfold Client.TAIGA_CURL_SET_OPTION
    dsimp only
    rw [if_pos (hR _ _), hO]
    rfl

theorem SetRequestOptions_refused {σ : Type} (O : Owner σ) (E : Engine)
    (hR : ∀ c o, E.curl_easy_setopt c o ≠ CURLE_OK) (w : σ)
    (hO : ∀ code, O.OnError code w = none) :
    Client.SetRequestOptions O E w = none := by
  unfold Client.SetRequestOptions
  rw [TAIGA_CURL_SET_OPTION_refused O E hR _ (by simp [Client.options_network]) w hO]
  rfl

/-- On an engine that refuses every option, `Client::MakeRequest` on an idle client with a usable
handle reaches `OnError`; if `OnError` does not return, neither does `MakeRequest`. -/
theorem MakeRequest_refused {σ : Type} (O : Owner σ) (E : Engine)
    (hR : ∀ c o, E.curl_easy_setopt c o ≠ CURLE_OK)
    (hinit : E.curl_global_initialized = true) (hhandle : ∀ c, E.curl_easy_init c = true)
    (request : HttpRequest) (w : σ) (hidle : (O.self w).busy_ = false)
    (hO : ∀ code c, c.busy_ = true → c.request_ = request →
      O.OnError code (O.update w c) = none) :
    Client.MakeRequest O E request w = none := by
  unfold Client.MakeRequest
  rw [if_neg (by rw [hidle]; exact Bool.false_ne_true)]
  dsimp only
  have hini : ∀ c : HttpClient, c.busy_ = true → c.request_ = request →
      (Client.Initialize E c).2 = true ∧ (Client.Initialize E c).1.busy_ = true
        ∧ (Client.Initialize E c).1.request_ = request := by
    intro c hb hr
    unfold Client.Initialize
    simp only [hinit, Bool.not_true, Bool.false_eq_true, if_false]
    by_cases hc : c.curl_handle_ = true
    · simp [hc, hb, hr]
    · simp [hc, hb, hr, hhandle]
  generalize hc1 : Client.Initialize E _ = ini
  have h1 : ini.2 = true ∧ ini.1.busy_ = true ∧ ini.1.request_ = request := by
    rw [← hc1]; exact hini _ rfl rfl
  obtain ⟨c2, initialized⟩ := ini
  simp only at h1
  obtain ⟨h2, h3, h4⟩ := h1
  subst h2
  simp only [if_true]
  rw [SetRequestOptions_refused O E hR _ (fun code => hO code c2 h3 h4)]
  rfl

/-- On an engine that refuses every option, with every client busy on the host of the request,
the admission step calls the scheduler again with the counter released and the request still
queued; if that nested call does not return, the admission step does not return. -/
theorem ProcessQueue_admit_refused (E : Engine)
    (hR : ∀ c o, E.curl_easy_setopt c o ≠ CURLE_OK)
    (hinit : E.curl_global_initialized = true) (hhandle : ∀ c, E.curl_easy_init c = true)
    (pq : HttpManager → Option HttpManager) (s : HttpManager)
    (request : HttpRequest) (mode : HttpClientMode)
    (hbusy : ∀ c ∈ s.clients_, c.busy_ = true)
    (hhost : ∀ c ∈ s.clients_, c.request_.url.host = request.url.host)
    (hpq : ∀ v : HttpManager,
      v.connections_ = s.connections_.increment request.url.host → v.requests_ = s.requests_ →
      (∀ c ∈ v.clients_, c.busy_ = true) →
      (∀ c ∈ v.clients_, c.request_.url.host = request.url.host) →
      pq (v.FreeConnection request.url.host) = none) :
    ProcessQueue_admit E pq s request mode = none := by
  unfold ProcessQueue_admit
  dsimp only
  rw [GetClient_all_busy E
    { s with connections_ := s.connections_.increment request.url.host } request hbusy]
  dsimp only
  apply MakeRequest_refused _ E hR hinit hhandle
  · simp [owner, client, setClient, emit, getD_length_append, set_length_append,
      HttpClient.new, HttpClient.set_mode]
  · intro code c hcb hcr
    simp only [owner, setClient, emit, set_length_append]
    unfold HttpClient_OnError HandleError
    dsimp only
    split
    · rfl
    · rename_i k hfind
      have hall : ∀ x ∈ s.clients_ ++ [c], x.request_.url.host = request.url.host := by
        intro x hx
        rcases List.mem_append.mp hx with hx | hx
        · exact hhost x hx
        · rw [List.mem_singleton] at hx
          rw [hx, hcr]
      have hallb : ∀ x ∈ s.clients_ ++ [c], x.busy_ = true := by
        intro x hx
        rcases List.mem_append.mp hx with hx | hx
        · exact hbusy x hx
        · rw [List.mem_singleton] at hx
          rw [hx, hcb]
      rw [FindClient_host _ _ _ request.url.host hfind hall]
      exact hpq _ rfl rfl hallb hall

theorem FreeConnection_clients (s : HttpManager) (g : string_t) :
    (s.FreeConnection g).clients_ = s.clients_ := by
  unfold FreeConnection
  split <;> rfl

/-- On an engine that refuses every option, the scheduler (with any two positive ceilings) does
not return when the queue holds one request, no connection is counted and every client is busy
on the host of that request: each call starts the request on a new client, is refused, and calls
itself from `HandleError` with the request still queued, at every depth of the stack. -/
theorem ProcessQueue_at_refused (G H : Nat) (hG : 0 < G) (hH : 0 < H) (E : Engine)
    (hR : ∀ c o, E.curl_easy_setopt c o ≠ CURLE_OK)
    (hinit : E.curl_global_initialized = true) (hhandle : ∀ c, E.curl_easy_init c = true)
    (request : HttpRequest) (mode : HttpClientMode) :
    ∀ (depth : Nat) (s : HttpManager), s.requests_ = [(request, mode)] →
      s.connections_.total = 0 → (∀ c ∈ s.clients_, c.busy_ = true) →
      (∀ c ∈ s.clients_, c.request_.url.host = request.url.host) →
      ProcessQueue_at G H E depth s = none := by
  have hloop : ∀ (pq : HttpManager → Option HttpManager),
      (∀ s : HttpManager, s.requests_ = [(request, mode)] →
        s.connections_.total = 0 → (∀ c ∈ s.clients_, c.busy_ = true) →
        (∀ c ∈ s.clients_, c.request_.url.host = request.url.host) → pq s = none) →
      ∀ s : HttpManager, s.requests_ = [(request, mode)] →
        s.connections_.total = 0 → (∀ c ∈ s.clients_, c.busy_ = true) →
        (∀ c ∈ s.clients_, c.request_.url.host = request.url.host) →
        ProcessQueue_loop_at G H E pq (s.requests_.length + 1) s.connections_.total 0 s
          = none := by
    intro pq hpq s hq ht hb hh
    have hat : s.connections_.at_ request.url.host = 0 := by
      have := Connections.at_le_total s.connections_ request.url.host
      omega
    have hadm : ProcessQueue_admit E pq
        { s with connections_ := s.connections_.touch request.url.host } request mode = none := by
      refine ProcessQueue_admit_refused E hR hinit hhandle pq
        { s with connections_ := s.connections_.touch request.url.host } request mode hb hh ?_
      intro v hvC hvQ hvb hvh
      apply hpq
      · rw [FreeConnection_requests, hvQ]; exact hq
      · rw [FreeConnection_total, hvC, total_touch_increment, at_touch_increment, if_pos rfl, ht]
        simp
      · rw [FreeConnection_clients]; exact hvb
      · rw [FreeConnection_clients]; exact hvh
    unfold ProcessQueue_loop_at
    rw [if_pos (by rw [hq]; exact Nat.zero_lt_one), if_neg (by omega)]
    have h0 : s.requests_[0]? = some (request, mode) := by rw [hq]; rfl
    rw [h0]
    dsimp only
    rw [Connections.at_touch, if_neg (by omega), hadm]
  intro depth
  induction depth with
  | zero =>
    intro s hq ht hb hh
    exact hloop (fun _ => none) (fun _ _ _ _ _ => rfl) s hq ht hb hh
  | succ d ih =>
    intro s hq ht hb hh
    exact hloop (fun s1 => ProcessQueue_at G H E d s1) ih s hq ht hb hh

/-! ## More stack never changes a result -/

theorem andThen_mono {σ : Type} (a a1 : Option (σ × Bool)) (f f1 : σ → Option (σ × Bool))
    (ha : ∀ x, a = some x → a1 = some x) (hf : ∀ w x, f w = some x → f1 w = some x)
    (x : σ × Bool) (h : andThen a f = some x) : andThen a1 f1 = some x := by
  rcases andThen_eq_some a f x h with ⟨h1, h2⟩ | ⟨w, h1, h2⟩
  · rw [ha _ h1]
    obtain ⟨w, b⟩ := x
    simp only at h2
    subst h2
    rfl
  · rw [ha _ h1]
    exact hf w x h2

theorem TAIGA_CURL_SET_OPTION_mono {σ : Type} (O O1 : Owner σ) (E : Engine)
    (hself : O1.self = O.self)
    (hE : ∀ code w v, O.OnError code w = some v → O1.OnError code w = some v) :
    ∀ (options : List CURLoption) (w : σ) (r : σ × Bool),
      Client.TAIGA_CURL_SET_OPTION O E options w = some r →
      Client.TAIGA_CURL_SET_OPTION O1 E options w = some r := by
  intro options
  induction options with
  | nil => intro w r h; exact h
  | cons o rest ih =>
    intro w r h
    unfold Client.TAIGA_CURL_SET_OPTION at h ⊢
    rw [hself]
    dsimp only at h ⊢
    split at h
    · rename_i hc
      rw [if_pos hc]
      simp only [Option.map_eq_some'] at h ⊢
      obtain ⟨w1, hw1, hr⟩ := h
      exact ⟨w1, hE _ _ _ hw1, hr⟩
    · rename_i hc
      rw [if_neg hc]
      exact ih w r h

theorem SetRequestOptions_mono {σ : Type} (O O1 : Owner σ) (E : Engine)
    (hself : O1.self = O.self) (hupd : O1.update = O.update)
    (hE : ∀ code w v, O.OnError code w = some v → O1.OnError code w = some v)
    (w : σ) (r : σ × Bool) (h : Client.SetRequestOptions O E w = some r) :
    Client.SetRequestOptions O1 E w = some r := by
  have key := TAIGA_CURL_SET_OPTION_mono O O1 E hself hE
  unfold Client.SetRequestOptions at h ⊢
  rw [hself, hupd]
  refine andThen_mono _ _ _ _ (fun x hx => key _ _ _ hx) ?_ r h
  intro w1 x1 h1
  refine andThen_mono _ _ _ _ ?_ ?_ x1 h1
  · intro x hx
    split at hx
    · rename_i hm
      rw [if_pos hm]
      exact key _ _ _ hx
    · rename_i hm
      rw [if_neg hm]
      exact hx
  · intro w2 x2 h2
    refine andThen_mono _ _ _ _ (fun x hx => key _ _ _ hx) ?_ x2 h2
    intro w3 x3 h3
    exact key _ _ _ h3

theorem MakeRequest_mono {σ : Type} (O O1 : Owner σ) (E : Engine)
    (hself : O1.self = O.self) (hupd : O1.update = O.update)
    (hE : ∀ code w v, O.OnError code w = some v → O1.OnError code w = some v)
    (request : HttpRequest) (w : σ) (r : σ × Bool)
    (h : Client.MakeRequest O E request w = some r) :
    Client.MakeRequest O1 E request w = some r := by
  unfold Client.MakeRequest at h ⊢
  rw [hself, hupd]
  split at h
  · rename_i hb
    rw [if_pos hb]
    exact h
  · rename_i hb
    rw [if_neg hb]
    dsimp only at h ⊢
    generalize Client.Initialize E _ = ini at h ⊢
    obtain ⟨c2, initialized⟩ := ini
    cases initialized
    · exact h
    · simp only [if_true] at h ⊢
      have hst : ∀ x, andThen (Client.SetRequestOptions O E (O.update w c2))
            (fun w3 => some (Client.SendRequest O E w3)) = some x →
          andThen (Client.SetRequestOptions O1 E (O.update w c2))
            (fun w3 => some (Client.SendRequest O1 E w3)) = some x := by
        intro x hx
        refine andThen_mono _ _ _ _
          (fun y hy => SetRequestOptions_mono O O1 E hself hupd hE _ _ hy) ?_ x hx
        intro w3 y hy
        simp only [Client.SendRequest, hself] at hy ⊢
        exact hy
      split at h
      · cases h
      · rename_i w4 hs
        rw [hst _ hs]
        exact h
      · rename_i w4 hs
        rw [hst _ hs]
        exact h

theorem HandleError_mono (pq pq1 : HttpManager → Option HttpManager)
    (hpq : ∀ s t, pq s = some t → pq1 s = some t) (s t : HttpManager)
    (response : HttpResponse) (error : string_t)
    (h : HandleError pq s response error = some t) :
    HandleError pq1 s response error = some t := by
  unfold HandleError at h ⊢
  cases hk : FindClient s response.uid with
  | none => rw [hk] at h; cases h
  | some k =>
    rw [hk] at h
    exact hpq _ _ h

theorem ProcessQueue_admit_mono (E : Engine) (pq pq1 : HttpManager → Option HttpManager)
    (hpq : ∀ s t, pq s = some t → pq1 s = some t) (s : HttpManager) (request : HttpRequest)
    (mode : HttpClientMode) (r : HttpManager × Bool)
    (h : ProcessQueue_admit E pq s request mode = some r) :
    ProcessQueue_admit E pq1 s request mode = some r := by
  unfold ProcessQueue_admit at h ⊢
  dsimp only at h ⊢
  refine MakeRequest_mono (owner E pq _) (owner E pq1 _) E rfl rfl ?_ _ _ _ h
  intro code w v hv
  exact HandleError_mono pq pq1 hpq _ _ _ _ hv

theorem ProcessQueue_loop_mono (E : Engine) (pq pq1 : HttpManager → Option HttpManager)
    (hpq : ∀ s t, pq s = some t → pq1 s = some t) :
    ∀ (fuel c i : Nat) (s t : HttpManager), ProcessQueue_loop E pq fuel c i s = some t →
      ProcessQueue_loop E pq1 fuel c i s = some t := by
  intro fuel
  induction fuel with
  | zero => intro c i s t h; simp [ProcessQueue_loop] at h
  | succ fuel ih =>
    intro c i s t h
    unfold ProcessQueue_loop at h ⊢
    split at h
    · rename_i hlt
      rw [if_pos hlt]
      split at h
      · rename_i hc
        rw [if_pos hc]
        exact h
      · rename_i hc
        rw [if_neg hc]
        split at h
        · cases h
        · rename_i request mode hreq
          dsimp only at h ⊢
          split at h
          · rename_i hat
            rw [if_pos hat]
            exact ih _ _ _ _ h
          · rename_i hat
            rw [if_neg hat]
            split at h
            · cases h
            · rename_i s5 b hadm
              rw [ProcessQueue_admit_mono E pq pq1 hpq _ _ _ _ hadm]
              dsimp only
              split at h
              · rename_i h5
                rw [if_pos h5]
                exact ih _ _ _ _ h
              · cases h
    · rename_i hlt
      rw [if_neg hlt]
      exact h

/-- A result of the scheduler does not depend on the stack that was left over: with more stack
the call returns the same state. -/
theorem ProcessQueue_depth_mono (E : Engine) :
    ∀ (depth more : Nat) (s t : HttpManager), ProcessQueue E depth s = some t →
      ProcessQueue E (depth + more) s = some t := by
  have hstep : ∀ (depth : Nat) (s t : HttpManager), ProcessQueue E depth s = some t →
      ProcessQueue E (depth + 1) s = some t := by
    intro depth
    induction depth with
    | zero =>
      intro s t h
      exact ProcessQueue_loop_mono E (fun _ => none) _ (fun _ _ h => by cases h) _ _ _ _ _ h
    | succ d ih =>
      intro s t h
      exact ProcessQueue_loop_mono E (fun s1 => ProcessQueue E d s1) _ ih _ _ _ _ _ h
  intro depth more
  induction more with
  | zero => intro s t h; exact h
  | succ m ih => intro s t h; exact hstep _ _ _ (ih s t h)

/-! ## A refused option inside the scheduler's loop -/

/-- C10 at its failing inputs.  The state has the counter of "a" at 6, the counter of "b" at 1,
the sum at 7 and the queue [request "1" to "a", request "2" to "b"].  With an idle client that
can be reused for "b", on the engine that refuses request "2" once, `ProcessQueue` does not
return at any depth of the stack: the refused start re-enters the scheduler from `HandleError`
with request "2" still queued, the nested call starts it on a new client and erases it, and the
outer call then erases past the end of the queue.  On the engine whose handle cannot be
initialised, `ProcessQueue` returns with request "2" out of the queue and the counter of "b"
raised, but no client is busy (no transfer was started) and no terminal outcome is recorded. -/
theorem free_host_request_is_not_started :
    (saturated_host_then_free_host_with_idle_client.connections_.at_ "a" = 6
      ∧ saturated_host_then_free_host_with_idle_client.connections_.at_ "b" = 1
      ∧ saturated_host_then_free_host_with_idle_client.connections_.total = 7
      ∧ saturated_host_then_free_host_with_idle_client.requests_.map
          (fun e => (e.1.uid, e.1.url.host)) = [("1", "a"), ("2", "b")])
    ∧ (∀ depth : Nat, ProcessQueue (Engine.refusing_once "2") depth
        saturated_host_then_free_host_with_idle_client = none)
    ∧ (ProcessQueue Engine.uninitialized 0 saturated_host_then_free_host).map
        (fun t => (t.requests_.map (fun e => e.1.uid), t.connections_,
          t.clients_.map (fun c => c.busy_), terminal_outcomes "2" t.trace))
      = some (["1"], [("a", 6), ("b", 2)], [false], []) := by
  refine ⟨by decide, ?_, by decide⟩
  intro depth
  cases depth with
  | zero => decide
  | succ d =>
    cases d with
    | zero => decide
    | succ d => rfl

/-- C11 at its failing input: ceilings 2 and 1, empty manager, an engine that refuses every
option.  The first submission does not return at any depth of the stack (the scheduler starts
request 1, is refused, and calls itself from `HandleError` with request 1 still queued), so
neither does the sequence of the three submissions. -/
theorem two_hosts_scenario_never_returns_on_refusing_engine (depth : Nat) :
    run_at 2 1 Engine.refusing depth
        [Op.MakeRequest (HttpRequest.get "1" "A") kHttpSilent] HttpManager.empty = none
    ∧ run_at 2 1 Engine.refusing depth
        [Op.MakeRequest (HttpRequest.get "1" "A") kHttpSilent,
         Op.MakeRequest (HttpRequest.get "2" "B") kHttpSilent,
         Op.MakeRequest (HttpRequest.get "3" "A") kHttpSilent] HttpManager.empty = none := by
  have h := ProcessQueue_at_refused 2 1 (by decide) (by decide) Engine.refusing
    (fun _ _ h => by cases h) rfl (fun _ => rfl) (HttpRequest.get "1" "A") kHttpSilent depth
    { HttpManager.empty with requests_ := [(HttpRequest.get "1" "A", kHttpSilent)] }
    rfl rfl (fun c hc => by cases hc) (fun c hc => by cases hc)
  constructor
  · show ((some ({ HttpManager.empty with
        requests_ := [(HttpRequest.get "1" "A", kHttpSilent)] } : HttpManager)).bind
          (ProcessQueue_at 2 1 Engine.refusing depth)).bind
        (run_at 2 1 Engine.refusing depth []) = none
    rw [Option.some_bind, h]
    rfl
  · show ((some ({ HttpManager.empty with
        requests_ := [(HttpRequest.get "1" "A", kHttpSilent)] } : HttpManager)).bind
          (ProcessQueue_at 2 1 Engine.refusing depth)).bind
        (run_at 2 1 Engine.refusing depth
          [Op.MakeRequest (HttpRequest.get "2" "B") kHttpSilent,
           Op.MakeRequest (HttpRequest.get "3" "A") kHttpSilent]) = none
    rw [Option.some_bind, h]
    rfl

/-- C12 at its failing input: the state reached by `stale_client_then_two_waiting` with one
connection of "a" released (queue ["8", "9"], counter of "a" at 5, client 0 idle), on the engine
that refuses request "8" once.  `ProcessQueue` returns with an empty queue, having called
`client.MakeRequest` for request "8" twice (on client 0, refused, and on the new client 7) and
never for request "9": the entries that left the queue are not the requests that were started.
With no stack left for the nested call it does not return. -/
theorem scheduler_erases_a_request_it_never_started :
    (one_slot_released.requests_.map (fun e => e.1.uid) = ["8", "9"]
      ∧ one_slot_released.connections_ = [("a", 5)]
      ∧ (started_requests one_slot_released.trace).map (fun r => r.uid)
          = ["1", "2", "3", "4", "5", "6", "7"])
    ∧ (∀ depth : Nat,
        (ProcessQueue (Engine.refusing_once "8") (depth + 1) one_slot_released).map
          (fun t => (t.requests_.map (fun e => e.1.uid),
            (started_requests t.trace).map (fun r => r.uid), started_clients t.trace))
        = some ([], ["1", "2", "3", "4", "5", "6", "7", "8", "8"],
            [0, 1, 2, 3, 4, 5, 6, 0, 7]))
    ∧ ProcessQueue (Engine.refusing_once "8") 0 one_slot_released = none := by
  refine ⟨by decide, ?_, by decide⟩
  intro depth
  have h1 : (ProcessQueue (Engine.refusing_once "8") 1 one_slot_released).map
      (fun t => (t.requests_.map (fun e => e.1.uid),
        (started_requests t.trace).map (fun r => r.uid), started_clients t.trace))
      = some ([], ["1", "2", "3", "4", "5", "6", "7", "8", "8"],
          [0, 1, 2, 3, 4, 5, 6, 0, 7]) := by decide
  obtain ⟨t, ht, hv⟩ := Option.map_eq_some'.mp h1
  have h2 := ProcessQueue_depth_mono (Engine.refusing_once "8") 1 depth _ _ ht
  rw [Nat.add_comm] at h2
  rw [h2]
  exact congrArg some hv

/-- C16 at its failing input: a silent request to "x" is admitted, its transfer is redirected to
"y" and then fails with `CURLE_COULDNT_CONNECT`.  `OnError` surfaces nothing (no UI call, no
collaborator call) and the scheduler runs, but no counter is decremented: the counters are
"x" 0 and "y" 1 before the failure and after it, and `FreeConnection` logs that the counter of "x"
was already zero. -/
theorem silent_error_after_redirect_releases_nothing :
    (run Engine.working 0 (redirected_then_failed.take 2) HttpManager.empty).map
        (fun s => (s.connections_, (s.client 0).mode_, (s.client 0).busy_))
      = some ([("x", 0), ("y", 1)], kHttpSilent, true)
    ∧ (run Engine.working 0 redirected_then_failed HttpManager.empty).map
        (fun s => (s.connections_, s.requests_.length,
          (s.trace.filterMap Event.collaborator).length,
          (s.trace.flatMap Event.ui_calls).length,
          (terminal_outcomes "1" s.trace).length,
          decide (Event.LOG_LevelError_already_zero "x" ∈ s.trace)))
      = some ([("x", 0), ("y", 1)], 0, 0, 0, 1, true) := by
  decide

/-- C19 at its failing input: the state in which `OnError` calls `HandleError` when the
scheduler, run on `one_slot_released`, has started request "8" on client 0 and the engine has
refused the first option.  The client found for the response is client 0, busy with request "8";
request "8" is still in the queue.  `HandleError` starts request "8" again, on the new client 7,
and takes it out of the queue.  (The second part says that this state is the one of the run: the
admission step of the scheduler is `OnError` on that state, followed by `Cleanup`.) -/
theorem HandleError_starts_the_failed_request_again :
    (FindClient refused_inside_the_loop "8" = some 0
      ∧ ((refused_inside_the_loop.client 0).request_.uid,
          (refused_inside_the_loop.client 0).busy_,
          (refused_inside_the_loop.client 0).response_.uid) = ("8", true, "8")
      ∧ refused_inside_the_loop.requests_.map (fun e => e.1.uid) = ["8", "9"]
      ∧ (started_requests refused_inside_the_loop.trace).map (fun r => r.uid)
          = ["1", "2", "3", "4", "5", "6", "7", "8"])
    ∧ ProcessQueue_admit (Engine.refusing_once "8") (ProcessQueue (Engine.refusing_once "8") 0)
        { one_slot_released with connections_ := one_slot_released.connections_.touch "a" }
        (HttpRequest.get "8" "a") kHttpSilent
      = (HttpClient_OnError (Engine.refusing_once "8") (ProcessQueue (Engine.refusing_once "8") 0)
          0 27 refused_inside_the_loop).map
          (fun v => (v.setClient 0 (Client.Cleanup (v.client 0) false), false))
    ∧ (∀ depth : Nat,
        (HandleError (ProcessQueue (Engine.refusing_once "8") depth) refused_inside_the_loop
          (refused_inside_the_loop.client 0).response_ "HTTP error #27: error").map
          (fun t => (t.requests_.map (fun e => e.1.uid),
            (started_requests t.trace).map (fun r => r.uid), started_clients t.trace))
        = some (["9"], ["1", "2", "3", "4", "5", "6", "7", "8", "8"],
            [0, 1, 2, 3, 4, 5, 6, 0, 7])) := by
  refine ⟨by decide, by decide, ?_⟩
  intro depth
  have h1 : (HandleError (ProcessQueue (Engine.refusing_once "8") 0) refused_inside_the_loop
      (refused_inside_the_loop.client 0).response_ "HTTP error #27: error").map
      (fun t => (t.requests_.map (fun e => e.1.uid),
        (started_requests t.trace).map (fun r => r.uid), started_clients t.trace))
      = some (["9"], ["1", "2", "3", "4", "5", "6", "7", "8", "8"],
          [0, 1, 2, 3, 4, 5, 6, 0, 7]) := by decide
  obtain ⟨t, ht, hv⟩ := Option.map_eq_some'.mp h1
  have h2 := HandleError_mono _ (ProcessQueue (Engine.refusing_once "8") depth)
    (fun a b hab => by
      have := ProcessQueue_depth_mono (Engine.refusing_once "8") 0 depth a b hab
      rw [Nat.zero_add] at this
      exact this) _ _ _ _ ht
  rw [h2]
  exact congrArg some hv

/-- C22 at its failing inputs.  On `one_slot_released` (queue ["8", "9"], counter of "a" at 5)
the reference pass starts request "8" and leaves request "9" queued; on the engine that refuses
request "8" once, `ProcessQueue` starts request "8" twice and leaves the queue empty, request "9"
never started.  On the engine that refuses every option, `ProcessQueue` on a queue of one
request and no client does not return at any depth of the stack. -/
theorem ProcessQueue_departs_from_reference_pass :
    ((reference_scheduler one_slot_released).started.map (fun r => r.uid) = ["8"]
      ∧ (reference_scheduler one_slot_released).remaining.map (fun e => e.1.uid) = ["9"]
      ∧ (reference_scheduler one_slot_released).counters "a" = 6
      ∧ (reference_scheduler one_slot_released).sum = 6)
    ∧ (∀ depth : Nat,
        (ProcessQueue (Engine.refusing_once "8") (depth + 1) one_slot_released).map
          (fun t => (((started_requests t.trace).drop
              (started_requests one_slot_released.trace).length).map (fun r => r.uid),
            t.requests_.map (fun e => e.1.uid), t.connections_.at_ "a", t.connections_.total))
        = some (["8", "8"], [], 6, 6))
    ∧ (∀ depth : Nat, ProcessQueue Engine.refusing depth
        { HttpManager.empty with requests_ := [(HttpRequest.get "1" "A", kHttpSilent)] }
        = none) := by
  refine ⟨by decide, ?_, ?_⟩
  · intro depth
    have h1 : (ProcessQueue (Engine.refusing_once "8") 1 one_slot_released).map
        (fun t => (((started_requests t.trace).drop
            (started_requests one_slot_released.trace).length).map (fun r => r.uid),
          t.requests_.map (fun e => e.1.uid), t.connections_.at_ "a", t.connections_.total))
        = some (["8", "8"], [], 6, 6) := by decide
    obtain ⟨t, ht, hv⟩ := Option.map_eq_some'.mp h1
    have h2 := ProcessQueue_depth_mono (Engine.refusing_once "8") 1 depth _ _ ht
    rw [Nat.add_comm] at h2
    rw [h2]
    exact congrArg some hv
  · intro depth
    rw [← ProcessQueue_at_constants]
    exact ProcessQueue_at_refused _ _ (by decide) (by decide) Engine.refusing
      (fun _ _ h => by cases h) rfl (fun _ => rfl) (HttpRequest.get "1" "A") kHttpSilent depth
      _ rfl rfl (fun c hc => by cases hc) (fun c hc => by cases hc)

/-- C24 at its failing input: the state reached by `redirected_away_from_full_host` (counters
"w" 2, "q" 2, "y" 4, within the ceilings; requests "e1" to "e5" to "q" waiting; client 2 idle), on
the engine that refuses request "e1" once.  `ProcessQueue` returns with request "e5" still
queued although the counter of its host is 5, and with the sum of the counters at 11: the nested
call started from `HandleError` has admitted "e1" and "e2", and the outer loop, which still counts
from its own stale sum, erases "e3" without starting it and admits "e4". -/
theorem ProcessQueue_leaves_admissible_request_behind :
    (five_waiting_within_ceilings.connections_ = [("w", 2), ("q", 2), ("y", 4)]
      ∧ five_waiting_within_ceilings.connections_.total = 8
      ∧ five_waiting_within_ceilings.requests_.map (fun e => (e.1.uid, e.1.url.host))
          = [("e1", "q"), ("e2", "q"), ("e3", "q"), ("e4", "q"), ("e5", "q")])
    ∧ (∀ depth : Nat,
        (ProcessQueue (Engine.refusing_once "e1") (depth + 1) five_waiting_within_ceilings).map
          (fun t => (t.requests_.map (fun e => (e.1.uid, e.1.url.host)), t.connections_,
            t.connections_.total,
            ((started_requests t.trace).drop
              (started_requests five_waiting_within_ceilings.trace).length).map
              (fun r => r.uid)))
        = some ([("e5", "q")], [("w", 2), ("q", 5), ("y", 4)], 11, ["e1", "e1", "e2", "e4"])) := by
  refine ⟨by decide, ?_⟩
  intro depth
  have h1 : (ProcessQueue (Engine.refusing_once "e1") 1 five_waiting_within_ceilings).map
      (fun t => (t.requests_.map (fun e => (e.1.uid, e.1.url.host)), t.connections_,
        t.connections_.total,
        ((started_requests t.trace).drop
          (started_requests five_waiting_within_ceilings.trace).length).map
          (fun r => r.uid)))
      = some ([("e5", "q")], [("w", 2), ("q", 5), ("y", 4)], 11, ["e1", "e1", "e2", "e4"]) := by
    decide
  obtain ⟨t, ht, hv⟩ := Option.map_eq_some'.mp h1
  have h2 := ProcessQueue_depth_mono (Engine.refusing_once "e1") 1 depth _ _ ht
  rw [Nat.add_comm] at h2
  rw [h2]
  exact congrArg some hv


/-! ## Default header fields, keys in lower case -/

/-- A `POST` request whose caller wrote `accept` and `content-type` in lower case: both count as
supplied, the header map is unchanged and the header list gets exactly the caller's two lines. -/
theorem BuildRequestHeader_keeps_lower_case_fields :
    ((Client.BuildRequestHeader
        { HttpClient.null with
          request_ := { HttpRequest.get "1" "x" with
            method := "POST",
            header := [("accept", "text/html"), ("content-type", "text/plain")] } }).request_.header,
      (Client.BuildRequestHeader
        { HttpClient.null with
          request_ := { HttpRequest.get "1" "x" with
            method := "POST",
            header := [("accept", "text/html"), ("content-type", "text/plain")] } }).header_list_)
    = ([("accept", "text/html"), ("content-type", "text/plain")],
        ["accept: text/html", "content-type: text/plain"]) := by
  decide

end taiga
